import Mathlib

/-! VAudio-MiniMP3: the streaming chunk window of `CMiniMP3AudioStream`.

A shallow embedding of `src/vaudio_minimp3.cpp`.

* `unsigned int` members are natural numbers kept below `2 ^ 32`; every C++
  operation that can wrap is written with an explicit `% UINT_RANGE`.
* The host data source (`IAudioStreamEvent::StreamRequestData`) and the frame
  decoder (`mp3dec_decode_frame` of minimp3.h) are not part of the source file:
  they are parameters, bundled in `Host`.  Each carries its own state, so a
  stateful source and the decoder's `mp3dec_t` are both covered.
* The stream object records every call it makes to those two collaborators in
  a ghost field `log` (newest event first).
* Byte buffers are functions from an index to a byte.
* The counts that the collaborators report (bytes read, samples, frame bytes,
  channels) are natural numbers; the bounds a claim assumes on them are stated
  as hypotheses on the `Host`.
* `Decode` can spin (a frame with samples but no channels adds nothing to
  `uSampleBytes`), so its loop takes a number of rounds and returns `none` when
  they run out.
-/

namespace VAudioMiniMP3

/-! ## Constants -/

/-- The size of one chunk, `kChunkSize`. -/
def kChunkSize : Nat := 4096

/-- The number of chunks, `kChunkCount`. -/
def kChunkCount : Nat := 4

/-- The range of `unsigned int`. -/
def UINT_RANGE : Nat := 4294967296

/-- The initial value `~0u` of `m_nEOFPosition`. -/
def kNoEOF : Nat := 4294967295

/-- The value of `sizeof( short )`. -/
def sizeofShort : Nat := 2

/-- Modelled from the spec: the constant `MINIMP3_MAX_SAMPLES_PER_FRAME` of minimp3.h, which is
not in the source tree; one maximum decoded frame is 1152 samples for each of 2 channels. -/
def MINIMP3_MAX_SAMPLES_PER_FRAME : Nat := 1152 * 2

/-- The local constant `kSamplesPerFrameBufferSize` of `Decode` (4608 bytes). -/
def kSamplesPerFrameBufferSize : Nat := MINIMP3_MAX_SAMPLES_PER_FRAME * sizeofShort

/-- The value of `sizeof( m_Frames )`: the whole window, 16384 bytes. -/
def sizeofFrames : Nat := kChunkSize * kChunkCount

/-! ## Buffers -/

/-- A byte buffer, addressed by index. -/
abbrev Bytes := Nat → Nat

/-- Copy `len` bytes of `src` to `dst` starting at `off`. -/
def writeBytes (dst : Bytes) (off len : Nat) (src : Bytes) : Bytes :=
  fun i => if off ≤ i ∧ i < off + len then src (i - off) else dst i

/-- The call `memset( p, 0, len )`. -/
def memsetZero (dst : Bytes) (len : Nat) : Bytes :=
  fun i => if i < len then 0 else dst i

/-- The two calls `memcpy` of `DecodeFrame`: chunk 0 becomes chunk 2 and chunk 1 becomes chunk 3. -/
def moveChunksBack (full : Bytes) : Bytes :=
  fun i => if i < 2 * kChunkSize then full (i + 2 * kChunkSize) else full i

/-! ## Collaborators -/

/-- The fields of `mp3dec_frame_info_t` that the stream reads. -/
structure mp3dec_frame_info_t where
  frame_bytes : Nat
  channels : Nat
  hz : Nat
  bitrate_kbps : Nat
deriving DecidableEq, Repr

/-- What one call of `StreamRequestData` delivers: the count it returns and the bytes it stored. -/
structure ChunkData where
  count : Nat
  bytes : Bytes

/-- What one call of `mp3dec_decode_frame` delivers: the samples it returns, the frame info it
leaves behind, the PCM bytes it produced and its new internal state. -/
structure FrameResult (D : Type) where
  samples : Nat
  info : mp3dec_frame_info_t
  pcm : Bytes
  dec : D

/-- Modelled from the spec: the two external collaborators, whose code is not in the source tree.
`StreamRequestData w bytesRequested offset` is the data source; `mp3dec_decode_frame dec mp3
mp3_bytes wantPcm info` is the frame decoder, where `mp3` is the view starting at the frame
cursor, `wantPcm` is false when the PCM pointer is null, and `info` is the frame info it is handed.
`mp3dec_init` is the decoder state after `mp3dec_init`. -/
structure Host (W D : Type) where
  StreamRequestData : W → Nat → Nat → ChunkData × W
  mp3dec_init : D
  mp3dec_decode_frame : D → Bytes → Nat → Bool → mp3dec_frame_info_t → FrameResult D

/-- One call made to a collaborator. `read` is a `StreamRequestData` call for a chunk at a stream
offset with the count it returned; `frame` is a `mp3dec_decode_frame` call with the frame cursor
and view length it was given, the offset of the PCM destination in the caller's buffer (none for a
null pointer), and the samples, frame bytes and channels it reported. -/
inductive Event where
  | read (nChunkIdx offset count : Nat)
  | frame (framePos mp3_bytes : Nat) (pcmAt : Option Nat) (samples frame_bytes channels : Nat)
deriving DecidableEq, Repr

/-! ## The stream object -/

/-- The members of `CMiniMP3AudioStream`, with the state of the event handler behind
`m_pEventHandler` and the ghost `log`. -/
structure CMiniMP3AudioStream (W D : Type) where
  m_Decoder : D
  m_Info : mp3dec_frame_info_t
  m_uDataPosition : Nat
  m_uFramePosition : Nat
  m_pEventHandler : W
  m_FullFrame : Bytes
  m_nChunkSize : Nat → Nat
  m_nEOFPosition : Nat
  log : List Event

section Operations

variable {W D : Type}

/-- The member function `GetTotalChunkSizes`. -/
def GetTotalChunkSizes (s : CMiniMP3AudioStream W D) : Nat :=
  (s.m_nChunkSize 0 + s.m_nChunkSize 1 + s.m_nChunkSize 2 + s.m_nChunkSize 3) % UINT_RANGE

/-- The member function `SamplesToBytes`. -/
def SamplesToBytes (s : CMiniMP3AudioStream W D) (nSamples : Nat) : Nat :=
  (nSamples * sizeofShort * s.m_Info.channels) % UINT_RANGE

/-- The member function `GetPosition`. -/
def GetPosition (s : CMiniMP3AudioStream W D) : Nat :=
  ((s.m_uDataPosition + UINT_RANGE - sizeofFrames) % UINT_RANGE + s.m_uFramePosition) % UINT_RANGE

/-- The member function `GetOutputChannels`. -/
def GetOutputChannels (s : CMiniMP3AudioStream W D) : Nat :=
  max s.m_Info.channels 1

/-- The member function `StreamChunk`: returns whether the read was short, and the new state. -/
def StreamChunk (h : Host W D) (s : CMiniMP3AudioStream W D) (nChunkIdx : Nat) :
    Bool × CMiniMP3AudioStream W D :=
  let r := h.StreamRequestData s.m_pEventHandler kChunkSize s.m_uDataPosition
  let s1 : CMiniMP3AudioStream W D :=
    { s with
      m_pEventHandler := r.2
      m_FullFrame := writeBytes s.m_FullFrame (nChunkIdx * kChunkSize) (min r.1.count kChunkSize) r.1.bytes
      m_nChunkSize := Function.update s.m_nChunkSize nChunkIdx r.1.count
      m_uDataPosition := (s.m_uDataPosition + r.1.count) % UINT_RANGE
      log := Event.read nChunkIdx s.m_uDataPosition r.1.count :: s.log }
  (r.1.count != kChunkSize, s1)

/-- The loop `for ( i ...) { bEOF = StreamChunk( i ); if ( bEOF ) { m_nEOFPosition = m_uDataPosition; break; } }`
that both `UpdateStreamInfo` (chunks 0 to 3) and `DecodeFrame` (chunks 2 and 3) run. -/
def streamChunks (h : Host W D) : List Nat → CMiniMP3AudioStream W D → CMiniMP3AudioStream W D
  | [], s => s
  | i :: rest, s =>
    let r := StreamChunk h s i
    if r.1 then { r.2 with m_nEOFPosition := r.2.m_uDataPosition }
    else streamChunks h rest r.2

/-- The view length `GetTotalChunkSizes() - m_uFramePosition`, computed in `unsigned int`. -/
def viewLength (s : CMiniMP3AudioStream W D) : Nat :=
  (GetTotalChunkSizes s + UINT_RANGE - s.m_uFramePosition) % UINT_RANGE

/-- The view `&m_Frames.m_FullFrame[ m_uFramePosition ]`. -/
def viewBytes (s : CMiniMP3AudioStream W D) : Bytes :=
  fun i => s.m_FullFrame (s.m_uFramePosition + i)

/-- The member function `UpdateStreamInfo`. -/
def UpdateStreamInfo (h : Host W D) (s : CMiniMP3AudioStream W D) : CMiniMP3AudioStream W D :=
  let s1 := streamChunks h [0, 1, 2, 3] s
  let r := h.mp3dec_decode_frame s1.m_Decoder (viewBytes s1) (viewLength s1) false s1.m_Info
  { s1 with
    m_Decoder := r.dec
    m_Info := r.info
    log := Event.frame s1.m_uFramePosition (viewLength s1) none r.samples r.info.frame_bytes
      r.info.channels :: s1.log }

/-- The object before the constructor body runs `UpdateStreamInfo`. -/
def initial (h : Host W D) (w : W) : CMiniMP3AudioStream W D :=
  { m_Decoder := h.mp3dec_init
    m_Info := { frame_bytes := 0, channels := 0, hz := 0, bitrate_kbps := 0 }
    m_uDataPosition := 0
    m_uFramePosition := 0
    m_pEventHandler := w
    m_FullFrame := fun _ => 0
    m_nChunkSize := fun _ => 0
    m_nEOFPosition := kNoEOF
    log := [] }

/-- The constructor of `CMiniMP3AudioStream`, for an event handler in state `w`. -/
def construct (h : Host W D) (w : W) : CMiniMP3AudioStream W D :=
  UpdateStreamInfo h (initial h w)

/-- The member function `SetPosition`. -/
def SetPosition (h : Host W D) (s : CMiniMP3AudioStream W D) (uPosition : Nat) :
    CMiniMP3AudioStream W D :=
  UpdateStreamInfo h { s with m_uDataPosition := uPosition, m_uFramePosition := 0 }

/-- The body of the `while` loop of `DecodeFrame`: shift chunks 2 and 3 down, rebase the frame
cursor and fetch new chunks 2 and 3. -/
def shiftAndRefill (h : Host W D) (s : CMiniMP3AudioStream W D) : CMiniMP3AudioStream W D :=
  streamChunks h [2, 3]
    { s with
      m_FullFrame := moveChunksBack s.m_FullFrame
      m_nChunkSize := fun i =>
        if i = 0 then s.m_nChunkSize 2 else if i = 1 then s.m_nChunkSize 3
        else if i = 2 then 0 else if i = 3 then 0 else s.m_nChunkSize i
      m_uFramePosition := s.m_uFramePosition - 2 * kChunkSize }

/-- The `while` loop of `DecodeFrame`, run for at most `n` rounds. -/
def shiftLoop (h : Host W D) : Nat → CMiniMP3AudioStream W D → CMiniMP3AudioStream W D
  | 0, s => s
  | n + 1, s =>
    if 2 * kChunkSize ≤ s.m_uFramePosition ∧ s.m_uDataPosition < s.m_nEOFPosition then
      shiftLoop h n (shiftAndRefill h s)
    else s

/-- The member function `DecodeFrame`, writing PCM to `pBuffer + at`: returns the samples, the
caller's buffer and the new state. Every round of the `while` loop lowers the frame cursor by
`2 * kChunkSize`, so `m_uFramePosition / (2 * kChunkSize)` rounds always finish it
(`shiftLoop_finished`). -/
def DecodeFrame (h : Host W D) (s : CMiniMP3AudioStream W D) (pBuffer : Bytes) (pcmAt : Nat) :
    Nat × Bytes × CMiniMP3AudioStream W D :=
  let s1 := shiftLoop h (s.m_uFramePosition / (2 * kChunkSize)) s
  let r := h.mp3dec_decode_frame s1.m_Decoder (viewBytes s1) (viewLength s1) true s1.m_Info
  let s2 : CMiniMP3AudioStream W D :=
    { s1 with
      m_Decoder := r.dec
      m_Info := r.info
      m_uFramePosition := (s1.m_uFramePosition + r.info.frame_bytes) % UINT_RANGE
      log := Event.frame s1.m_uFramePosition (viewLength s1) (some pcmAt) r.samples
        r.info.frame_bytes r.info.channels :: s1.log }
  (r.samples, writeBytes pBuffer pcmAt (r.samples * sizeofShort * r.info.channels) r.pcm, s2)

/-- The `while` loop of `Decode` with `fuel` rounds allowed: `none` when the rounds run out,
otherwise the state, the caller's buffer and `uSampleBytes` when the loop is left. -/
def decodeLoop (h : Host W D) (uBufferSize : Nat) :
    Nat → CMiniMP3AudioStream W D → Bytes → Nat → Option (CMiniMP3AudioStream W D × Bytes × Nat)
  | 0, s, pBuffer, uSampleBytes =>
    if kSamplesPerFrameBufferSize < (uBufferSize + UINT_RANGE - uSampleBytes) % UINT_RANGE then none
    else some (s, pBuffer, uSampleBytes)
  | fuel + 1, s, pBuffer, uSampleBytes =>
    if kSamplesPerFrameBufferSize < (uBufferSize + UINT_RANGE - uSampleBytes) % UINT_RANGE then
      let r := DecodeFrame h s pBuffer uSampleBytes
      if r.1 = 0 then some (r.2.2, r.2.1, uSampleBytes)
      else decodeLoop h uBufferSize fuel r.2.2 r.2.1
        ((uSampleBytes + SamplesToBytes r.2.2 r.1) % UINT_RANGE)
    else some (s, pBuffer, uSampleBytes)

/-- The member function `Decode` with `fuel` rounds allowed for its loop: the value returned (the
32-bit value that the `int` result carries), the caller's buffer and the new state. -/
def Decode (h : Host W D) (fuel : Nat) (s : CMiniMP3AudioStream W D) (pBuffer : Bytes)
    (uBufferSize : Nat) : Option (Nat × Bytes × CMiniMP3AudioStream W D) :=
  if uBufferSize < kSamplesPerFrameBufferSize then some (0, pBuffer, s)
  else
    match decodeLoop h uBufferSize fuel s pBuffer 0 with
    | none => none
    | some (s1, buf1, uSampleBytes) =>
      if uSampleBytes = 0 ∧ ¬ (s1.m_nEOFPosition ≤ s1.m_uDataPosition) then
        let kZeroSampleBytes := max (SamplesToBytes s1 1152) uBufferSize
        some (kZeroSampleBytes, memsetZero buf1 kZeroSampleBytes, s1)
      else some (uSampleBytes, buf1, s1)

/-- The states an object can be in when no `SetPosition` call was made: the constructor followed by
`Decode` calls that returned. -/
inductive ReachableByDecode (h : Host W D) : CMiniMP3AudioStream W D → Prop where
  | construct (w : W) : ReachableByDecode h (construct h w)
  | decode {s s1 : CMiniMP3AudioStream W D} {fuel uBufferSize n : Nat} {pBuffer buf1 : Bytes} :
      ReachableByDecode h s → Decode h fuel s pBuffer uBufferSize = some (n, buf1, s1) →
      ReachableByDecode h s1

/-- The states an object can be in: the constructor followed by `Decode` calls that returned and
`SetPosition` calls with an `unsigned int` argument. -/
inductive Reachable (h : Host W D) : CMiniMP3AudioStream W D → Prop where
  | construct (w : W) : Reachable h (construct h w)
  | decode {s s1 : CMiniMP3AudioStream W D} {fuel uBufferSize n : Nat} {pBuffer buf1 : Bytes} :
      Reachable h s → Decode h fuel s pBuffer uBufferSize = some (n, buf1, s1) → Reachable h s1
  | seek {s : CMiniMP3AudioStream W D} (uPosition : Nat) :
      Reachable h s → uPosition < UINT_RANGE → Reachable h (SetPosition h s uPosition)

/-- The frame bytes reported by the `mp3dec_decode_frame` calls that `DecodeFrame` made (those with
a PCM destination), summed over a log. -/
def frameBytesOfDecode : List Event → Nat
  | [] => 0
  | Event.frame _ _ (some _) _ frame_bytes _ :: rest => frame_bytes + frameBytesOfDecode rest
  | _ :: rest => frameBytesOfDecode rest

/-- Whether an event is a call of the frame decoder. -/
def Event.isFrame : Event → Bool
  | Event.frame _ _ _ _ _ _ => true
  | Event.read _ _ _ => false

/-- Whether an event is a read of the data source that returned a whole chunk. -/
def Event.isFullRead : Event → Bool
  | Event.read _ _ count => count == kChunkSize
  | Event.frame _ _ _ _ _ _ => false

/-- Whether an event is a read of the data source that returned less or more than a whole chunk. -/
def Event.isShortRead : Event → Bool
  | Event.read _ _ count => count != kChunkSize
  | Event.frame _ _ _ _ _ _ => false

/-! ## Concrete collaborators used for evaluation -/

/-- A data source over a stream of `L` bytes (a read at offset `o` returns the bytes from `o` up to
the end, at most the number requested; byte `j` of the stream has the value `j % 251`), with a
frame decoder that finds no frame: no samples, `k` frame bytes skipped, `ch` channels reported. -/
def fileHost (L k ch : Nat) : Host Unit Unit :=
  { StreamRequestData := fun _ n o =>
      ({ count := min n (L - o), bytes := fun j => (o + j) % 251 }, ())
    mp3dec_init := ()
    mp3dec_decode_frame := fun _ _ _ _ info =>
      { samples := 0, info := { info with frame_bytes := k, channels := ch },
        pcm := fun _ => 0, dec := () } }

/-- A data source that returns a whole chunk on every read, with the frame decoder of `fileHost`. -/
def endlessHost (k ch : Nat) : Host Unit Unit :=
  { StreamRequestData := fun _ n o => ({ count := n, bytes := fun j => (o + j) % 251 }, ())
    mp3dec_init := ()
    mp3dec_decode_frame := fun _ _ _ _ info =>
      { samples := 0, info := { info with frame_bytes := k, channels := ch },
        pcm := fun _ => 0, dec := () } }

/-- A data source that returns a whole chunk on every read, with a frame decoder that decodes a
mono frame of 1152 samples from 417 bytes on every call. -/
def monoHost : Host Unit Unit :=
  { StreamRequestData := fun _ n o => ({ count := n, bytes := fun j => (o + j) % 251 }, ())
    mp3dec_init := ()
    mp3dec_decode_frame := fun _ _ _ _ _ =>
      { samples := 1152, info := { frame_bytes := 417, channels := 1, hz := 44100, bitrate_kbps := 128 },
        pcm := fun j => j % 256, dec := () } }

/-- The state of a stream whose source has never returned a short read: the data cursor is a
multiple of the chunk size inside the `unsigned int` range, the end of the stream is unknown, and
at most two channels are reported. -/
def EndlessInv (s : CMiniMP3AudioStream W D) : Prop :=
  s.m_uDataPosition % kChunkSize = 0 ∧ s.m_uDataPosition < UINT_RANGE ∧
    s.m_nEOFPosition = kNoEOF ∧ s.m_Info.channels ≤ 2

/-- The data source returns a whole chunk on every read. -/
def AlwaysFull (h : Host W D) : Prop :=
  ∀ (w : W) (o : Nat), (h.StreamRequestData w kChunkSize o).1.count = kChunkSize

/-- The frame decoder produces no samples on any call. -/
def NeverSamples (h : Host W D) : Prop :=
  ∀ (d : D) (mp3 : Bytes) (n : Nat) (b : Bool) (info : mp3dec_frame_info_t),
    (h.mp3dec_decode_frame d mp3 n b info).samples = 0

/-- The frame decoder reports at most two channels on every call: a frame of at most
`MINIMP3_MAX_SAMPLES_PER_FRAME` samples is 1152 samples for each of at most two channels. -/
def AtMostStereo (h : Host W D) : Prop :=
  ∀ (d : D) (mp3 : Bytes) (n : Nat) (b : Bool) (info : mp3dec_frame_info_t),
    (h.mp3dec_decode_frame d mp3 n b info).info.channels ≤ 2

/-- The frame decoder returns at most 1152 samples on every call. -/
def AtMostFrameSamples (h : Host W D) : Prop :=
  ∀ (d : D) (mp3 : Bytes) (n : Nat) (b : Bool) (info : mp3dec_frame_info_t),
    (h.mp3dec_decode_frame d mp3 n b info).samples ≤ 1152

/-- The PCM bytes written by the frame decoder calls of a log that had a PCM destination: two
bytes for each sample of each channel. -/
def pcmBytesOf : List Event → Nat
  | [] => 0
  | Event.frame _ _ (some _) samples _ channels :: rest =>
    samples * sizeofShort * channels + pcmBytesOf rest
  | _ :: rest => pcmBytesOf rest

/-- The frame decoder reports at least one channel whenever it returns samples. -/
def SamplesHaveChannels (h : Host W D) : Prop :=
  ∀ (d : D) (mp3 : Bytes) (n : Nat) (b : Bool) (info : mp3dec_frame_info_t),
    0 < (h.mp3dec_decode_frame d mp3 n b info).samples →
      0 < (h.mp3dec_decode_frame d mp3 n b info).info.channels

/-- A data source over a stream of `L` bytes, as in `fileHost`, with a frame decoder that decodes a
mono frame of 1152 samples from 417 bytes on every call. -/
def fileMonoHost (L : Nat) : Host Unit Unit :=
  { StreamRequestData := fun _ n o =>
      ({ count := min n (L - o), bytes := fun j => (o + j) % 251 }, ())
    mp3dec_init := ()
    mp3dec_decode_frame := fun _ _ _ _ _ =>
      { samples := 1152, info := { frame_bytes := 417, channels := 1, hz := 44100, bitrate_kbps := 128 },
        pcm := fun j => j % 256, dec := () } }

/-- A number of `Decode` calls one after the other, each with `fuel` rounds for its loop and a
fresh buffer of `uBufferSize` bytes: the object after the last call, or `none` when a call ran out
of rounds. -/
def decodeCalls (h : Host W D) (fuel uBufferSize : Nat) :
    Nat → CMiniMP3AudioStream W D → Option (CMiniMP3AudioStream W D)
  | 0, s => some s
  | k + 1, s =>
    match Decode h fuel s (fun _ => 0) uBufferSize with
    | none => none
    | some r => decodeCalls h fuel uBufferSize k r.2.2

/-- Once a state has its data cursor at or past `m_nEOFPosition`, or the end is still unknown. -/
def EofKnownOrUnset (s : CMiniMP3AudioStream W D) : Prop :=
  s.m_nEOFPosition = kNoEOF ∨ s.m_nEOFPosition = s.m_uDataPosition

/-- Whether an event is a frame decoder call that returned no samples. -/
def Event.isEmptyFrame : Event → Bool
  | Event.frame _ _ _ samples _ _ => samples == 0
  | Event.read _ _ _ => false

/-- The number of frame decoder calls in a log. -/
def frameCalls : List Event → Nat
  | [] => 0
  | Event.frame _ _ _ _ _ _ :: rest => frameCalls rest + 1
  | Event.read _ _ _ :: rest => frameCalls rest

/-- The count returned by the newest read of the data source in a log, if there is one. -/
def lastReadCount : List Event → Option Nat
  | [] => none
  | Event.read _ _ count :: _ => some count
  | Event.frame _ _ _ _ _ _ :: rest => lastReadCount rest

/-- Whether a frame decoder call was given a view inside the window: frame cursor plus view length
is at most `sizeof( m_Frames )`. The view length is `GetTotalChunkSizes() - m_uFramePosition` in
`unsigned int`, so this holds exactly when the cursor is at most the sum of the chunk sizes (no
underflow) and that sum is at most `sizeof( m_Frames )`. -/
def Event.viewInWindow : Event → Prop
  | Event.frame framePos mp3_bytes _ _ _ _ => framePos + mp3_bytes ≤ sizeofFrames
  | Event.read _ _ _ => True

/-- The first two chunks are behind the frame cursor and the end of the stream is not reached: the
condition of the `while` loop of `DecodeFrame`. -/
def shiftCondition (s : CMiniMP3AudioStream W D) : Prop :=
  2 * kChunkSize ≤ s.m_uFramePosition ∧ s.m_uDataPosition < s.m_nEOFPosition

/-- All four chunks are full, or the data cursor is where the end of the stream was found. -/
def FullOrEof (s : CMiniMP3AudioStream W D) : Prop :=
  (s.m_nChunkSize 0 = kChunkSize ∧ s.m_nChunkSize 1 = kChunkSize ∧ s.m_nChunkSize 2 = kChunkSize ∧
      s.m_nChunkSize 3 = kChunkSize) ∨
    s.m_nEOFPosition = s.m_uDataPosition

/-- The data source returns at most one chunk of bytes on every read. -/
def ReadsAtMostChunk (h : Host W D) : Prop :=
  ∀ (w : W) (o : Nat), (h.StreamRequestData w kChunkSize o).1.count ≤ kChunkSize

/-- The frame decoder never reports more frame bytes than the view length it was given. -/
def ConsumesWithinView (h : Host W D) : Prop :=
  ∀ (d : D) (mp3 : Bytes) (n : Nat) (b : Bool) (info : mp3dec_frame_info_t),
    (h.mp3dec_decode_frame d mp3 n b info).info.frame_bytes ≤ n

/-- The states reached from `s` by `Decode` calls that returned, with no `SetPosition` call. -/
inductive DecodedFrom (h : Host W D) (s : CMiniMP3AudioStream W D) :
    CMiniMP3AudioStream W D → Prop where
  | here : DecodedFrom h s s
  | decode {s1 s2 : CMiniMP3AudioStream W D} {fuel uBufferSize n : Nat} {pBuffer buf1 : Bytes} :
      DecodedFrom h s s1 → Decode h fuel s1 pBuffer uBufferSize = some (n, buf1, s2) →
      DecodedFrom h s s2

/-- A data source that returns a whole chunk on every read, with a frame decoder that returns
1073741824 samples for 2 channels on every call and consumes nothing. -/
def spinHost : Host Unit Unit :=
  { StreamRequestData := fun _ n o => ({ count := n, bytes := fun j => (o + j) % 251 }, ())
    mp3dec_init := ()
    mp3dec_decode_frame := fun _ _ _ _ _ =>
      { samples := 1073741824,
        info := { frame_bytes := 0, channels := 2, hz := 44100, bitrate_kbps := 128 },
        pcm := fun _ => 0, dec := () } }

/-- A short read is remembered: when the newest read in the log returned something other than a
whole chunk, `m_nEOFPosition` is the data cursor. -/
def ShortRemembered (s : CMiniMP3AudioStream W D) : Prop :=
  ∀ c, lastReadCount s.log = some c → c ≠ kChunkSize → s.m_nEOFPosition = s.m_uDataPosition

/-- The capacity invariant: the chunks are all full or the end was found at the data cursor, no
chunk size exceeds `kChunkSize`, the frame cursor is at most the sum of the chunk sizes, and
every frame decoder call in the log was given a view inside the window. -/
def CapacityInv (s : CMiniMP3AudioStream W D) : Prop :=
  FullOrEof s ∧ (∀ m, s.m_nChunkSize m ≤ kChunkSize) ∧
    s.m_uFramePosition ≤ GetTotalChunkSizes s ∧ ∀ e ∈ s.log, e.viewInWindow

/-- A deterministic data source over a stream of `L` bytes: a read of `kChunkSize` bytes at offset
`o` returns the stream bytes from `o` up to the end of the stream, at most `kChunkSize` of them
(none when `o` is at or past the end). -/
def ReadsStream (h : Host W D) (stream : Bytes) (L : Nat) : Prop :=
  ∀ (w : W) (o : Nat),
    (h.StreamRequestData w kChunkSize o).1.count = min kChunkSize (L - o) ∧
    ∀ j, j < min kChunkSize (L - o) →
      (h.StreamRequestData w kChunkSize o).1.bytes j = stream (o + j)

/-- The sum of the four chunk sizes, before the conversion to `unsigned int` that
`GetTotalChunkSizes` makes. -/
def chunkSum (s : CMiniMP3AudioStream W D) : Nat :=
  s.m_nChunkSize 0 + s.m_nChunkSize 1 + s.m_nChunkSize 2 + s.m_nChunkSize 3

/-- The window is a contiguous copy of the stream from offset `start`: no chunk size exceeds
`kChunkSize`, a chunk that is not full is followed by empty chunks only, the data cursor is `start`
plus the sum of the chunk sizes and not past the end of the stream, every valid window byte is the
stream byte at the same distance from `start`, and the chunks are all full or the end of the
stream was found at the data cursor. -/
def WindowInv (stream : Bytes) (L start : Nat) (s : CMiniMP3AudioStream W D) : Prop :=
  (s.m_nChunkSize 0 ≤ kChunkSize ∧ s.m_nChunkSize 1 ≤ kChunkSize ∧
    s.m_nChunkSize 2 ≤ kChunkSize ∧ s.m_nChunkSize 3 ≤ kChunkSize) ∧
  (s.m_nChunkSize 0 < kChunkSize → s.m_nChunkSize 1 = 0) ∧
  (s.m_nChunkSize 1 < kChunkSize → s.m_nChunkSize 2 = 0) ∧
  (s.m_nChunkSize 2 < kChunkSize → s.m_nChunkSize 3 = 0) ∧
  s.m_uDataPosition = start + chunkSum s ∧ s.m_uDataPosition ≤ L ∧
  (∀ i, i < chunkSum s → s.m_FullFrame i = stream (start + i)) ∧
  FullOrEof s

/-- The window while chunk `j` is about to be filled from a stream whose window starts at `start`:
the chunks before `j` are full, the chunks from `j` on are empty, the data cursor is at the start
of chunk `j` in the stream and not past the end, and the bytes of the chunks before `j` are the
stream bytes. -/
def Filling (stream : Bytes) (L start j : Nat) (s : CMiniMP3AudioStream W D) : Prop :=
  (∀ m, m < j → s.m_nChunkSize m = kChunkSize) ∧
  (∀ m, j ≤ m → m < 4 → s.m_nChunkSize m = 0) ∧
  s.m_uDataPosition = start + kChunkSize * j ∧ s.m_uDataPosition ≤ L ∧
  ∀ i, i < kChunkSize * j → s.m_FullFrame i = stream (start + i)

/-- The stream offset of the byte under the frame cursor, when the window starts at the data
cursor minus the sum of the chunk sizes. -/
def offsetUnderCursor (s : CMiniMP3AudioStream W D) : Nat :=
  s.m_uDataPosition - GetTotalChunkSizes s + s.m_uFramePosition

/-- The state of a linear run over a stream: the window is a copy of the stream from some offset
`start`, the frame cursor is within the valid bytes, and the stream offset under the frame cursor
is the number of frame bytes that the frame decoder calls of `Decode` have consumed. -/
def LinearInv (stream : Bytes) (L : Nat) (s : CMiniMP3AudioStream W D) : Prop :=
  ∃ start, WindowInv stream L start s ∧ s.m_uFramePosition ≤ chunkSum s ∧
    start + s.m_uFramePosition = frameBytesOfDecode s.log

/-- The window while `SetPosition( X )` is about to fill chunk `j`: the chunks before `j` are full
and hold the stream bytes from `X` on, no chunk size exceeds `kChunkSize`, and the data cursor is
at the start of chunk `j` in the stream. -/
def SeekFilling (stream : Bytes) (L X j : Nat) (s : CMiniMP3AudioStream W D) : Prop :=
  (∀ m, m < j → s.m_nChunkSize m = kChunkSize) ∧ (∀ m, m < 4 → s.m_nChunkSize m ≤ kChunkSize) ∧
  s.m_uDataPosition = X + kChunkSize * j ∧ s.m_uDataPosition < UINT_RANGE ∧
  (0 < j → s.m_uDataPosition ≤ L) ∧
  ∀ i, i < kChunkSize * j → s.m_FullFrame i = stream (X + i)

/-- The window after `SetPosition( X )`: no chunk size exceeds `kChunkSize`, and the window starts
with `fresh` stream bytes from `X` on, where `fresh` is at most the sum of the chunk sizes and at
least the smaller of the window capacity and the number of stream bytes from `X` to the end. -/
def FreshPrefix (stream : Bytes) (L X : Nat) (s : CMiniMP3AudioStream W D) : Prop :=
  (∀ m, m < 4 → s.m_nChunkSize m ≤ kChunkSize) ∧
  ∃ fresh, fresh ≤ chunkSum s ∧ min (4 * kChunkSize) (L - X) ≤ fresh ∧
    ∀ i, i < fresh → s.m_FullFrame i = stream (X + i)

/-- A data source over a stream of `L` bytes, as in `fileHost`, with a frame decoder that never
reads past the view it is given: from a view of at least 417 bytes it decodes a mono frame of 1152
samples from 417 bytes, and from a shorter view it reports 0 samples and 0 frame bytes. -/
def fileFrameHost (L : Nat) : Host Unit Unit :=
  { StreamRequestData := fun _ n o =>
      ({ count := min n (L - o), bytes := fun j => (o + j) % 251 }, ())
    mp3dec_init := ()
    mp3dec_decode_frame := fun _ _ n _ _ =>
      { samples := if 417 ≤ n then 1152 else 0,
        info := { frame_bytes := if 417 ≤ n then 417 else 0, channels := 1, hz := 44100,
                  bitrate_kbps := 128 },
        pcm := fun j => j % 256, dec := () } }

/-- A stream that starts with a marker: byte 0 is 255 and every other byte `p` is `p % 251`. -/
def taggedStream : Bytes :=
  fun p => if p = 0 then 255 else p % 251

/-- A data source over the first `L` bytes of `taggedStream`, with a frame decoder that never reads
past the view it is given: the frame that starts with the marker 255 is 8092 bytes long and every
other frame 8192 bytes; from a view that holds the whole frame it decodes a mono frame of 1152
samples, and from a shorter view it reports 0 samples and 0 frame bytes. -/
def taggedFrameHost (L : Nat) : Host Unit Unit :=
  { StreamRequestData := fun _ n o =>
      ({ count := min n (L - o), bytes := fun j => taggedStream (o + j) }, ())
    mp3dec_init := ()
    mp3dec_decode_frame := fun _ mp3 n _ _ =>
      { samples := if (if mp3 0 = 255 then 8092 else 8192) ≤ n then 1152 else 0,
        info := { frame_bytes := if (if mp3 0 = 255 then 8092 else 8192) ≤ n then
                    (if mp3 0 = 255 then 8092 else 8192) else 0,
                  channels := 1, hz := 44100, bitrate_kbps := 128 },
        pcm := fun j => j % 256, dec := () } }

/-- The state of the linear run of `taggedFrameHost` after its second frame, while every read of
the data source returns a whole chunk: all four chunks are full, the end of the stream is unknown,
the frame cursor is 16284, the data cursor is a multiple of 8192 in the `unsigned int` range, and
the byte under the frame cursor is the byte `o % 251` of the offset `o` it was read from, which is
100 below the data cursor in `unsigned int` arithmetic. -/
def TaggedRunInv (s : CMiniMP3AudioStream W D) : Prop :=
  s.m_nChunkSize 0 = 4096 ∧ s.m_nChunkSize 1 = 4096 ∧ s.m_nChunkSize 2 = 4096 ∧
  s.m_nChunkSize 3 = 4096 ∧ s.m_nEOFPosition = kNoEOF ∧ s.m_uFramePosition = 16284 ∧
  s.m_uDataPosition % 8192 = 0 ∧ s.m_uDataPosition < UINT_RANGE ∧
  s.m_FullFrame 16284 = ((s.m_uDataPosition + UINT_RANGE - 100) % UINT_RANGE) % 251

/-- The object after the `Decode` calls of `decodeCalls`; the object that was given when one of
the calls ran out of rounds. -/
def afterDecodeCalls (h : Host W D) (fuel uBufferSize k : Nat) (s : CMiniMP3AudioStream W D) :
    CMiniMP3AudioStream W D :=
  (decodeCalls h fuel uBufferSize k s).getD s

/-- The object used to evaluate the window copy: a 20000-byte stream whose byte `j` is `j % 251`
and a decoder that skips 8192 bytes on every call, after construction and one `Decode` call with a
16384-byte buffer. The frame cursor is 8192, the data cursor 16384 and the end of the stream is
unknown, so the next `DecodeFrame` shifts and refills. -/
def skippedOnce : CMiniMP3AudioStream Unit Unit :=
  afterDecodeCalls (fileHost 20000 8192 0) 1 16384 1 (construct (fileHost 20000 8192 0) ())

/-- The object used to evaluate the seek: a 20000-byte stream whose byte `j` is `j % 251` and the
decoder of `fileFrameHost`, after construction and four `Decode` calls with a 16384-byte buffer.
The 24 frames decoded consumed 10008 bytes and the refill has met the end of the stream. -/
def decodedFourTimes : CMiniMP3AudioStream Unit Unit :=
  afterDecodeCalls (fileFrameHost 20000) 6 16384 4 (construct (fileFrameHost 20000) ())

/-- The state of a linear run after a call of a decoder that skips 8192 bytes on every call, while
every read of the data source returns a whole chunk: all four chunks are full, the end of the
stream is unknown, the frame cursor is 8192, the data cursor is a multiple of 8192 in the
`unsigned int` range, and chunk 0 and chunk 2 start with the byte `o % 251` of the offset `o` they
were read at, which is 16384 and 8192 below the data cursor in `unsigned int` arithmetic. -/
def LongRunInv (s : CMiniMP3AudioStream W D) : Prop :=
  s.m_nChunkSize 0 = 4096 ∧ s.m_nChunkSize 1 = 4096 ∧ s.m_nChunkSize 2 = 4096 ∧
  s.m_nChunkSize 3 = 4096 ∧ s.m_nEOFPosition = kNoEOF ∧ s.m_uFramePosition = 8192 ∧
  s.m_uDataPosition % 8192 = 0 ∧ s.m_uDataPosition < UINT_RANGE ∧
  s.m_FullFrame 0 = ((s.m_uDataPosition + UINT_RANGE - 16384) % UINT_RANGE) % 251 ∧
  s.m_FullFrame 8192 = ((s.m_uDataPosition + UINT_RANGE - 8192) % UINT_RANGE) % 251

end Operations

/-! ## Field lemmas -/

section Lemmas

variable {W D : Type}

theorem StreamChunk_eof (h : Host W D) (s : CMiniMP3AudioStream W D) (i : Nat) :
    (StreamChunk h s i).2.m_nEOFPosition = s.m_nEOFPosition := rfl

theorem StreamChunk_framePos (h : Host W D) (s : CMiniMP3AudioStream W D) (i : Nat) :
    (StreamChunk h s i).2.m_uFramePosition = s.m_uFramePosition := rfl

theorem StreamChunk_info (h : Host W D) (s : CMiniMP3AudioStream W D) (i : Nat) :
    (StreamChunk h s i).2.m_Info = s.m_Info := rfl

theorem StreamChunk_dataPos (h : Host W D) (s : CMiniMP3AudioStream W D) (i : Nat) :
    (StreamChunk h s i).2.m_uDataPosition =
      (s.m_uDataPosition +
        (h.StreamRequestData s.m_pEventHandler kChunkSize s.m_uDataPosition).1.count) % UINT_RANGE :=
  rfl

theorem StreamChunk_short (h : Host W D) (s : CMiniMP3AudioStream W D) (i : Nat) :
    (StreamChunk h s i).1 =
      ((h.StreamRequestData s.m_pEventHandler kChunkSize s.m_uDataPosition).1.count != kChunkSize) :=
  rfl

theorem StreamChunk_log (h : Host W D) (s : CMiniMP3AudioStream W D) (i : Nat) :
    (StreamChunk h s i).2.log =
      Event.read i s.m_uDataPosition
        (h.StreamRequestData s.m_pEventHandler kChunkSize s.m_uDataPosition).1.count :: s.log :=
  rfl

theorem streamChunks_framePos (h : Host W D) (l : List Nat) (s : CMiniMP3AudioStream W D) :
    (streamChunks h l s).m_uFramePosition = s.m_uFramePosition := by
  induction l generalizing s with
  | nil => rfl
  | cons i rest ih =>
    simp only [streamChunks]
    split
    · rfl
    · rw [ih]; rfl

theorem streamChunks_info (h : Host W D) (l : List Nat) (s : CMiniMP3AudioStream W D) :
    (streamChunks h l s).m_Info = s.m_Info := by
  induction l generalizing s with
  | nil => rfl
  | cons i rest ih =>
    simp only [streamChunks]
    split
    · rfl
    · rw [ih]; rfl

theorem shiftAndRefill_info (h : Host W D) (s : CMiniMP3AudioStream W D) :
    (shiftAndRefill h s).m_Info = s.m_Info := by
  unfold shiftAndRefill
  rw [streamChunks_info]

theorem shiftAndRefill_framePos (h : Host W D) (s : CMiniMP3AudioStream W D) :
    (shiftAndRefill h s).m_uFramePosition = s.m_uFramePosition - 2 * kChunkSize := by
  unfold shiftAndRefill
  rw [streamChunks_framePos]

theorem shiftLoop_info (h : Host W D) (n : Nat) (s : CMiniMP3AudioStream W D) :
    (shiftLoop h n s).m_Info = s.m_Info := by
  induction n generalizing s with
  | zero => rfl
  | succ n ih =>
    simp only [shiftLoop]
    split
    · rw [ih, shiftAndRefill_info]
    · rfl

/-- The rounds that `DecodeFrame` allows its `while` loop are enough: when they are used up the
loop condition is false. -/
theorem shiftLoop_finished (h : Host W D) (n : Nat) (s : CMiniMP3AudioStream W D)
    (hn : s.m_uFramePosition / (2 * kChunkSize) ≤ n) :
    ¬ (2 * kChunkSize ≤ (shiftLoop h n s).m_uFramePosition ∧
        (shiftLoop h n s).m_uDataPosition < (shiftLoop h n s).m_nEOFPosition) := by
  induction n generalizing s with
  | zero =>
    simp only [shiftLoop]
    unfold kChunkSize at *
    omega
  | succ n ih =>
    simp only [shiftLoop]
    split
    · rename_i hc
      apply ih
      rw [shiftAndRefill_framePos]
      have h1 : 2 * kChunkSize ≤ s.m_uFramePosition := hc.1
      unfold kChunkSize at *
      omega
    · assumption

/-! ## A source that never ends -/

theorem StreamChunk_endless (h : Host W D) (hfull : AlwaysFull h) (s : CMiniMP3AudioStream W D)
    (i : Nat) (hs : EndlessInv s) :
    (StreamChunk h s i).1 = false ∧ EndlessInv (StreamChunk h s i).2 := by
  obtain ⟨h1, h2, h3, h4⟩ := hs
  have hc := hfull s.m_pEventHandler s.m_uDataPosition
  refine ⟨?_, ?_, ?_, ?_, ?_⟩
  · rw [StreamChunk_short, hc]; simp
  · rw [StreamChunk_dataPos, hc]
    unfold kChunkSize UINT_RANGE at *
    omega
  · rw [StreamChunk_dataPos]
    unfold UINT_RANGE
    omega
  · rw [StreamChunk_eof]; exact h3
  · rw [StreamChunk_info]; exact h4

theorem streamChunks_endless (h : Host W D) (hfull : AlwaysFull h) (l : List Nat)
    (s : CMiniMP3AudioStream W D) (hs : EndlessInv s) : EndlessInv (streamChunks h l s) := by
  induction l generalizing s with
  | nil => exact hs
  | cons i rest ih =>
    have h1 := StreamChunk_endless h hfull s i hs
    simp only [streamChunks, h1.1]
    exact ih _ h1.2

theorem UpdateStreamInfo_endless (h : Host W D) (hfull : AlwaysFull h) (hch : AtMostStereo h)
    (s : CMiniMP3AudioStream W D) (hs : EndlessInv s) : EndlessInv (UpdateStreamInfo h s) := by
  obtain ⟨h1, h2, h3, _⟩ := streamChunks_endless h hfull [0, 1, 2, 3] s hs
  exact ⟨h1, h2, h3, hch _ _ _ _ _⟩

theorem shiftAndRefill_endless (h : Host W D) (hfull : AlwaysFull h)
    (s : CMiniMP3AudioStream W D) (hs : EndlessInv s) : EndlessInv (shiftAndRefill h s) := by
  obtain ⟨h1, h2, h3, h4⟩ := hs
  unfold shiftAndRefill
  apply streamChunks_endless h hfull
  exact ⟨h1, h2, h3, h4⟩

theorem shiftLoop_endless (h : Host W D) (hfull : AlwaysFull h) (n : Nat)
    (s : CMiniMP3AudioStream W D) (hs : EndlessInv s) : EndlessInv (shiftLoop h n s) := by
  induction n generalizing s with
  | zero => exact hs
  | succ n ih =>
    simp only [shiftLoop]
    split
    · exact ih _ (shiftAndRefill_endless h hfull s hs)
    · exact hs

theorem DecodeFrame_endless (h : Host W D) (hfull : AlwaysFull h) (hch : AtMostStereo h)
    (s : CMiniMP3AudioStream W D) (pBuffer : Bytes) (pcmAt : Nat) (hs : EndlessInv s) :
    EndlessInv (DecodeFrame h s pBuffer pcmAt).2.2 := by
  obtain ⟨h1, h2, h3, _⟩ := shiftLoop_endless h hfull (s.m_uFramePosition / (2 * kChunkSize)) s hs
  exact ⟨h1, h2, h3, hch _ _ _ _ _⟩

theorem construct_endless (h : Host W D) (hfull : AlwaysFull h) (hch : AtMostStereo h) (w : W) :
    EndlessInv (construct h w) := by
  apply UpdateStreamInfo_endless h hfull hch
  refine ⟨?_, ?_, ?_, ?_⟩
  · rfl
  · show 0 < UINT_RANGE
    unfold UINT_RANGE
    omega
  · rfl
  · show 0 ≤ 2
    omega

/-! ## The loop of `Decode` when the first frame has no samples -/

/-- When the first `DecodeFrame` of a call returns no samples (or the loop is not entered), one
round is enough and `uSampleBytes` is still 0 when the loop is left. -/
theorem decodeLoop_first_frame_empty (h : Host W D) (uBufferSize fuel : Nat)
    (s : CMiniMP3AudioStream W D) (pBuffer : Bytes)
    (hz : kSamplesPerFrameBufferSize < uBufferSize → (DecodeFrame h s pBuffer 0).1 = 0)
    (hcap : uBufferSize < UINT_RANGE) :
    decodeLoop h uBufferSize (fuel + 1) s pBuffer 0 =
      if kSamplesPerFrameBufferSize < uBufferSize then
        some ((DecodeFrame h s pBuffer 0).2.2, (DecodeFrame h s pBuffer 0).2.1, 0)
      else some (s, pBuffer, 0) := by
  have hmod : (uBufferSize + UINT_RANGE - 0) % UINT_RANGE = uBufferSize := by
    unfold UINT_RANGE at *
    omega
  simp only [decodeLoop, hmod]
  split
  · rename_i hlt
    simp [hz hlt]
  · rfl

theorem memsetZero_below (dst : Bytes) (len i : Nat) (hi : i < len) : memsetZero dst len i = 0 := by
  simp [memsetZero, hi]

theorem SamplesToBytes_stereo (s : CMiniMP3AudioStream W D) (n : Nat) (hn : n ≤ 1152)
    (hch : s.m_Info.channels ≤ 2) :
    SamplesToBytes s n = n * 2 * s.m_Info.channels ∧ SamplesToBytes s n ≤ 4608 := by
  unfold SamplesToBytes sizeofShort UINT_RANGE
  have h1 : n * 2 * s.m_Info.channels ≤ 1152 * 2 * 2 :=
    Nat.mul_le_mul (Nat.mul_le_mul hn (Nat.le_refl 2)) hch
  have h2 : n * 2 * s.m_Info.channels % 4294967296 = n * 2 * s.m_Info.channels :=
    Nat.mod_eq_of_lt (by omega)
  rw [h2]
  exact ⟨rfl, h1⟩

/-! ## Properties kept by `Decode` -/

theorem decodeLoop_preserves (h : Host W D) (P : CMiniMP3AudioStream W D → Prop)
    (hP : ∀ (s : CMiniMP3AudioStream W D) (pBuffer : Bytes) (pcmAt : Nat),
      P s → P (DecodeFrame h s pBuffer pcmAt).2.2)
    (uBufferSize : Nat) :
    ∀ (fuel : Nat) (s : CMiniMP3AudioStream W D) (pBuffer : Bytes) (uSampleBytes : Nat)
      (r : CMiniMP3AudioStream W D × Bytes × Nat),
      P s → decodeLoop h uBufferSize fuel s pBuffer uSampleBytes = some r → P r.1 := by
  intro fuel
  induction fuel with
  | zero =>
    intro s pBuffer uSampleBytes r hs hr
    simp only [decodeLoop] at hr
    split at hr
    · cases hr
    · cases hr; exact hs
  | succ fuel ih =>
    intro s pBuffer uSampleBytes r hs hr
    simp only [decodeLoop] at hr
    split at hr
    · split at hr
      · cases hr; exact hP s pBuffer uSampleBytes hs
      · exact ih _ _ _ r (hP s pBuffer uSampleBytes hs) hr
    · cases hr; exact hs

theorem Decode_preserves (h : Host W D) (P : CMiniMP3AudioStream W D → Prop)
    (hP : ∀ (s : CMiniMP3AudioStream W D) (pBuffer : Bytes) (pcmAt : Nat),
      P s → P (DecodeFrame h s pBuffer pcmAt).2.2)
    {fuel uBufferSize n : Nat} {s s1 : CMiniMP3AudioStream W D} {pBuffer buf1 : Bytes}
    (hs : P s) (hd : Decode h fuel s pBuffer uBufferSize = some (n, buf1, s1)) : P s1 := by
  unfold Decode at hd
  split at hd
  · cases hd; exact hs
  · split at hd
    · cases hd
    · rename_i s2 buf2 usb heq
      have h2 : P s2 := decodeLoop_preserves h P hP uBufferSize fuel s pBuffer 0 _ hs heq
      split at hd
      · cases hd; exact h2
      · cases hd; exact h2

theorem ReachableByDecode_endless (h : Host W D) (hfull : AlwaysFull h) (hch : AtMostStereo h)
    {s : CMiniMP3AudioStream W D} (hr : ReachableByDecode h s) : EndlessInv s := by
  induction hr with
  | construct w => exact construct_endless h hfull hch w
  | decode _ hd ih =>
    exact Decode_preserves h EndlessInv (fun s b a hs => DecodeFrame_endless h hfull hch s b a hs)
      ih hd

/-- The value of `Decode` when the first `DecodeFrame` of the call returns no samples (or the loop
is not entered). -/
theorem Decode_first_frame_empty (h : Host W D) (uBufferSize fuel : Nat)
    (s : CMiniMP3AudioStream W D) (pBuffer : Bytes)
    (hmin : kSamplesPerFrameBufferSize ≤ uBufferSize) (hcap : uBufferSize < UINT_RANGE)
    (hz : kSamplesPerFrameBufferSize < uBufferSize → (DecodeFrame h s pBuffer 0).1 = 0) :
    ∃ (s1 : CMiniMP3AudioStream W D) (buf1 : Bytes),
      decodeLoop h uBufferSize (fuel + 1) s pBuffer 0 = some (s1, buf1, 0) ∧
      (s1 = (DecodeFrame h s pBuffer 0).2.2 ∨ s1 = s) ∧
      Decode h (fuel + 1) s pBuffer uBufferSize =
        if s1.m_nEOFPosition ≤ s1.m_uDataPosition then some (0, buf1, s1)
        else some (max (SamplesToBytes s1 1152) uBufferSize,
          memsetZero buf1 (max (SamplesToBytes s1 1152) uBufferSize), s1) := by
  have hl := decodeLoop_first_frame_empty h uBufferSize fuel s pBuffer hz hcap
  have hnot : ¬ uBufferSize < kSamplesPerFrameBufferSize := by omega
  by_cases hlt : kSamplesPerFrameBufferSize < uBufferSize
  · rw [if_pos hlt] at hl
    refine ⟨_, _, hl, Or.inl rfl, ?_⟩
    unfold Decode
    rw [if_neg hnot, hl]
    by_cases he : (DecodeFrame h s pBuffer 0).2.2.m_nEOFPosition ≤
        (DecodeFrame h s pBuffer 0).2.2.m_uDataPosition
    · simp [he]
    · simp [he]
  · rw [if_neg hlt] at hl
    refine ⟨_, _, hl, Or.inr rfl, ?_⟩
    unfold Decode
    rw [if_neg hnot, hl]
    by_cases he : s.m_nEOFPosition ≤ s.m_uDataPosition
    · simp [he]
    · simp [he]

/-! ## Claims C1 to C5: `Decode` -/

/-- C1: silence, not failure. The claim takes 4608 bytes to be one maximum decoded frame, 1152
samples for 2 channels of 2 bytes, so its frame decoder reports at most 2 channels; the buffer size
is an `unsigned int`. For every buffer size from 4608 on, when the data source returns a whole
chunk of 4096 bytes on every read and the frame decoder produces 0 samples on every call, then in
every state reached from the constructor by `Decode` calls, `Decode` returns (one round of its loop
is enough) exactly the buffer size, and the first `uBufferSize` bytes of the buffer are zero. In
particular no call returns 0. -/
theorem Decode_silence_forever (h : Host W D) (hfull : AlwaysFull h) (hzero : NeverSamples h)
    (hch : AtMostStereo h) (s : CMiniMP3AudioStream W D) (hr : ReachableByDecode h s)
    (pBuffer : Bytes) (uBufferSize fuel : Nat) (hmin : 4608 ≤ uBufferSize)
    (hcap : uBufferSize < UINT_RANGE) :
    ∃ (buf1 : Bytes) (s1 : CMiniMP3AudioStream W D),
      Decode h (fuel + 1) s pBuffer uBufferSize = some (uBufferSize, buf1, s1) ∧
      uBufferSize ≠ 0 ∧ ∀ i, i < uBufferSize → buf1 i = 0 := by
  have hinv := ReachableByDecode_endless h hfull hch hr
  obtain ⟨s1, buf1, _, hs1, hd⟩ := Decode_first_frame_empty h uBufferSize fuel s pBuffer hmin hcap
    (fun _ => hzero _ _ _ _ _)
  have hinv1 : EndlessInv s1 := by
    rcases hs1 with hs1 | hs1
    · rw [hs1]; exact DecodeFrame_endless h hfull hch s pBuffer 0 hinv
    · rw [hs1]; exact hinv
  obtain ⟨h1, h2, h3, h4⟩ := hinv1
  have hne : ¬ s1.m_nEOFPosition ≤ s1.m_uDataPosition := by
    rw [h3]
    unfold kNoEOF kChunkSize UINT_RANGE at *
    omega
  have hmax : max (SamplesToBytes s1 1152) uBufferSize = uBufferSize := by
    have := (SamplesToBytes_stereo s1 1152 (Nat.le_refl _) h4).2
    omega
  rw [if_neg hne, hmax] at hd
  exact ⟨_, _, hd, by omega, fun i hi => memsetZero_below _ _ _ hi⟩

/-- C1, witness: a source that never ends, a decoder that skips the whole view as garbage, and a
16384-byte buffer right after construction. -/
theorem Decode_silence_forever_witness :
    AlwaysFull (endlessHost 16384 0) ∧ NeverSamples (endlessHost 16384 0) ∧
    AtMostStereo (endlessHost 16384 0) ∧
    ∃ (buf1 : Bytes) (s1 : CMiniMP3AudioStream Unit Unit),
      Decode (endlessHost 16384 0) 1 (construct (endlessHost 16384 0) ()) (fun _ => 7) 16384 =
        some (16384, buf1, s1) ∧
      16384 ≠ 0 ∧ ∀ i, i < 16384 → buf1 i = 0 :=
  ⟨fun _ _ => rfl, fun _ _ _ _ _ => rfl, fun _ _ _ _ _ => Nat.zero_le 2,
    Decode_silence_forever (endlessHost 16384 0) (fun _ _ => rfl) (fun _ _ _ _ _ => rfl)
      (fun _ _ _ _ _ => Nat.zero_le 2) _ (ReachableByDecode.construct ()) (fun _ => 7) 16384 0
      (by decide) (by decide)⟩

/-- C2 (as amended): the zero-output policy is decided by the data (supply) position. For every
state and every buffer size from 4608 up to the `unsigned int` range, when no frame of the call
produces samples, `Decode` returns (one round of its loop is enough); if `m_uDataPosition` is below
`m_nEOFPosition` when the loop ends it returns a non-zero count, `max (SamplesToBytes 1152)
uBufferSize`, and that many zero bytes at the start of the buffer; it returns 0 exactly when
`m_uDataPosition >= m_nEOFPosition`. -/
theorem Decode_zero_output_policy (h : Host W D) (s : CMiniMP3AudioStream W D) (pBuffer : Bytes)
    (uBufferSize fuel : Nat) (hmin : 4608 ≤ uBufferSize) (hcap : uBufferSize < UINT_RANGE)
    (hz : 4608 < uBufferSize → (DecodeFrame h s pBuffer 0).1 = 0) :
    ∃ (n : Nat) (buf1 : Bytes) (s1 : CMiniMP3AudioStream W D),
      Decode h (fuel + 1) s pBuffer uBufferSize = some (n, buf1, s1) ∧
      (s1.m_uDataPosition < s1.m_nEOFPosition →
        n = max (SamplesToBytes s1 1152) uBufferSize ∧ n ≠ 0 ∧ ∀ i, i < n → buf1 i = 0) ∧
      (n = 0 ↔ s1.m_nEOFPosition ≤ s1.m_uDataPosition) := by
  obtain ⟨s1, buf1, _, _, hd⟩ := Decode_first_frame_empty h uBufferSize fuel s pBuffer hmin hcap hz
  by_cases he : s1.m_nEOFPosition ≤ s1.m_uDataPosition
  · rw [if_pos he] at hd
    refine ⟨_, _, _, hd, ?_, ?_⟩
    · intro hlt
      omega
    · exact ⟨fun _ => he, fun _ => rfl⟩
  · rw [if_neg he] at hd
    refine ⟨_, _, _, hd, ?_, ?_⟩
    · intro _
      refine ⟨rfl, ?_, fun i hi => memsetZero_below _ _ _ hi⟩
      have := Nat.le_max_right (SamplesToBytes s1 1152) uBufferSize
      omega
    · constructor
      · intro h0
        have := Nat.le_max_right (SamplesToBytes s1 1152) uBufferSize
        omega
      · intro h1
        exact absurd h1 he

/-- C2, witness: a 20000-byte stream of garbage, right after construction, with a 16384-byte
buffer. -/
theorem Decode_zero_output_policy_witness :
    (4608 < 16384 →
      (DecodeFrame (fileHost 20000 8192 0) (construct (fileHost 20000 8192 0) ()) (fun _ => 7) 0).1
        = 0) ∧
    ∃ (n : Nat) (buf1 : Bytes) (s1 : CMiniMP3AudioStream Unit Unit),
      Decode (fileHost 20000 8192 0) 1 (construct (fileHost 20000 8192 0) ()) (fun _ => 7) 16384 =
        some (n, buf1, s1) ∧
      (s1.m_uDataPosition < s1.m_nEOFPosition →
        n = max (SamplesToBytes s1 1152) 16384 ∧ n ≠ 0 ∧ ∀ i, i < n → buf1 i = 0) ∧
      (n = 0 ↔ s1.m_nEOFPosition ≤ s1.m_uDataPosition) :=
  ⟨fun _ => rfl,
    Decode_zero_output_policy (fileHost 20000 8192 0) (construct (fileHost 20000 8192 0) ())
      (fun _ => 7) 16384 0 (by decide) (by decide) (fun _ => rfl)⟩

/-- C2, counterexample: a 20000-byte stream of garbage of which the decoder skips 8192 bytes on
every call. The second `Decode` call after construction (16384-byte buffer) produces no samples
and ends with `GetPosition() = 11808` below `m_nEOFPosition = 20000`, yet it returns 0, because
`m_uDataPosition = 20000` has reached `m_nEOFPosition`. -/
theorem Decode_zero_before_consumed :
    NeverSamples (fileHost 20000 8192 0) ∧
    ((Decode (fileHost 20000 8192 0) 1 (construct (fileHost 20000 8192 0) ()) (fun _ => 7)
        16384).bind
      (fun r => (Decode (fileHost 20000 8192 0) 1 r.2.2 r.2.1 16384).map
        (fun r1 => (r1.1, GetPosition r1.2.2, r1.2.2.m_nEOFPosition, r1.2.2.m_uDataPosition)))) =
      some (0, 11808, 20000, 20000) :=
  ⟨fun _ _ _ _ _ => rfl, by decide⟩

/-- C3: a usage error is atomic. For every state and every buffer size below 4608, `Decode` returns
0 and hands back the same buffer and the same object: no member changes and the log of calls to
the data source and the frame decoder is the same, so neither was called. -/
theorem Decode_usage_error (h : Host W D) (fuel : Nat) (s : CMiniMP3AudioStream W D)
    (pBuffer : Bytes) (uBufferSize : Nat) (hlt : uBufferSize < 4608) :
    Decode h fuel s pBuffer uBufferSize = some (0, pBuffer, s) := by
  unfold Decode
  rw [if_pos]
  exact hlt

/-- C3, witness: a 4607-byte buffer right after construction. -/
theorem Decode_usage_error_witness :
    4607 < 4608 ∧
    Decode monoHost 0 (construct monoHost ()) (fun _ => 7) 4607 =
      some (0, (fun _ => 7), construct monoHost ()) :=
  ⟨by decide, Decode_usage_error monoHost 0 (construct monoHost ()) (fun _ => 7) 4607 (by decide)⟩

/-- C5, the code at the failing input: with a buffer of exactly 4608 bytes, `Decode` hands back
the same object for every host, every state and every number of rounds, so the log has no new
event: the frame decoder is not called. -/
theorem Decode_exact_frame_never_decodes (h : Host W D) (fuel : Nat)
    (s : CMiniMP3AudioStream W D) (pBuffer : Bytes) :
    ∃ (n : Nat) (buf1 : Bytes), Decode h fuel s pBuffer 4608 = some (n, buf1, s) := by
  have hl : decodeLoop h 4608 fuel s pBuffer 0 = some (s, pBuffer, 0) := by
    cases fuel <;> rfl
  unfold Decode
  rw [if_neg (by decide), hl]
  by_cases he : s.m_nEOFPosition ≤ s.m_uDataPosition
  · exact ⟨0, pBuffer, by simp [he]⟩
  · exact ⟨max (SamplesToBytes s 1152) 4608, memsetZero pBuffer (max (SamplesToBytes s 1152) 4608),
      by simp [he]⟩

/-! ## The log -/

theorem pcmBytesOf_append (a b : List Event) : pcmBytesOf (a ++ b) = pcmBytesOf a + pcmBytesOf b := by
  induction a with
  | nil => simp [pcmBytesOf]
  | cons e rest ih =>
    cases e with
    | read i o c => simpa [pcmBytesOf] using ih
    | frame fp len pcmAt n fb ch =>
      cases pcmAt with
      | none => simpa [pcmBytesOf] using ih
      | some a => simp [pcmBytesOf, ih, Nat.add_assoc]

theorem pcmBytesOf_reads (rs : List Event) (hrs : ∀ e ∈ rs, e.isFrame = false) :
    pcmBytesOf rs = 0 := by
  induction rs with
  | nil => rfl
  | cons e rest ih =>
    have he := hrs e (List.mem_cons_self _ _)
    cases e with
    | read i o c =>
      simp only [pcmBytesOf]
      exact ih (fun e1 h1 => hrs e1 (List.mem_cons_of_mem _ h1))
    | frame fp len pcmAt n fb ch => simp [Event.isFrame] at he

theorem streamChunks_log (h : Host W D) (l : List Nat) (s : CMiniMP3AudioStream W D) :
    ∃ rs : List Event, (streamChunks h l s).log = rs ++ s.log ∧ ∀ e ∈ rs, e.isFrame = false := by
  induction l generalizing s with
  | nil => exact ⟨[], rfl, by simp⟩
  | cons i rest ih =>
    simp only [streamChunks]
    split
    · refine ⟨[Event.read i s.m_uDataPosition
        (h.StreamRequestData s.m_pEventHandler kChunkSize s.m_uDataPosition).1.count], rfl, ?_⟩
      simp [Event.isFrame]
    · obtain ⟨rs, h1, h2⟩ := ih (StreamChunk h s i).2
      refine ⟨rs ++ [Event.read i s.m_uDataPosition
        (h.StreamRequestData s.m_pEventHandler kChunkSize s.m_uDataPosition).1.count], ?_, ?_⟩
      · rw [h1, StreamChunk_log]; simp
      · intro e he
        rcases List.mem_append.mp he with he | he
        · exact h2 e he
        · simp at he
          rw [he]; rfl

theorem shiftAndRefill_log (h : Host W D) (s : CMiniMP3AudioStream W D) :
    ∃ rs : List Event, (shiftAndRefill h s).log = rs ++ s.log ∧ ∀ e ∈ rs, e.isFrame = false := by
  unfold shiftAndRefill
  exact streamChunks_log h [2, 3] _

theorem shiftLoop_log (h : Host W D) (n : Nat) (s : CMiniMP3AudioStream W D) :
    ∃ rs : List Event, (shiftLoop h n s).log = rs ++ s.log ∧ ∀ e ∈ rs, e.isFrame = false := by
  induction n generalizing s with
  | zero => exact ⟨[], rfl, by simp⟩
  | succ n ih =>
    simp only [shiftLoop]
    split
    · obtain ⟨r1, h1, h2⟩ := shiftAndRefill_log h s
      obtain ⟨r2, h3, h4⟩ := ih (shiftAndRefill h s)
      refine ⟨r2 ++ r1, ?_, ?_⟩
      · rw [h3, h1]; simp
      · intro e he
        rcases List.mem_append.mp he with he | he
        · exact h4 e he
        · exact h2 e he
    · exact ⟨[], rfl, by simp⟩

/-- The log after `DecodeFrame`: the reads of the shift loop, then one frame decoder call with the
PCM destination it was given, whose samples are the value returned and whose channels are the ones
left in `m_Info`. -/
theorem DecodeFrame_log (h : Host W D) (s : CMiniMP3AudioStream W D) (pBuffer : Bytes)
    (pcmAt : Nat) :
    ∃ (rs : List Event),
      (DecodeFrame h s pBuffer pcmAt).2.2.log =
        Event.frame (shiftLoop h (s.m_uFramePosition / (2 * kChunkSize)) s).m_uFramePosition
          (viewLength (shiftLoop h (s.m_uFramePosition / (2 * kChunkSize)) s)) (some pcmAt)
          (DecodeFrame h s pBuffer pcmAt).1
          (DecodeFrame h s pBuffer pcmAt).2.2.m_Info.frame_bytes
          (DecodeFrame h s pBuffer pcmAt).2.2.m_Info.channels :: (rs ++ s.log) ∧
      ∀ e ∈ rs, e.isFrame = false := by
  obtain ⟨rs, h1, h2⟩ := shiftLoop_log h (s.m_uFramePosition / (2 * kChunkSize)) s
  refine ⟨rs, ?_, h2⟩
  rw [← h1]
  rfl

theorem DecodeFrame_stereo (h : Host W D) (hch : AtMostStereo h) (s : CMiniMP3AudioStream W D)
    (pBuffer : Bytes) (pcmAt : Nat) : (DecodeFrame h s pBuffer pcmAt).2.2.m_Info.channels ≤ 2 :=
  hch _ _ _ _ _

theorem DecodeFrame_samples_le (h : Host W D) (hsamp : AtMostFrameSamples h)
    (s : CMiniMP3AudioStream W D) (pBuffer : Bytes) (pcmAt : Nat) :
    (DecodeFrame h s pBuffer pcmAt).1 ≤ 1152 :=
  hsamp _ _ _ _ _

theorem DecodeFrame_channels_pos (h : Host W D) (hpos : SamplesHaveChannels h)
    (s : CMiniMP3AudioStream W D) (pBuffer : Bytes) (pcmAt : Nat)
    (hn : 0 < (DecodeFrame h s pBuffer pcmAt).1) :
    0 < (DecodeFrame h s pBuffer pcmAt).2.2.m_Info.channels :=
  hpos _ _ _ _ _ hn

theorem loop_condition_room (uBufferSize uSampleBytes : Nat) (hcap : uBufferSize < UINT_RANGE)
    (hle : uSampleBytes ≤ uBufferSize) :
    (uBufferSize + UINT_RANGE - uSampleBytes) % UINT_RANGE = uBufferSize - uSampleBytes := by
  unfold UINT_RANGE at *
  omega

theorem decodeLoop_returns (h : Host W D) (hsamp : AtMostFrameSamples h) (hch : AtMostStereo h)
    (hpos : SamplesHaveChannels h) (uBufferSize : Nat) (hcap : uBufferSize < UINT_RANGE) :
    ∀ (fuel : Nat) (s : CMiniMP3AudioStream W D) (pBuffer : Bytes) (uSampleBytes : Nat),
      uSampleBytes ≤ uBufferSize → uBufferSize - uSampleBytes ≤ 2 * fuel + 4608 →
      ∃ res, decodeLoop h uBufferSize fuel s pBuffer uSampleBytes = some res := by
  intro fuel
  induction fuel with
  | zero =>
    intro s pBuffer usb hle hfuel
    simp only [decodeLoop]
    rw [loop_condition_room uBufferSize usb hcap hle, if_neg]
    · exact ⟨_, rfl⟩
    · unfold kSamplesPerFrameBufferSize MINIMP3_MAX_SAMPLES_PER_FRAME sizeofShort
      omega
  | succ fuel ih =>
    intro s pBuffer usb hle hfuel
    simp only [decodeLoop]
    rw [loop_condition_room uBufferSize usb hcap hle]
    by_cases hc : kSamplesPerFrameBufferSize < uBufferSize - usb
    · rw [if_pos hc]
      have hroom : 4608 < uBufferSize - usb := hc
      by_cases hz : (DecodeFrame h s pBuffer usb).1 = 0
      · rw [if_pos hz]
        exact ⟨_, rfl⟩
      · rw [if_neg hz]
        have h2 := DecodeFrame_stereo h hch s pBuffer usb
        have h3 := DecodeFrame_samples_le h hsamp s pBuffer usb
        have h4 := DecodeFrame_channels_pos h hpos s pBuffer usb (Nat.pos_of_ne_zero hz)
        have hbytes := SamplesToBytes_stereo (DecodeFrame h s pBuffer usb).2.2
          (DecodeFrame h s pBuffer usb).1 h3 h2
        have hlen := hbytes.2
        rw [hbytes.1] at hlen ⊢
        have hge : 2 ≤ (DecodeFrame h s pBuffer usb).1 * 2 *
            (DecodeFrame h s pBuffer usb).2.2.m_Info.channels := by
          have : 1 * 2 * 1 ≤ (DecodeFrame h s pBuffer usb).1 * 2 *
              (DecodeFrame h s pBuffer usb).2.2.m_Info.channels :=
            Nat.mul_le_mul (Nat.mul_le_mul (Nat.pos_of_ne_zero hz) (Nat.le_refl 2)) h4
          omega
        have hmod : (usb + (DecodeFrame h s pBuffer usb).1 * 2 *
            (DecodeFrame h s pBuffer usb).2.2.m_Info.channels) % UINT_RANGE =
            usb + (DecodeFrame h s pBuffer usb).1 * 2 *
              (DecodeFrame h s pBuffer usb).2.2.m_Info.channels := by
          apply Nat.mod_eq_of_lt
          omega
        rw [hmod]
        apply ih
        · omega
        · omega
    · rw [if_neg hc]
      exact ⟨_, rfl⟩

/-- `Decode` returns within `uBufferSize / 2` rounds of its loop when every frame has at most 1152
samples and at most 2 channels, and at least one channel when it has samples. -/
theorem Decode_returns (h : Host W D) (hsamp : AtMostFrameSamples h) (hch : AtMostStereo h)
    (hpos : SamplesHaveChannels h) (s : CMiniMP3AudioStream W D) (pBuffer : Bytes)
    (uBufferSize : Nat) (hcap : uBufferSize < UINT_RANGE) :
    ∃ res, Decode h (uBufferSize / 2) s pBuffer uBufferSize = some res := by
  unfold Decode
  by_cases hlt : uBufferSize < kSamplesPerFrameBufferSize
  · rw [if_pos hlt]
    exact ⟨_, rfl⟩
  · rw [if_neg hlt]
    obtain ⟨res, hres⟩ := decodeLoop_returns h hsamp hch hpos uBufferSize hcap (uBufferSize / 2) s
      pBuffer 0 (Nat.zero_le _) (by omega)
    obtain ⟨s2, buf2, usb2⟩ := res
    rw [hres]
    by_cases hc : usb2 = 0 ∧ ¬ s2.m_nEOFPosition ≤ s2.m_uDataPosition
    · simp only [if_pos hc]
      exact ⟨_, rfl⟩
    · simp only [if_neg hc]
      exact ⟨_, rfl⟩

/-- C6, the code at the failing input: over an empty stream (the first read returns 0 bytes)
`GetPosition` right after construction is 4294950912, not 0; and over a 20000-byte stream
`GetPosition` right after `SetPosition( 18000 )` is 3616, not 18000, with the frame cursor at 0.
Over the same 20000-byte stream, where priming is full, it is 0 after construction. -/
theorem GetPosition_after_short_priming :
    GetPosition (construct (fileHost 0 0 0) ()) = 4294950912 ∧
    GetPosition (SetPosition (fileHost 20000 0 0) (construct (fileHost 20000 0 0) ()) 18000) = 3616 ∧
    (SetPosition (fileHost 20000 0 0) (construct (fileHost 20000 0 0) ()) 18000).m_uFramePosition
      = 0 ∧
    GetPosition (construct (fileHost 20000 0 0) ()) = 0 := by
  decide

/-- C7, the code at the failing input: over a 20000-byte stream of 417-byte mono frames, after
construction and four `Decode` calls with a 16384-byte buffer the frame decoder calls made by
`Decode` consumed 10008 bytes in total, but `GetPosition` is 5432; after three calls both were
7506. -/
theorem GetPosition_after_short_refill :
    (decodeCalls (fileMonoHost 20000) 6 16384 4 (construct (fileMonoHost 20000) ())).map
      (fun s => (GetPosition s, frameBytesOfDecode s.log)) = some (5432, 10008) ∧
    (decodeCalls (fileMonoHost 20000) 6 16384 3 (construct (fileMonoHost 20000) ())).map
      (fun s => (GetPosition s, frameBytesOfDecode s.log)) = some (7506, 7506) := by
  decide

/-- C8, the code at the failing input: over a 20000-byte stream, `SetPosition( 18000 )` after
construction fetches 2000 bytes in one short read, but leaves the fill lengths 2000, 4096, 4096,
4096: `m_uDataPosition` is 20000 while 18000 plus the fill lengths is 32288, the view handed to
the frame decoder is 14288 bytes long, and its byte 4096 is still stream byte 4096 (value 80)
that construction buffered. -/
theorem SetPosition_keeps_stale_chunks :
    (SetPosition (fileHost 20000 0 0) (construct (fileHost 20000 0 0) ()) 18000).m_uDataPosition
      = 20000 ∧
    [0, 1, 2, 3].map
      (SetPosition (fileHost 20000 0 0) (construct (fileHost 20000 0 0) ()) 18000).m_nChunkSize
      = [2000, 4096, 4096, 4096] ∧
    viewLength (SetPosition (fileHost 20000 0 0) (construct (fileHost 20000 0 0) ()) 18000)
      = 14288 ∧
    (SetPosition (fileHost 20000 0 0) (construct (fileHost 20000 0 0) ()) 18000).m_FullFrame 4096
      = 80 ∧
    (construct (fileHost 20000 0 0) ()).m_FullFrame 4096 = 80 := by
  decide

/-! ## Priming and the end of the stream -/

/-- What the chunk-filling loop does to `m_nEOFPosition`: either every read was whole, all chunks
of the list were read and `m_nEOFPosition` is untouched, or the newest read is the first one that
was not whole, the loop stopped there and `m_nEOFPosition` is the data cursor after that read. -/
theorem streamChunks_eof_cases (h : Host W D) (l : List Nat) (s : CMiniMP3AudioStream W D) :
    ∃ rs : List Event, (streamChunks h l s).log = rs ++ s.log ∧
      (((∀ e ∈ rs, e.isFullRead = true) ∧ rs.length = l.length ∧
          (streamChunks h l s).m_nEOFPosition = s.m_nEOFPosition) ∨
        (∃ (i o c : Nat) (rest : List Event), rs = Event.read i o c :: rest ∧ c ≠ kChunkSize ∧
          (∀ e ∈ rest, e.isFullRead = true) ∧ rest.length < l.length ∧
          (streamChunks h l s).m_nEOFPosition = (o + c) % UINT_RANGE ∧
          (streamChunks h l s).m_uDataPosition = (o + c) % UINT_RANGE)) := by
  induction l generalizing s with
  | nil => exact ⟨[], rfl, Or.inl ⟨by simp, rfl, rfl⟩⟩
  | cons i tl ih =>
    simp only [streamChunks]
    by_cases hshort : (StreamChunk h s i).1 = true
    · rw [if_pos hshort]
      refine ⟨[Event.read i s.m_uDataPosition
        (h.StreamRequestData s.m_pEventHandler kChunkSize s.m_uDataPosition).1.count], rfl,
        Or.inr ⟨_, _, _, [], rfl, ?_, by simp, by simp, rfl, rfl⟩⟩
      rw [StreamChunk_short] at hshort
      simpa using hshort
    · rw [if_neg hshort]
      have hfull : (h.StreamRequestData s.m_pEventHandler kChunkSize s.m_uDataPosition).1.count
          = kChunkSize := by
        rw [StreamChunk_short] at hshort
        simpa using hshort
      obtain ⟨rs, h1, h2⟩ := ih (StreamChunk h s i).2
      refine ⟨rs ++ [Event.read i s.m_uDataPosition
        (h.StreamRequestData s.m_pEventHandler kChunkSize s.m_uDataPosition).1.count], ?_, ?_⟩
      · rw [h1, StreamChunk_log]; simp
      · have hnew : ∀ e ∈ [Event.read i s.m_uDataPosition
            (h.StreamRequestData s.m_pEventHandler kChunkSize s.m_uDataPosition).1.count],
            e.isFullRead = true := by
          intro e he
          simp at he
          rw [he, hfull]
          simp [Event.isFullRead]
        rcases h2 with ⟨a1, a2, a3⟩ | ⟨j, o, c, rest, b1, b2, b3, b4, b5, b6⟩
        · left
          refine ⟨?_, by simp [a2], ?_⟩
          · intro e he
            rcases List.mem_append.mp he with he | he
            · exact a1 e he
            · exact hnew e he
          · rw [a3, StreamChunk_eof]
        · right
          refine ⟨j, o, c, rest ++ [Event.read i s.m_uDataPosition
            (h.StreamRequestData s.m_pEventHandler kChunkSize s.m_uDataPosition).1.count],
            by rw [b1]; rfl, b2, ?_, by simp; omega, b5, b6⟩
          intro e he
          rcases List.mem_append.mp he with he | he
          · exact b3 e he
          · exact hnew e he

theorem streamChunks_eofKnown (h : Host W D) (l : List Nat) (s : CMiniMP3AudioStream W D)
    (hs : s.m_nEOFPosition = kNoEOF) : EofKnownOrUnset (streamChunks h l s) := by
  obtain ⟨rs, _, h2⟩ := streamChunks_eof_cases h l s
  rcases h2 with ⟨_, _, a3⟩ | ⟨j, o, c, rest, _, _, _, _, b5, b6⟩
  · left; rw [a3, hs]
  · right; rw [b5, b6]

theorem shiftLoop_eofKnown (h : Host W D) (n : Nat) (s : CMiniMP3AudioStream W D)
    (hs : EofKnownOrUnset s) : EofKnownOrUnset (shiftLoop h n s) := by
  induction n generalizing s with
  | zero => exact hs
  | succ n ih =>
    simp only [shiftLoop]
    split
    · rename_i hc
      apply ih
      unfold shiftAndRefill
      apply streamChunks_eofKnown
      rcases hs with hs | hs
      · exact hs
      · have := hc.2
        omega
    · exact hs

theorem DecodeFrame_eofKnown (h : Host W D) (s : CMiniMP3AudioStream W D) (pBuffer : Bytes)
    (pcmAt : Nat) (hs : EofKnownOrUnset s) : EofKnownOrUnset (DecodeFrame h s pBuffer pcmAt).2.2 :=
  shiftLoop_eofKnown h (s.m_uFramePosition / (2 * kChunkSize)) s hs

theorem ReachableByDecode_eofKnown (h : Host W D) {s : CMiniMP3AudioStream W D}
    (hr : ReachableByDecode h s) : EofKnownOrUnset s := by
  induction hr with
  | construct w => exact streamChunks_eofKnown h [0, 1, 2, 3] (initial h w) rfl
  | decode _ hd ih =>
    exact Decode_preserves h EofKnownOrUnset (fun t b a ht => DecodeFrame_eofKnown h t b a ht) ih hd

/-- Once the data cursor has reached `m_nEOFPosition` the shift loop does nothing. -/
theorem shiftLoop_exhausted (h : Host W D) (n : Nat) (s : CMiniMP3AudioStream W D)
    (hs : s.m_nEOFPosition ≤ s.m_uDataPosition) : shiftLoop h n s = s := by
  cases n with
  | zero => rfl
  | succ n =>
    simp only [shiftLoop]
    rw [if_neg]
    omega

theorem DecodeFrame_exhausted (h : Host W D) (s : CMiniMP3AudioStream W D) (pBuffer : Bytes)
    (pcmAt : Nat) (hs : s.m_nEOFPosition ≤ s.m_uDataPosition) :
    (DecodeFrame h s pBuffer pcmAt).2.2.m_nEOFPosition = s.m_nEOFPosition ∧
    (DecodeFrame h s pBuffer pcmAt).2.2.m_uDataPosition = s.m_uDataPosition := by
  have hl := shiftLoop_exhausted h (s.m_uFramePosition / (2 * kChunkSize)) s hs
  constructor
  · show (shiftLoop h (s.m_uFramePosition / (2 * kChunkSize)) s).m_nEOFPosition = _
    rw [hl]
  · show (shiftLoop h (s.m_uFramePosition / (2 * kChunkSize)) s).m_uDataPosition = _
    rw [hl]

/-! ## Claims C9 and C10: the end-of-stream position -/

/-- C9 (as amended): what `SetPosition` does to `m_nEOFPosition`, for every state and every
position. The calls it logs are the priming reads followed by one frame decoder call. When a
priming read returned something other than a whole chunk, priming stopped at that read (the newest
one, after fewer than four whole ones) and `m_nEOFPosition` is the data cursor right after it.
When all four priming reads returned a whole chunk, `m_nEOFPosition` keeps the value it had before
the call: it is the unknown sentinel only if it was before. -/
theorem SetPosition_eof (h : Host W D) (s : CMiniMP3AudioStream W D) (uPosition : Nat) :
    ∃ (fr : Event) (rs : List Event),
      (SetPosition h s uPosition).log = fr :: (rs ++ s.log) ∧ fr.isFrame = true ∧
      (((∀ e ∈ rs, e.isFullRead = true) ∧ rs.length = 4 ∧
          (SetPosition h s uPosition).m_nEOFPosition = s.m_nEOFPosition) ∨
        (∃ (i o c : Nat) (rest : List Event), rs = Event.read i o c :: rest ∧ c ≠ kChunkSize ∧
          (∀ e ∈ rest, e.isFullRead = true) ∧ rest.length < 4 ∧
          (SetPosition h s uPosition).m_nEOFPosition = (o + c) % UINT_RANGE ∧
          (SetPosition h s uPosition).m_uDataPosition = (o + c) % UINT_RANGE)) := by
  obtain ⟨rs, h1, h2⟩ := streamChunks_eof_cases h [0, 1, 2, 3]
    { s with m_uDataPosition := uPosition, m_uFramePosition := 0 }
  obtain ⟨fr, hfr, hframe⟩ : ∃ fr : Event,
      (SetPosition h s uPosition).log = fr :: (streamChunks h [0, 1, 2, 3]
        { s with m_uDataPosition := uPosition, m_uFramePosition := 0 }).log ∧
      fr.isFrame = true := ⟨Event.frame _ _ _ _ _ _, rfl, rfl⟩
  refine ⟨fr, rs, ?_, hframe, h2⟩
  rw [hfr, h1]

/-- C9, counterexample: over a 20000-byte stream, `SetPosition( 30000 )` finds the end (its read
returns 0 bytes) and sets `m_nEOFPosition` to 30000; the following `SetPosition( 0 )` makes four
priming reads that each return 4096 bytes, and `m_nEOFPosition` is still 30000, not the
sentinel 4294967295. -/
theorem SetPosition_keeps_old_eof :
    (SetPosition (fileHost 20000 0 0)
        (SetPosition (fileHost 20000 0 0) (construct (fileHost 20000 0 0) ()) 30000) 0).m_nEOFPosition
      = 30000 ∧
    (SetPosition (fileHost 20000 0 0)
        (SetPosition (fileHost 20000 0 0) (construct (fileHost 20000 0 0) ()) 30000) 0).log.take 5
      = [Event.frame 0 16384 none 0 0 0, Event.read 3 12288 4096, Event.read 2 8192 4096,
          Event.read 1 4096 4096, Event.read 0 0 4096] ∧
    (SetPosition (fileHost 20000 0 0) (construct (fileHost 20000 0 0) ()) 30000).log.take 2
      = [Event.frame 0 12288 none 0 0 0, Event.read 0 30000 0] := by
  decide

/-- C10 (as amended): in every state in which the data cursor has reached `m_nEOFPosition`, and so
in every state reached from the constructor by `Decode` calls alone in which `m_nEOFPosition` is
not the unknown sentinel, a `Decode` call that returns leaves `m_nEOFPosition` unchanged; and the
call does return, within `uBufferSize / 2` rounds of its loop, when every frame has at most 1152
samples and at most 2 channels, and at least one channel when it has samples. -/
theorem Decode_keeps_eof (h : Host W D) (s : CMiniMP3AudioStream W D) (pBuffer : Bytes)
    (uBufferSize : Nat)
    (hx : s.m_nEOFPosition ≤ s.m_uDataPosition ∨
      (ReachableByDecode h s ∧ s.m_nEOFPosition ≠ kNoEOF)) :
    (AtMostFrameSamples h → AtMostStereo h → SamplesHaveChannels h → uBufferSize < UINT_RANGE →
      ∃ res, Decode h (uBufferSize / 2) s pBuffer uBufferSize = some res) ∧
    ∀ (fuel n : Nat) (buf1 : Bytes) (s1 : CMiniMP3AudioStream W D),
      Decode h fuel s pBuffer uBufferSize = some (n, buf1, s1) →
      s1.m_nEOFPosition = s.m_nEOFPosition := by
  refine ⟨fun hsamp hch hpos hcap => Decode_returns h hsamp hch hpos s pBuffer uBufferSize hcap,
    ?_⟩
  intro fuel n buf1 s1 hd
  have hle : s.m_nEOFPosition ≤ s.m_uDataPosition := by
    rcases hx with hx | ⟨hr, hne⟩
    · exact hx
    · rcases ReachableByDecode_eofKnown h hr with hk | hk
      · exact absurd hk hne
      · omega
  have hP := Decode_preserves h
    (fun t => t.m_nEOFPosition = s.m_nEOFPosition ∧ t.m_uDataPosition = s.m_uDataPosition)
    (fun t b a ht => by
      have := DecodeFrame_exhausted h t b a (by omega)
      exact ⟨this.1.trans ht.1, this.2.trans ht.2⟩)
    ⟨rfl, rfl⟩ hd
  exact hP.1

/-- C10, witness: over a 100-byte stream the constructor finds the end at 100, which the data
cursor has reached; a `Decode` call with a 16384-byte buffer returns and leaves it there. -/
theorem Decode_keeps_eof_witness :
    ((construct (fileHost 100 0 0) ()).m_nEOFPosition ≤
        (construct (fileHost 100 0 0) ()).m_uDataPosition ∨
      (ReachableByDecode (fileHost 100 0 0) (construct (fileHost 100 0 0) ()) ∧
        (construct (fileHost 100 0 0) ()).m_nEOFPosition ≠ kNoEOF)) ∧
    (Decode (fileHost 100 0 0) 1 (construct (fileHost 100 0 0) ()) (fun _ => 7) 16384).map
      (fun r => (r.1, r.2.2.m_nEOFPosition)) = some (0, 100) ∧
    (AtMostFrameSamples (fileHost 100 0 0) → AtMostStereo (fileHost 100 0 0) →
      SamplesHaveChannels (fileHost 100 0 0) → 16384 < UINT_RANGE →
      ∃ res, Decode (fileHost 100 0 0) (16384 / 2) (construct (fileHost 100 0 0) ()) (fun _ => 7)
        16384 = some res) ∧
    ∀ (fuel n : Nat) (buf1 : Bytes) (s1 : CMiniMP3AudioStream Unit Unit),
      Decode (fileHost 100 0 0) fuel (construct (fileHost 100 0 0) ()) (fun _ => 7) 16384 =
        some (n, buf1, s1) →
      s1.m_nEOFPosition = (construct (fileHost 100 0 0) ()).m_nEOFPosition :=
  ⟨Or.inl (by decide), by decide,
    Decode_keeps_eof (fileHost 100 0 0) (construct (fileHost 100 0 0) ()) (fun _ => 7) 16384
      (Or.inl (by decide))⟩

/-- C10, counterexample: over a 20000-byte stream of garbage, `SetPosition( 30000 )` sets
`m_nEOFPosition` to 30000 and `SetPosition( 0 )` keeps it. The first `Decode` call after that
leaves it at 30000, a finite value in a reachable state; the second `Decode` call refills, meets
the short read at the real end and changes `m_nEOFPosition` to 20000. -/
theorem Decode_changes_finite_eof :
    (decodeCalls (fileHost 20000 8192 0) 1 16384 1
        (SetPosition (fileHost 20000 8192 0)
          (SetPosition (fileHost 20000 8192 0) (construct (fileHost 20000 8192 0) ()) 30000) 0)).map
      (fun s => s.m_nEOFPosition) = some 30000 ∧
    (decodeCalls (fileHost 20000 8192 0) 1 16384 2
        (SetPosition (fileHost 20000 8192 0)
          (SetPosition (fileHost 20000 8192 0) (construct (fileHost 20000 8192 0) ()) 30000) 0)).map
      (fun s => s.m_nEOFPosition) = some 20000 ∧
    30000 ≠ kNoEOF := by
  decide

/-! ## Claims C13, C14 and C16: channels, `StreamChunk`, and the shift before decoding -/

/-- C13: the channel floor. In every state `GetOutputChannels` returns the larger of
`m_Info.channels` and 1, so at least 1; right after construction over an empty stream, when the
frame decoder found no frame and reported 0 channels, it returns 1. -/
theorem GetOutputChannels_floor (s : CMiniMP3AudioStream W D) :
    GetOutputChannels s = max s.m_Info.channels 1 ∧ 1 ≤ GetOutputChannels s ∧
    (construct (fileHost 0 0 0) ()).m_Info.channels = 0 ∧
    GetOutputChannels (construct (fileHost 0 0 0) ()) = 1 := by
  refine ⟨rfl, ?_, rfl, rfl⟩
  unfold GetOutputChannels
  exact Nat.le_max_right _ _

/-- C14: the contract of `StreamChunk`. For every chunk index and every state, `StreamChunk` logs
exactly one read, for `kChunkSize` bytes at offset `m_uDataPosition`; stores the count returned in
`m_nChunkSize` of that chunk; adds that count to `m_uDataPosition` (an `unsigned int` addition:
the exact sum whenever the sum is below `2 ^ 32`); leaves the other chunk sizes, the frame cursor,
`m_nEOFPosition` and `m_Info` unchanged; and, for a count of at most 4096, returns true exactly
when the count is less than 4096. -/
theorem StreamChunk_contract (h : Host W D) (s : CMiniMP3AudioStream W D) (i : Nat) :
    (StreamChunk h s i).2.log =
      Event.read i s.m_uDataPosition
        (h.StreamRequestData s.m_pEventHandler kChunkSize s.m_uDataPosition).1.count :: s.log ∧
    (StreamChunk h s i).2.m_nChunkSize i =
      (h.StreamRequestData s.m_pEventHandler kChunkSize s.m_uDataPosition).1.count ∧
    (StreamChunk h s i).2.m_uDataPosition =
      (s.m_uDataPosition +
        (h.StreamRequestData s.m_pEventHandler kChunkSize s.m_uDataPosition).1.count) % UINT_RANGE ∧
    (s.m_uDataPosition +
        (h.StreamRequestData s.m_pEventHandler kChunkSize s.m_uDataPosition).1.count < UINT_RANGE →
      (StreamChunk h s i).2.m_uDataPosition =
        s.m_uDataPosition +
          (h.StreamRequestData s.m_pEventHandler kChunkSize s.m_uDataPosition).1.count) ∧
    (∀ j, j ≠ i → (StreamChunk h s i).2.m_nChunkSize j = s.m_nChunkSize j) ∧
    (StreamChunk h s i).2.m_uFramePosition = s.m_uFramePosition ∧
    (StreamChunk h s i).2.m_nEOFPosition = s.m_nEOFPosition ∧
    (StreamChunk h s i).2.m_Info = s.m_Info ∧
    ((h.StreamRequestData s.m_pEventHandler kChunkSize s.m_uDataPosition).1.count ≤ 4096 →
      ((StreamChunk h s i).1 = true ↔
        (h.StreamRequestData s.m_pEventHandler kChunkSize s.m_uDataPosition).1.count < 4096)) := by
  refine ⟨rfl, ?_, rfl, ?_, ?_, rfl, rfl, rfl, ?_⟩
  · show Function.update s.m_nChunkSize i _ i = _
    rw [Function.update_same]
  · intro hlt
    rw [StreamChunk_dataPos]
    exact Nat.mod_eq_of_lt hlt
  · intro j hj
    show Function.update s.m_nChunkSize i _ j = _
    rw [Function.update_noteq hj]
  · intro hle
    rw [StreamChunk_short]
    unfold kChunkSize at *
    constructor
    · intro hne
      have : (h.StreamRequestData s.m_pEventHandler 4096 s.m_uDataPosition).1.count ≠ 4096 := by
        simpa using hne
      omega
    · intro hlt
      have : (h.StreamRequestData s.m_pEventHandler 4096 s.m_uDataPosition).1.count ≠ 4096 := by
        omega
      simpa using this

theorem shiftLoop_rounds (h : Host W D) (n : Nat) (s : CMiniMP3AudioStream W D) :
    ∃ k, k ≤ n ∧ (shiftLoop h n s).m_uFramePosition + k * (2 * kChunkSize) = s.m_uFramePosition := by
  induction n generalizing s with
  | zero => exact ⟨0, Nat.le_refl _, by simp [shiftLoop]⟩
  | succ n ih =>
    simp only [shiftLoop]
    split
    · rename_i hc
      obtain ⟨k, hk, hfp⟩ := ih (shiftAndRefill h s)
      rw [shiftAndRefill_framePos] at hfp
      refine ⟨k + 1, by omega, ?_⟩
      have h1 : 2 * kChunkSize ≤ s.m_uFramePosition := hc.1
      rw [Nat.add_mul]
      omega
    · exact ⟨0, Nat.zero_le _, by simp⟩

/-- C16: the shift happens before decoding. In every `DecodeFrame` call, from every state, the
frame decoder is called on the state that the shift loop leaves, and there the frame cursor is
below 8192 or the data cursor has reached `m_nEOFPosition`; the loop got there by some number of
repetitions, at most `m_uFramePosition / 8192`, and every repetition (made while the cursor is at
least 8192 and the end is not reached) lowers the frame cursor by exactly 8192. -/
theorem DecodeFrame_shifts_before_decoding (h : Host W D) (s : CMiniMP3AudioStream W D)
    (pBuffer : Bytes) (pcmAt : Nat) :
    (DecodeFrame h s pBuffer pcmAt).2.2.log =
      Event.frame (shiftLoop h (s.m_uFramePosition / (2 * kChunkSize)) s).m_uFramePosition
        (viewLength (shiftLoop h (s.m_uFramePosition / (2 * kChunkSize)) s)) (some pcmAt)
        (DecodeFrame h s pBuffer pcmAt).1 (DecodeFrame h s pBuffer pcmAt).2.2.m_Info.frame_bytes
        (DecodeFrame h s pBuffer pcmAt).2.2.m_Info.channels ::
        (shiftLoop h (s.m_uFramePosition / (2 * kChunkSize)) s).log ∧
    ((shiftLoop h (s.m_uFramePosition / (2 * kChunkSize)) s).m_uFramePosition < 8192 ∨
      (shiftLoop h (s.m_uFramePosition / (2 * kChunkSize)) s).m_nEOFPosition ≤
        (shiftLoop h (s.m_uFramePosition / (2 * kChunkSize)) s).m_uDataPosition) ∧
    (∃ k, k ≤ s.m_uFramePosition / 8192 ∧
      (shiftLoop h (s.m_uFramePosition / (2 * kChunkSize)) s).m_uFramePosition + k * 8192 =
        s.m_uFramePosition) ∧
    ∀ (n : Nat) (t : CMiniMP3AudioStream W D), shiftCondition t →
      shiftLoop h (n + 1) t = shiftLoop h n (shiftAndRefill h t) ∧
      (shiftAndRefill h t).m_uFramePosition + 8192 = t.m_uFramePosition := by
  refine ⟨rfl, ?_, ?_, ?_⟩
  · have hfin := shiftLoop_finished h (s.m_uFramePosition / (2 * kChunkSize)) s (Nat.le_refl _)
    unfold kChunkSize at hfin ⊢
    omega
  · obtain ⟨k, hk, hfp⟩ := shiftLoop_rounds h (s.m_uFramePosition / (2 * kChunkSize)) s
    unfold kChunkSize at hk hfp ⊢
    exact ⟨k, hk, hfp⟩
  · intro n t hc
    constructor
    · simp only [shiftLoop]
      exact if_pos hc
    · rw [shiftAndRefill_framePos]
      have h1 : 2 * kChunkSize ≤ t.m_uFramePosition := hc.1
      unfold kChunkSize at h1 ⊢
      omega

/-! ## The calls made by one `Decode` call -/

theorem isEmptyFrame_of_read (e : Event) (he : e.isFrame = false) : e.isEmptyFrame = false := by
  cases e with
  | read i o c => rfl
  | frame fp len pcmAt n fb ch => simp [Event.isFrame] at he

theorem mem_tail_append {α : Type} (a b : List α) (e : α) (he : e ∈ (a ++ b).tail) :
    e ∈ a.tail ∨ e ∈ b := by
  cases a with
  | nil => exact Or.inr (List.mem_of_mem_tail he)
  | cons x rest =>
    have h1 : e ∈ rest ++ b := he
    rcases List.mem_append.mp h1 with h2 | h2
    · exact Or.inl h2
    · exact Or.inr h2

/-- The trace of the loop of `Decode`, for every host: the events it logs, newest first. The value
of `uSampleBytes` is the PCM byte count of these events in `unsigned int`; a frame without samples
can only be the newest event; and the frame cursor is the cursor handed to the newest frame
decoder call plus the frame bytes it reported. -/
theorem decodeLoop_trace (h : Host W D) (uBufferSize : Nat) :
    ∀ (fuel : Nat) (s : CMiniMP3AudioStream W D) (pBuffer : Bytes) (uSampleBytes : Nat)
      (s1 : CMiniMP3AudioStream W D) (buf1 : Bytes) (usb1 : Nat),
      uSampleBytes < UINT_RANGE → s.m_uFramePosition < UINT_RANGE →
      decodeLoop h uBufferSize fuel s pBuffer uSampleBytes = some (s1, buf1, usb1) →
      ∃ new : List Event, s1.log = new ++ s.log ∧
        usb1 = (uSampleBytes + pcmBytesOf new) % UINT_RANGE ∧
        (∀ e ∈ new.tail, e.isEmptyFrame = false) ∧
        (new = [] → s1.m_uFramePosition = s.m_uFramePosition) ∧
        (∀ (fp len : Nat) (pcmAt : Option Nat) (n fb ch : Nat) (rest : List Event),
          new = Event.frame fp len pcmAt n fb ch :: rest →
          fp < UINT_RANGE ∧ s1.m_uFramePosition = (fp + fb) % UINT_RANGE) := by
  intro fuel
  induction fuel with
  | zero =>
    intro s pBuffer usb s1 buf1 usb1 husb hfp hr
    simp only [decodeLoop] at hr
    split at hr
    · cases hr
    · cases hr
      refine ⟨[], rfl, ?_, by simp, fun _ => rfl, by simp⟩
      simp only [pcmBytesOf, Nat.add_zero]
      exact (Nat.mod_eq_of_lt husb).symm
  | succ fuel ih =>
    intro s pBuffer usb s1 buf1 usb1 husb hfp hr
    simp only [decodeLoop] at hr
    split at hr
    · obtain ⟨rs, hlog, hrs⟩ := DecodeFrame_log h s pBuffer usb
      obtain ⟨k, _, hk⟩ := shiftLoop_rounds h (s.m_uFramePosition / (2 * kChunkSize)) s
      have hfp1 : (shiftLoop h (s.m_uFramePosition / (2 * kChunkSize)) s).m_uFramePosition
          < UINT_RANGE := by omega
      have hfp2 : (DecodeFrame h s pBuffer usb).2.2.m_uFramePosition =
          ((shiftLoop h (s.m_uFramePosition / (2 * kChunkSize)) s).m_uFramePosition +
            (DecodeFrame h s pBuffer usb).2.2.m_Info.frame_bytes) % UINT_RANGE := rfl
      split at hr
      · rename_i hz
        cases hr
        refine ⟨_, hlog.trans (List.cons_append _ _ _).symm, ?_, ?_, by simp, ?_⟩
        · rw [hz]
          simp only [pcmBytesOf, pcmBytesOf_reads rs hrs, Nat.zero_mul, Nat.add_zero]
          exact (Nat.mod_eq_of_lt husb).symm
        · intro e he
          exact isEmptyFrame_of_read e (hrs e he)
        · intro fp len pcmAt n fb ch rest hnew
          injection hnew with hhead _
          injection hhead with e1 _ _ _ e5 _
          rw [← e1, ← e5]
          exact ⟨hfp1, hfp2⟩
      · rename_i hz
        have hlt : (usb + SamplesToBytes (DecodeFrame h s pBuffer usb).2.2
            (DecodeFrame h s pBuffer usb).1) % UINT_RANGE < UINT_RANGE :=
          Nat.mod_lt _ (by unfold UINT_RANGE; omega)
        have hfp3 : (DecodeFrame h s pBuffer usb).2.2.m_uFramePosition < UINT_RANGE := by
          rw [hfp2]
          exact Nat.mod_lt _ (by unfold UINT_RANGE; omega)
        obtain ⟨new, i1, i2, i3, i4, i5⟩ := ih _ _ _ s1 buf1 usb1 hlt hfp3 hr
        refine ⟨new ++ Event.frame
            (shiftLoop h (s.m_uFramePosition / (2 * kChunkSize)) s).m_uFramePosition
            (viewLength (shiftLoop h (s.m_uFramePosition / (2 * kChunkSize)) s)) (some usb)
            (DecodeFrame h s pBuffer usb).1 (DecodeFrame h s pBuffer usb).2.2.m_Info.frame_bytes
            (DecodeFrame h s pBuffer usb).2.2.m_Info.channels :: rs, ?_, ?_, ?_, by simp, ?_⟩
        · rw [i1, hlog]; simp
        · rw [i2, pcmBytesOf_append]
          simp only [pcmBytesOf, pcmBytesOf_reads rs hrs, Nat.add_zero, SamplesToBytes]
          generalize (DecodeFrame h s pBuffer usb).1 * sizeofShort *
            (DecodeFrame h s pBuffer usb).2.2.m_Info.channels = x
          unfold UINT_RANGE
          omega
        · intro e he
          rcases mem_tail_append _ _ e he with he | he
          · exact i3 e he
          · rcases List.mem_cons.mp he with he | he
            · rw [he]
              simpa [Event.isEmptyFrame] using hz
            · exact isEmptyFrame_of_read e (hrs e he)
        · intro fp len pcmAt n fb ch rest hnew
          cases new with
          | nil =>
            injection hnew with hhead _
            injection hhead with e1 _ _ _ e5 _
            rw [← e1, ← e5, i4 rfl]
            exact ⟨hfp1, hfp2⟩
          | cons e tl =>
            injection hnew with hhead _
            exact i5 fp len pcmAt n fb ch tl (by rw [hhead])
    · cases hr
      refine ⟨[], rfl, ?_, by simp, fun _ => rfl, by simp⟩
      simp only [pcmBytesOf, Nat.add_zero]
      exact (Nat.mod_eq_of_lt husb).symm

/-- C18: zero-sample frames end the call but still advance. For every host, every state (with the
frame cursor an `unsigned int`) and every buffer size: when a `DecodeFrame` of the loop returns 0
samples the loop is left at once with `uSampleBytes` as it was; and for every `Decode` call that
returns, a frame decoder call without samples can only be the newest call of that `Decode` call
(none follows it), the frame cursor afterwards is the cursor that call was given plus the frame
bytes it reported (in `unsigned int`; the same cursor when they are 0), and when the PCM byte
count of the frames of the call is not 0 (in `unsigned int`) that count is the value returned. -/
theorem Decode_zero_sample_frame (h : Host W D) (s : CMiniMP3AudioStream W D) (pBuffer : Bytes)
    (uBufferSize : Nat) (hfp : s.m_uFramePosition < UINT_RANGE) :
    (∀ (fuel : Nat) (t : CMiniMP3AudioStream W D) (buf : Bytes) (uSampleBytes : Nat),
      kSamplesPerFrameBufferSize < (uBufferSize + UINT_RANGE - uSampleBytes) % UINT_RANGE →
      (DecodeFrame h t buf uSampleBytes).1 = 0 →
      decodeLoop h uBufferSize (fuel + 1) t buf uSampleBytes =
        some ((DecodeFrame h t buf uSampleBytes).2.2, (DecodeFrame h t buf uSampleBytes).2.1,
          uSampleBytes)) ∧
    ∀ (fuel n : Nat) (buf1 : Bytes) (s1 : CMiniMP3AudioStream W D),
      Decode h fuel s pBuffer uBufferSize = some (n, buf1, s1) →
      ∃ new : List Event, s1.log = new ++ s.log ∧
        (∀ e ∈ new.tail, e.isEmptyFrame = false) ∧
        (∀ (fp len : Nat) (pcmAt : Option Nat) (fb ch : Nat) (rest : List Event),
          new = Event.frame fp len pcmAt 0 fb ch :: rest →
          s1.m_uFramePosition = (fp + fb) % UINT_RANGE ∧ (fb = 0 → s1.m_uFramePosition = fp)) ∧
        (pcmBytesOf new % UINT_RANGE ≠ 0 → n = pcmBytesOf new % UINT_RANGE) := by
  constructor
  · intro fuel t buf usb hc hz
    simp only [decodeLoop]
    rw [if_pos hc, if_pos hz]
  · intro fuel n buf1 s1 hd
    unfold Decode at hd
    split at hd
    · cases hd
      exact ⟨[], rfl, by simp, by simp, by simp [pcmBytesOf]⟩
    · split at hd
      · cases hd
      · rename_i s2 buf2 usb2 heq
        obtain ⟨new, i1, i2, i3, _, i5⟩ := decodeLoop_trace h uBufferSize fuel s pBuffer 0 s2 buf2
          usb2 (by unfold UINT_RANGE; omega) hfp heq
        rw [Nat.zero_add] at i2
        have hfinal : s1 = s2 ∧ (usb2 ≠ 0 → n = usb2) := by
          split at hd
          · rename_i hc
            cases hd
            exact ⟨rfl, fun hne => absurd hc.1 hne⟩
          · cases hd
            exact ⟨rfl, fun _ => rfl⟩
        rw [hfinal.1]
        refine ⟨new, i1, i3, ?_, ?_⟩
        · intro fp len pcmAt fb ch rest hnew
          obtain ⟨j1, j2⟩ := i5 fp len pcmAt 0 fb ch rest hnew
          refine ⟨j2, fun h0 => ?_⟩
          rw [j2, h0, Nat.add_zero]
          exact Nat.mod_eq_of_lt j1
        · intro hne
          rw [← i2] at hne ⊢
          exact hfinal.2 hne

/-- C18, witness: a 20000-byte stream of garbage of which the decoder skips 8192 bytes on every
call, right after construction, with a 16384-byte buffer. -/
theorem Decode_zero_sample_frame_witness :
    (construct (fileHost 20000 8192 0) ()).m_uFramePosition < UINT_RANGE ∧
    (Decode (fileHost 20000 8192 0) 1 (construct (fileHost 20000 8192 0) ()) (fun _ => 7)
        16384).map
      (fun r => (r.2.2.m_uFramePosition, r.2.2.log.take 1)) =
      some (8192, [Event.frame 0 16384 (some 0) 0 8192 0]) ∧
    (∀ (fuel : Nat) (t : CMiniMP3AudioStream Unit Unit) (buf : Bytes) (uSampleBytes : Nat),
      kSamplesPerFrameBufferSize < (16384 + UINT_RANGE - uSampleBytes) % UINT_RANGE →
      (DecodeFrame (fileHost 20000 8192 0) t buf uSampleBytes).1 = 0 →
      decodeLoop (fileHost 20000 8192 0) 16384 (fuel + 1) t buf uSampleBytes =
        some ((DecodeFrame (fileHost 20000 8192 0) t buf uSampleBytes).2.2,
          (DecodeFrame (fileHost 20000 8192 0) t buf uSampleBytes).2.1, uSampleBytes)) ∧
    ∀ (fuel n : Nat) (buf1 : Bytes) (s1 : CMiniMP3AudioStream Unit Unit),
      Decode (fileHost 20000 8192 0) fuel (construct (fileHost 20000 8192 0) ()) (fun _ => 7)
        16384 = some (n, buf1, s1) →
      ∃ new : List Event, s1.log = new ++ (construct (fileHost 20000 8192 0) ()).log ∧
        (∀ e ∈ new.tail, e.isEmptyFrame = false) ∧
        (∀ (fp len : Nat) (pcmAt : Option Nat) (fb ch : Nat) (rest : List Event),
          new = Event.frame fp len pcmAt 0 fb ch :: rest →
          s1.m_uFramePosition = (fp + fb) % UINT_RANGE ∧ (fb = 0 → s1.m_uFramePosition = fp)) ∧
        (pcmBytesOf new % UINT_RANGE ≠ 0 → n = pcmBytesOf new % UINT_RANGE) :=
  ⟨by decide, by decide,
    Decode_zero_sample_frame (fileHost 20000 8192 0) (construct (fileHost 20000 8192 0) ())
      (fun _ => 7) 16384 (by decide)⟩

/-! ## A short read ends the reading -/

theorem streamChunks_shortRemembered (h : Host W D) (i : Nat) (tl : List Nat)
    (s : CMiniMP3AudioStream W D) : ShortRemembered (streamChunks h (i :: tl) s) := by
  obtain ⟨rs, h1, h2⟩ := streamChunks_eof_cases h (i :: tl) s
  intro c hc hne
  rcases h2 with ⟨a1, a2, _⟩ | ⟨j, o, c1, rest, _, _, _, _, b5, b6⟩
  · cases rs with
    | nil => simp at a2
    | cons e rest =>
      have he := a1 e (List.mem_cons_self _ _)
      cases e with
      | read j o c1 =>
        rw [h1] at hc
        simp only [List.cons_append, lastReadCount, Option.some.injEq] at hc
        simp only [Event.isFullRead, beq_iff_eq] at he
        omega
      | frame fp len pcmAt n fb ch => simp [Event.isFullRead] at he
  · rw [b5, b6]

theorem UpdateStreamInfo_shortRemembered (h : Host W D) (s : CMiniMP3AudioStream W D) :
    ShortRemembered (UpdateStreamInfo h s) :=
  streamChunks_shortRemembered h 0 [1, 2, 3] s

theorem shiftLoop_shortRemembered (h : Host W D) (n : Nat) (s : CMiniMP3AudioStream W D)
    (hs : ShortRemembered s) : ShortRemembered (shiftLoop h n s) := by
  induction n generalizing s with
  | zero => exact hs
  | succ n ih =>
    simp only [shiftLoop]
    split
    · apply ih
      unfold shiftAndRefill
      exact streamChunks_shortRemembered h 2 [3] _
    · exact hs

theorem DecodeFrame_shortRemembered (h : Host W D) (s : CMiniMP3AudioStream W D)
    (pBuffer : Bytes) (pcmAt : Nat) (hs : ShortRemembered s) :
    ShortRemembered (DecodeFrame h s pBuffer pcmAt).2.2 :=
  shiftLoop_shortRemembered h (s.m_uFramePosition / (2 * kChunkSize)) s hs

theorem Reachable_shortRemembered (h : Host W D) {s : CMiniMP3AudioStream W D}
    (hr : Reachable h s) : ShortRemembered s := by
  induction hr with
  | construct w => exact UpdateStreamInfo_shortRemembered h _
  | decode _ hd ih =>
    exact Decode_preserves h ShortRemembered
      (fun t b a ht => DecodeFrame_shortRemembered h t b a ht) ih hd
  | seek x _ _ _ => exact UpdateStreamInfo_shortRemembered h _

/-- Once the data cursor has reached `m_nEOFPosition`, `DecodeFrame` only calls the frame decoder:
the window, the data cursor, the event handler and `m_nEOFPosition` are as before and the log has
one more event, a frame decoder call. -/
theorem DecodeFrame_exhausted_window (h : Host W D) (s : CMiniMP3AudioStream W D)
    (pBuffer : Bytes) (pcmAt : Nat) (hs : s.m_nEOFPosition ≤ s.m_uDataPosition) :
    (DecodeFrame h s pBuffer pcmAt).2.2.m_nChunkSize = s.m_nChunkSize ∧
    (DecodeFrame h s pBuffer pcmAt).2.2.m_FullFrame = s.m_FullFrame ∧
    (DecodeFrame h s pBuffer pcmAt).2.2.m_pEventHandler = s.m_pEventHandler ∧
    ∃ e : Event, e.isFrame = true ∧ (DecodeFrame h s pBuffer pcmAt).2.2.log = e :: s.log := by
  have hl := shiftLoop_exhausted h (s.m_uFramePosition / (2 * kChunkSize)) s hs
  refine ⟨?_, ?_, ?_, ?_⟩
  · show (shiftLoop h (s.m_uFramePosition / (2 * kChunkSize)) s).m_nChunkSize = _
    rw [hl]
  · show (shiftLoop h (s.m_uFramePosition / (2 * kChunkSize)) s).m_FullFrame = _
    rw [hl]
  · show (shiftLoop h (s.m_uFramePosition / (2 * kChunkSize)) s).m_pEventHandler = _
    rw [hl]
  · obtain ⟨e, he1, he2⟩ : ∃ e : Event, e.isFrame = true ∧
        (DecodeFrame h s pBuffer pcmAt).2.2.log =
          e :: (shiftLoop h (s.m_uFramePosition / (2 * kChunkSize)) s).log :=
      ⟨Event.frame _ _ _ _ _ _, rfl, rfl⟩
    rw [hl] at he2
    exact ⟨e, he1, he2⟩

/-- After the end of the stream was reached, `Decode` calls leave the window, the data cursor, the
event handler and `m_nEOFPosition` as they are and log frame decoder calls only. -/
theorem DecodedFrom_exhausted (h : Host W D) (s : CMiniMP3AudioStream W D)
    (hs : s.m_nEOFPosition ≤ s.m_uDataPosition) {s1 : CMiniMP3AudioStream W D}
    (hd : DecodedFrom h s s1) :
    s1.m_nEOFPosition = s.m_nEOFPosition ∧ s1.m_uDataPosition = s.m_uDataPosition ∧
    s1.m_nChunkSize = s.m_nChunkSize ∧ s1.m_FullFrame = s.m_FullFrame ∧
    s1.m_pEventHandler = s.m_pEventHandler ∧
    ∃ new : List Event, s1.log = new ++ s.log ∧ ∀ e ∈ new, e.isFrame = true := by
  induction hd with
  | here => exact ⟨rfl, rfl, rfl, rfl, rfl, [], rfl, by simp⟩
  | decode _ hstep ih =>
    refine Decode_preserves h
      (fun t => t.m_nEOFPosition = s.m_nEOFPosition ∧ t.m_uDataPosition = s.m_uDataPosition ∧
        t.m_nChunkSize = s.m_nChunkSize ∧ t.m_FullFrame = s.m_FullFrame ∧
        t.m_pEventHandler = s.m_pEventHandler ∧
        ∃ new : List Event, t.log = new ++ s.log ∧ ∀ e ∈ new, e.isFrame = true)
      ?_ ih hstep
    intro t b a ht
    obtain ⟨t1, t2, t3, t4, t5, new, t6, t7⟩ := ht
    have hx : t.m_nEOFPosition ≤ t.m_uDataPosition := by omega
    obtain ⟨e1, e2⟩ := DecodeFrame_exhausted h t b a hx
    obtain ⟨w1, w2, w3, e, w4, w5⟩ := DecodeFrame_exhausted_window h t b a hx
    refine ⟨e1.trans t1, e2.trans t2, w1.trans t3, w2.trans t4, w3.trans t5, e :: new, ?_, ?_⟩
    · rw [w5, t6]; rfl
    · intro x hx1
      rcases List.mem_cons.mp hx1 with hx1 | hx1
      · rw [hx1]; exact w4
      · exact t7 x hx1

/-! ## Claim C17: a short read is never retried -/

/-- C17: a short read is never retried. In every reachable state whose newest read (a priming
read of the constructor or of `SetPosition`, or a refill) returned fewer than 4096 bytes, so that
no `SetPosition` was called since, every sequence of `Decode` calls that return leaves
`m_uDataPosition`, the chunk sizes, `m_nEOFPosition` and the event handler unchanged, and the
events it logs are frame decoder calls only: no read is issued. Each of these `Decode` calls does
return, within `uBufferSize / 2` rounds of its loop, when every frame has at most 1152 samples and
at most 2 channels, and at least one channel when it has samples. -/
theorem Decode_never_reads_again (h : Host W D) (s : CMiniMP3AudioStream W D)
    (hr : Reachable h s) (c : Nat) (hlast : lastReadCount s.log = some c) (hshort : c < 4096)
    (s1 : CMiniMP3AudioStream W D) (hd : DecodedFrom h s s1) :
    s1.m_uDataPosition = s.m_uDataPosition ∧ s1.m_nChunkSize = s.m_nChunkSize ∧
    s1.m_nEOFPosition = s.m_nEOFPosition ∧ s1.m_pEventHandler = s.m_pEventHandler ∧
    (∃ new : List Event, s1.log = new ++ s.log ∧ ∀ e ∈ new, e.isFrame = true) ∧
    (AtMostFrameSamples h → AtMostStereo h → SamplesHaveChannels h →
      ∀ (pBuffer : Bytes) (uBufferSize : Nat), uBufferSize < UINT_RANGE →
        ∃ res, Decode h (uBufferSize / 2) s1 pBuffer uBufferSize = some res) := by
  have heof : s.m_nEOFPosition = s.m_uDataPosition :=
    Reachable_shortRemembered h hr c hlast (by unfold kChunkSize; omega)
  obtain ⟨a1, a2, a3, _, a5, a6⟩ := DecodedFrom_exhausted h s (by omega) hd
  exact ⟨a2, a3, a1, a5, a6,
    fun hsamp hch hpos pBuffer uBufferSize hcap =>
      Decode_returns h hsamp hch hpos s1 pBuffer uBufferSize hcap⟩

/-- C17, witness: the constructor over a 100-byte stream reads 100 bytes, a short read; one
`Decode` call with a 16384-byte buffer follows. -/
theorem Decode_never_reads_again_witness :
    Reachable (fileHost 100 0 0) (construct (fileHost 100 0 0) ()) ∧
    lastReadCount (construct (fileHost 100 0 0) ()).log = some 100 ∧ 100 < 4096 ∧
    DecodedFrom (fileHost 100 0 0) (construct (fileHost 100 0 0) ())
      (DecodeFrame (fileHost 100 0 0) (construct (fileHost 100 0 0) ()) (fun _ => 7) 0).2.2 ∧
    (DecodeFrame (fileHost 100 0 0) (construct (fileHost 100 0 0) ()) (fun _ => 7) 0).2.2.m_uDataPosition
      = (construct (fileHost 100 0 0) ()).m_uDataPosition :=
  ⟨Reachable.construct (), rfl, by decide,
    DecodedFrom.decode DecodedFrom.here
      (show Decode (fileHost 100 0 0) 1 (construct (fileHost 100 0 0) ()) (fun _ => 7) 16384 =
        some (0, _, _) from rfl),
    (Decode_never_reads_again (fileHost 100 0 0) (construct (fileHost 100 0 0) ())
      (Reachable.construct ()) 100 rfl (by decide) _
      (DecodedFrom.decode DecodedFrom.here
        (show Decode (fileHost 100 0 0) 1 (construct (fileHost 100 0 0) ()) (fun _ => 7) 16384 =
          some (0, _, _) from rfl))).1⟩

/-! ## Claim C19: how many frame decoder calls one `Decode` call makes -/

theorem frameCalls_append (a b : List Event) : frameCalls (a ++ b) = frameCalls a + frameCalls b := by
  induction a with
  | nil => simp [frameCalls]
  | cons e rest ih =>
    cases e with
    | read i o c => simpa [frameCalls] using ih
    | frame fp len pcmAt n fb ch =>
      show frameCalls (rest ++ b) + 1 = frameCalls rest + 1 + frameCalls b
      rw [ih]
      omega

theorem frameCalls_reads (rs : List Event) (hrs : ∀ e ∈ rs, e.isFrame = false) :
    frameCalls rs = 0 := by
  induction rs with
  | nil => rfl
  | cons e rest ih =>
    have he := hrs e (List.mem_cons_self _ _)
    cases e with
    | read i o c =>
      simp only [frameCalls]
      exact ih (fun e1 h1 => hrs e1 (List.mem_cons_of_mem _ h1))
    | frame fp len pcmAt n fb ch => simp [Event.isFrame] at he

theorem decodeLoop_calls (h : Host W D) (hsamp : AtMostFrameSamples h) (hch : AtMostStereo h)
    (hpos : SamplesHaveChannels h) (uBufferSize : Nat) (hcap : uBufferSize < UINT_RANGE) :
    ∀ (fuel : Nat) (s : CMiniMP3AudioStream W D) (pBuffer : Bytes) (uSampleBytes : Nat)
      (s1 : CMiniMP3AudioStream W D) (buf1 : Bytes) (usb1 : Nat),
      uSampleBytes ≤ uBufferSize →
      decodeLoop h uBufferSize fuel s pBuffer uSampleBytes = some (s1, buf1, usb1) →
      ∃ new : List Event, s1.log = new ++ s.log ∧
        frameCalls new ≤ (uBufferSize - uSampleBytes) / 2 + 1 := by
  intro fuel
  induction fuel with
  | zero =>
    intro s pBuffer usb s1 buf1 usb1 hle hr
    simp only [decodeLoop] at hr
    split at hr
    · cases hr
    · cases hr
      exact ⟨[], rfl, by simp [frameCalls]⟩
  | succ fuel ih =>
    intro s pBuffer usb s1 buf1 usb1 hle hr
    simp only [decodeLoop] at hr
    rw [loop_condition_room uBufferSize usb hcap hle] at hr
    by_cases hc : kSamplesPerFrameBufferSize < uBufferSize - usb
    · rw [if_pos hc] at hr
      have hroom : 4608 < uBufferSize - usb := hc
      obtain ⟨rs, hlog, hrs⟩ := DecodeFrame_log h s pBuffer usb
      by_cases hz : (DecodeFrame h s pBuffer usb).1 = 0
      · rw [if_pos hz] at hr
        cases hr
        refine ⟨_, hlog.trans (List.cons_append _ _ _).symm, ?_⟩
        simp only [frameCalls, frameCalls_reads rs hrs]
        omega
      · rw [if_neg hz] at hr
        have h2 := DecodeFrame_stereo h hch s pBuffer usb
        have h3 := DecodeFrame_samples_le h hsamp s pBuffer usb
        have h4 := DecodeFrame_channels_pos h hpos s pBuffer usb (Nat.pos_of_ne_zero hz)
        have hbytes := SamplesToBytes_stereo (DecodeFrame h s pBuffer usb).2.2
          (DecodeFrame h s pBuffer usb).1 h3 h2
        have hlen := hbytes.2
        rw [hbytes.1] at hlen hr
        have hge : 2 ≤ (DecodeFrame h s pBuffer usb).1 * 2 *
            (DecodeFrame h s pBuffer usb).2.2.m_Info.channels := by
          have : 1 * 2 * 1 ≤ (DecodeFrame h s pBuffer usb).1 * 2 *
              (DecodeFrame h s pBuffer usb).2.2.m_Info.channels :=
            Nat.mul_le_mul (Nat.mul_le_mul (Nat.pos_of_ne_zero hz) (Nat.le_refl 2)) h4
          omega
        have hmod : (usb + (DecodeFrame h s pBuffer usb).1 * 2 *
            (DecodeFrame h s pBuffer usb).2.2.m_Info.channels) % UINT_RANGE =
            usb + (DecodeFrame h s pBuffer usb).1 * 2 *
              (DecodeFrame h s pBuffer usb).2.2.m_Info.channels := by
          apply Nat.mod_eq_of_lt
          omega
        rw [hmod] at hr
        obtain ⟨new, i1, i2⟩ := ih _ _ _ s1 buf1 usb1 (by omega) hr
        refine ⟨new ++ Event.frame
            (shiftLoop h (s.m_uFramePosition / (2 * kChunkSize)) s).m_uFramePosition
            (viewLength (shiftLoop h (s.m_uFramePosition / (2 * kChunkSize)) s)) (some usb)
            (DecodeFrame h s pBuffer usb).1 (DecodeFrame h s pBuffer usb).2.2.m_Info.frame_bytes
            (DecodeFrame h s pBuffer usb).2.2.m_Info.channels :: rs, ?_, ?_⟩
        · rw [i1, hlog]; simp
        · rw [frameCalls_append]
          simp only [frameCalls, frameCalls_reads rs hrs]
          omega
    · rw [if_neg hc] at hr
      cases hr
      exact ⟨[], rfl, by simp [frameCalls]⟩

/-- With the decoder of `spinHost` the loop of `Decode` never ends for a 4609-byte buffer:
`SamplesToBytes( 1073741824 )` is `1073741824 * 2 * 2 = 2 ^ 32`, which is 0 in `unsigned int`,
so `uSampleBytes` stays 0. -/
theorem decodeLoop_spins :
    ∀ (fuel : Nat) (s : CMiniMP3AudioStream Unit Unit) (pBuffer : Bytes),
      decodeLoop spinHost 4609 fuel s pBuffer 0 = none := by
  intro fuel
  induction fuel with
  | zero =>
    intro s pBuffer
    rfl
  | succ fuel ih =>
    intro s pBuffer
    have hsam : (DecodeFrame spinHost s pBuffer 0).1 = 1073741824 := rfl
    have hch : (DecodeFrame spinHost s pBuffer 0).2.2.m_Info.channels = 2 := rfl
    have hb : (0 + SamplesToBytes (DecodeFrame spinHost s pBuffer 0).2.2
        (DecodeFrame spinHost s pBuffer 0).1) % UINT_RANGE = 0 := by
      unfold SamplesToBytes
      rw [hsam, hch]
      decide
    simp only [decodeLoop]
    rw [if_pos (by decide), if_neg (by rw [hsam]; decide), hb]
    exact ih _ _

/-- C19 (as amended): `Decode` terminates. For every state, every buffer size in `unsigned int`
and every data source, when every frame decoder result has at most 1152 samples and at most 2
channels, and at least one channel when it has samples: `Decode` returns within `uBufferSize / 2`
rounds of its loop, every `Decode` call makes at most `uBufferSize / 2 + 1` frame decoder calls,
and the shift loop of a frame step, from every state, has its condition false after at most
`m_uFramePosition / 8192` repetitions. -/
theorem Decode_terminates (h : Host W D) (hsamp : AtMostFrameSamples h) (hch : AtMostStereo h)
    (hpos : SamplesHaveChannels h) (s : CMiniMP3AudioStream W D) (pBuffer : Bytes)
    (uBufferSize : Nat) (hcap : uBufferSize < UINT_RANGE) :
    (∃ res, Decode h (uBufferSize / 2) s pBuffer uBufferSize = some res) ∧
    (∀ (fuel n : Nat) (buf1 : Bytes) (s1 : CMiniMP3AudioStream W D),
      Decode h fuel s pBuffer uBufferSize = some (n, buf1, s1) →
      ∃ new : List Event, s1.log = new ++ s.log ∧ frameCalls new ≤ uBufferSize / 2 + 1) ∧
    ∀ t : CMiniMP3AudioStream W D,
      ¬ shiftCondition (shiftLoop h (t.m_uFramePosition / (2 * kChunkSize)) t) ∧
      ∃ k, k ≤ t.m_uFramePosition / 8192 ∧
        (shiftLoop h (t.m_uFramePosition / (2 * kChunkSize)) t).m_uFramePosition + k * 8192 =
          t.m_uFramePosition := by
  refine ⟨Decode_returns h hsamp hch hpos s pBuffer uBufferSize hcap, ?_, ?_⟩
  · intro fuel n buf1 s1 hd
    unfold Decode at hd
    split at hd
    · cases hd
      exact ⟨[], rfl, by simp [frameCalls]⟩
    · split at hd
      · cases hd
      · rename_i s2 buf2 usb2 heq
        obtain ⟨new, i1, i2⟩ := decodeLoop_calls h hsamp hch hpos uBufferSize hcap fuel s pBuffer 0
          s2 buf2 usb2 (Nat.zero_le _) heq
        have hs : s1 = s2 := by
          split at hd
          · cases hd; rfl
          · cases hd; rfl
        rw [hs]
        exact ⟨new, i1, by simpa using i2⟩
  · intro t
    refine ⟨shiftLoop_finished h _ t (Nat.le_refl _), ?_⟩
    obtain ⟨k, hk, hfp⟩ := shiftLoop_rounds h (t.m_uFramePosition / (2 * kChunkSize)) t
    unfold kChunkSize at hk hfp ⊢
    exact ⟨k, hk, hfp⟩

/-- C19, witness: a source that never ends with a decoder of 1152-sample mono frames, right after
construction, with a 16384-byte buffer. -/
theorem Decode_terminates_witness :
    AtMostFrameSamples monoHost ∧ AtMostStereo monoHost ∧ SamplesHaveChannels monoHost ∧
    (16384 : Nat) < UINT_RANGE ∧
    (∃ res, Decode monoHost (16384 / 2) (construct monoHost ()) (fun _ => 7) 16384 = some res) ∧
    (∀ (fuel n : Nat) (buf1 : Bytes) (s1 : CMiniMP3AudioStream Unit Unit),
      Decode monoHost fuel (construct monoHost ()) (fun _ => 7) 16384 = some (n, buf1, s1) →
      ∃ new : List Event, s1.log = new ++ (construct monoHost ()).log ∧
        frameCalls new ≤ 16384 / 2 + 1) ∧
    ∀ t : CMiniMP3AudioStream Unit Unit,
      ¬ shiftCondition (shiftLoop monoHost (t.m_uFramePosition / (2 * kChunkSize)) t) ∧
      ∃ k, k ≤ t.m_uFramePosition / 8192 ∧
        (shiftLoop monoHost (t.m_uFramePosition / (2 * kChunkSize)) t).m_uFramePosition + k * 8192
          = t.m_uFramePosition :=
  ⟨fun _ _ _ _ _ => Nat.le_refl 1152, fun _ _ _ _ _ => Nat.le_succ 1,
    fun _ _ _ _ _ _ => Nat.succ_pos 0, by decide,
    Decode_terminates monoHost (fun _ _ _ _ _ => Nat.le_refl 1152)
      (fun _ _ _ _ _ => Nat.le_succ 1) (fun _ _ _ _ _ _ => Nat.succ_pos 0)
      (construct monoHost ()) (fun _ => 7) 16384 (by decide)⟩

/-- C19, counterexample: every frame decoder result of `spinHost` has samples and 2 channels, yet
a `Decode` call with a 4609-byte buffer right after construction does not return for any number
of rounds of its loop: after 2305 frame decoder calls, the bound `4609 / 2 + 1`, the loop goes
on. -/
theorem Decode_spins_on_wrapped_byte_count :
    SamplesHaveChannels spinHost ∧
    SamplesToBytes (DecodeFrame spinHost (construct spinHost ()) (fun _ => 0) 0).2.2 1073741824
      = 0 ∧
    ∀ fuel : Nat, Decode spinHost fuel (construct spinHost ()) (fun _ => 0) 4609 = none := by
  refine ⟨fun _ _ _ _ _ _ => Nat.succ_pos 1, by decide, ?_⟩
  intro fuel
  unfold Decode
  rw [if_neg (by decide), decodeLoop_spins fuel]

/-! ## The chunk sizes -/

theorem StreamChunk_size_other (h : Host W D) (s : CMiniMP3AudioStream W D) (i j : Nat)
    (hj : j ≠ i) : (StreamChunk h s i).2.m_nChunkSize j = s.m_nChunkSize j := by
  show Function.update s.m_nChunkSize i _ j = _
  rw [Function.update_noteq hj]

theorem StreamChunk_size_same (h : Host W D) (s : CMiniMP3AudioStream W D) (i : Nat) :
    (StreamChunk h s i).2.m_nChunkSize i =
      (h.StreamRequestData s.m_pEventHandler kChunkSize s.m_uDataPosition).1.count := by
  show Function.update s.m_nChunkSize i _ i = _
  rw [Function.update_same]

theorem streamChunks_size_other (h : Host W D) (l : List Nat) (s : CMiniMP3AudioStream W D)
    (j : Nat) (hj : j ∉ l) : (streamChunks h l s).m_nChunkSize j = s.m_nChunkSize j := by
  induction l generalizing s with
  | nil => rfl
  | cons i tl ih =>
    have hji : j ≠ i := fun hEq => hj (by rw [hEq]; exact List.mem_cons_self _ _)
    have hjt : j ∉ tl := fun hm => hj (List.mem_cons_of_mem _ hm)
    simp only [streamChunks]
    split
    · exact StreamChunk_size_other h s i j hji
    · rw [ih _ hjt]
      exact StreamChunk_size_other h s i j hji

theorem streamChunks_sizes_le (h : Host W D) (hread : ReadsAtMostChunk h) (l : List Nat)
    (s : CMiniMP3AudioStream W D) (hs : ∀ m, s.m_nChunkSize m ≤ kChunkSize) :
    ∀ m, (streamChunks h l s).m_nChunkSize m ≤ kChunkSize := by
  induction l generalizing s with
  | nil => exact hs
  | cons i tl ih =>
    have hstep : ∀ m, (StreamChunk h s i).2.m_nChunkSize m ≤ kChunkSize := by
      intro m
      by_cases hm : m = i
      · rw [hm, StreamChunk_size_same]
        exact hread _ _
      · rw [StreamChunk_size_other h s i m hm]
        exact hs m
    simp only [streamChunks]
    split
    · exact hstep
    · exact ih _ hstep

theorem streamChunks_fullOrEof (h : Host W D) (l : List Nat) (s : CMiniMP3AudioStream W D)
    (hs : ∀ m, m < 4 → m ∉ l → s.m_nChunkSize m = kChunkSize) :
    FullOrEof (streamChunks h l s) := by
  induction l generalizing s with
  | nil =>
    left
    exact ⟨hs 0 (by omega) (by simp), hs 1 (by omega) (by simp), hs 2 (by omega) (by simp),
      hs 3 (by omega) (by simp)⟩
  | cons i tl ih =>
    simp only [streamChunks]
    by_cases hshort : (StreamChunk h s i).1 = true
    · rw [if_pos hshort]
      right
      rfl
    · rw [if_neg hshort]
      apply ih
      intro m hm hmt
      by_cases hmi : m = i
      · rw [hmi, StreamChunk_size_same]
        rw [StreamChunk_short] at hshort
        simpa using hshort
      · rw [StreamChunk_size_other h s i m hmi]
        apply hs m hm
        intro hmem
        rcases List.mem_cons.mp hmem with hEq | hIn
        · exact hmi hEq
        · exact hmt hIn

theorem UpdateStreamInfo_fullOrEof (h : Host W D) (s : CMiniMP3AudioStream W D) :
    FullOrEof (UpdateStreamInfo h s) := by
  have hf := streamChunks_fullOrEof h [0, 1, 2, 3] s (by
    intro m hm hnot
    exfalso
    apply hnot
    have : m = 0 ∨ m = 1 ∨ m = 2 ∨ m = 3 := by omega
    rcases this with h0 | h0 | h0 | h0 <;> simp [h0])
  exact hf

theorem shiftAndRefill_size_front (h : Host W D) (s : CMiniMP3AudioStream W D) :
    (shiftAndRefill h s).m_nChunkSize 0 = s.m_nChunkSize 2 ∧
    (shiftAndRefill h s).m_nChunkSize 1 = s.m_nChunkSize 3 := by
  unfold shiftAndRefill
  constructor
  · rw [streamChunks_size_other h [2, 3] _ 0 (by simp)]
    rfl
  · rw [streamChunks_size_other h [2, 3] _ 1 (by simp)]
    rfl

theorem full_of_shiftCondition (s : CMiniMP3AudioStream W D) (hs : FullOrEof s)
    (hc : s.m_uDataPosition < s.m_nEOFPosition) :
    s.m_nChunkSize 0 = kChunkSize ∧ s.m_nChunkSize 1 = kChunkSize ∧
    s.m_nChunkSize 2 = kChunkSize ∧ s.m_nChunkSize 3 = kChunkSize := by
  rcases hs with hs | hs
  · exact hs
  · omega

theorem shiftAndRefill_fullOrEof (h : Host W D) (s : CMiniMP3AudioStream W D)
    (hs : FullOrEof s) (hc : shiftCondition s) : FullOrEof (shiftAndRefill h s) := by
  obtain ⟨_, _, f2, f3⟩ := full_of_shiftCondition s hs hc.2
  unfold shiftAndRefill
  apply streamChunks_fullOrEof
  intro m hm hnot
  have : m = 0 ∨ m = 1 := by
    have : m = 0 ∨ m = 1 ∨ m = 2 ∨ m = 3 := by omega
    rcases this with h0 | h0 | h0 | h0
    · exact Or.inl h0
    · exact Or.inr h0
    · exact absurd (by simp [h0]) hnot
    · exact absurd (by simp [h0]) hnot
  rcases this with h0 | h0
  · rw [h0]; exact f2
  · rw [h0]; exact f3

theorem shiftLoop_fullOrEof (h : Host W D) (n : Nat) (s : CMiniMP3AudioStream W D)
    (hs : FullOrEof s) : FullOrEof (shiftLoop h n s) := by
  induction n generalizing s with
  | zero => exact hs
  | succ n ih =>
    simp only [shiftLoop]
    split
    · rename_i hc
      exact ih _ (shiftAndRefill_fullOrEof h s hs hc)
    · exact hs

theorem Reachable_fullOrEof (h : Host W D) {s : CMiniMP3AudioStream W D} (hr : Reachable h s) :
    FullOrEof s := by
  induction hr with
  | construct w => exact UpdateStreamInfo_fullOrEof h _
  | decode _ hd ih =>
    exact Decode_preserves h FullOrEof
      (fun t b a ht => shiftLoop_fullOrEof h (t.m_uFramePosition / (2 * kChunkSize)) t ht) ih hd
  | seek x _ _ _ => exact UpdateStreamInfo_fullOrEof h _

theorem shiftAndRefill_sizes_le (h : Host W D) (hread : ReadsAtMostChunk h)
    (s : CMiniMP3AudioStream W D) (hs : ∀ m, s.m_nChunkSize m ≤ kChunkSize) :
    ∀ m, (shiftAndRefill h s).m_nChunkSize m ≤ kChunkSize := by
  unfold shiftAndRefill
  apply streamChunks_sizes_le h hread
  intro m
  show (if m = 0 then s.m_nChunkSize 2 else if m = 1 then s.m_nChunkSize 3
    else if m = 2 then 0 else if m = 3 then 0 else s.m_nChunkSize m) ≤ kChunkSize
  split
  · exact hs 2
  · split
    · exact hs 3
    · split
      · exact Nat.zero_le _
      · split
        · exact Nat.zero_le _
        · exact hs m

theorem shiftLoop_sizes_le (h : Host W D) (hread : ReadsAtMostChunk h) (n : Nat)
    (s : CMiniMP3AudioStream W D) (hs : ∀ m, s.m_nChunkSize m ≤ kChunkSize) :
    ∀ m, (shiftLoop h n s).m_nChunkSize m ≤ kChunkSize := by
  induction n generalizing s with
  | zero => exact hs
  | succ n ih =>
    simp only [shiftLoop]
    split
    · exact ih _ (shiftAndRefill_sizes_le h hread s hs)
    · exact hs

theorem Reachable_sizes_le (h : Host W D) (hread : ReadsAtMostChunk h)
    {s : CMiniMP3AudioStream W D} (hr : Reachable h s) : ∀ m, s.m_nChunkSize m ≤ kChunkSize := by
  induction hr with
  | construct w =>
    exact streamChunks_sizes_le h hread [0, 1, 2, 3] (initial h w) (fun _ => Nat.zero_le _)
  | decode _ hd ih =>
    exact Decode_preserves h (fun t => ∀ m, t.m_nChunkSize m ≤ kChunkSize)
      (fun t b a ht => shiftLoop_sizes_le h hread (t.m_uFramePosition / (2 * kChunkSize)) t ht)
      ih hd
  | seek x _ _ ih => exact streamChunks_sizes_le h hread [0, 1, 2, 3] _ ih

theorem total_of_sizes_le (s : CMiniMP3AudioStream W D)
    (hs : ∀ m, s.m_nChunkSize m ≤ kChunkSize) :
    GetTotalChunkSizes s =
      s.m_nChunkSize 0 + s.m_nChunkSize 1 + s.m_nChunkSize 2 + s.m_nChunkSize 3 ∧
    GetTotalChunkSizes s ≤ sizeofFrames := by
  have h0 := hs 0
  have h1 := hs 1
  have h2 := hs 2
  have h3 := hs 3
  unfold GetTotalChunkSizes sizeofFrames kChunkCount UINT_RANGE
  unfold kChunkSize at *
  omega

/-- When the shift runs on a window whose chunks are all full, the rebased cursor stays within
the valid bytes. -/
theorem shiftAndRefill_cursor (h : Host W D) (hread : ReadsAtMostChunk h)
    (s : CMiniMP3AudioStream W D) (hs : FullOrEof s) (hle : ∀ m, s.m_nChunkSize m ≤ kChunkSize)
    (hc : shiftCondition s) (hfp : s.m_uFramePosition ≤ GetTotalChunkSizes s) :
    (shiftAndRefill h s).m_uFramePosition ≤ GetTotalChunkSizes (shiftAndRefill h s) := by
  obtain ⟨_, _, f2, f3⟩ := full_of_shiftCondition s hs hc.2
  obtain ⟨g0, g1⟩ := shiftAndRefill_size_front h s
  have t1 := total_of_sizes_le s hle
  have t2 := total_of_sizes_le _ (shiftAndRefill_sizes_le h hread s hle)
  rw [shiftAndRefill_framePos, t2.1, g0, g1, f2, f3]
  have := t1.2
  unfold sizeofFrames kChunkCount at this
  unfold kChunkSize at *
  omega

/-! ## Claim C20: the refill runs on a full window -/

/-- C20: the refill only ever runs on a full window. When every read returns at most 4096 bytes,
in every reachable state (constructor, `Decode` and `SetPosition` calls), and in every state that
the shift loop passes through from there: if `m_uDataPosition < m_nEOFPosition` then all four
chunk sizes are 4096; hence whenever the shift and refill runs, the two chunks it copies down are
full (and stay the full chunks 0 and 1), and a frame cursor that was within the valid bytes stays
within them after it was rebased. -/
theorem refill_runs_on_full_window (h : Host W D) (hread : ReadsAtMostChunk h)
    (s : CMiniMP3AudioStream W D) (hr : Reachable h s) (n : Nat) :
    ((shiftLoop h n s).m_uDataPosition < (shiftLoop h n s).m_nEOFPosition →
      (shiftLoop h n s).m_nChunkSize 0 = 4096 ∧ (shiftLoop h n s).m_nChunkSize 1 = 4096 ∧
      (shiftLoop h n s).m_nChunkSize 2 = 4096 ∧ (shiftLoop h n s).m_nChunkSize 3 = 4096) ∧
    (shiftCondition (shiftLoop h n s) →
      (shiftLoop h n s).m_nChunkSize 2 = 4096 ∧ (shiftLoop h n s).m_nChunkSize 3 = 4096 ∧
      (shiftAndRefill h (shiftLoop h n s)).m_nChunkSize 0 = 4096 ∧
      (shiftAndRefill h (shiftLoop h n s)).m_nChunkSize 1 = 4096 ∧
      ((shiftLoop h n s).m_uFramePosition ≤ GetTotalChunkSizes (shiftLoop h n s) →
        (shiftAndRefill h (shiftLoop h n s)).m_uFramePosition ≤
          GetTotalChunkSizes (shiftAndRefill h (shiftLoop h n s)))) := by
  have hf := shiftLoop_fullOrEof h n s (Reachable_fullOrEof h hr)
  have hle := shiftLoop_sizes_le h hread n s (Reachable_sizes_le h hread hr)
  constructor
  · intro hlt
    exact full_of_shiftCondition _ hf hlt
  · intro hc
    obtain ⟨_, _, f2, f3⟩ := full_of_shiftCondition _ hf hc.2
    obtain ⟨g0, g1⟩ := shiftAndRefill_size_front h (shiftLoop h n s)
    exact ⟨f2, f3, g0.trans f2, g1.trans f3,
      fun hfp => shiftAndRefill_cursor h hread _ hf hle hc hfp⟩

/-- C20, witness: a 20000-byte stream of garbage right after construction; the state itself is the
one the shift loop is in after 0 rounds. -/
theorem refill_runs_on_full_window_witness :
    ReadsAtMostChunk (fileHost 20000 8192 0) ∧
    Reachable (fileHost 20000 8192 0) (construct (fileHost 20000 8192 0) ()) ∧
    (construct (fileHost 20000 8192 0) ()).m_uDataPosition <
      (construct (fileHost 20000 8192 0) ()).m_nEOFPosition ∧
    (construct (fileHost 20000 8192 0) ()).m_nChunkSize 3 = 4096 :=
  ⟨fun _ _ => Nat.min_le_left _ _, Reachable.construct (), by decide,
    ((refill_runs_on_full_window (fileHost 20000 8192 0) (fun _ _ => Nat.min_le_left _ _)
      (construct (fileHost 20000 8192 0) ()) (Reachable.construct ()) 0).1 (by decide)).2.2.2⟩

/-! ## Claim C11: the capacity invariant -/

theorem viewInWindow_append_reads (rs log : List Event) (hrs : ∀ e ∈ rs, e.isFrame = false)
    (hlog : ∀ e ∈ log, e.viewInWindow) : ∀ e ∈ rs ++ log, e.viewInWindow := by
  intro e he
  rcases List.mem_append.mp he with he | he
  · have := hrs e he
    cases e with
    | read i o c => trivial
    | frame fp len pcmAt n fb ch => simp [Event.isFrame] at this
  · exact hlog e he

theorem viewLength_of_le (s : CMiniMP3AudioStream W D)
    (hle : ∀ m, s.m_nChunkSize m ≤ kChunkSize)
    (hfp : s.m_uFramePosition ≤ GetTotalChunkSizes s) :
    viewLength s = GetTotalChunkSizes s - s.m_uFramePosition ∧
    s.m_uFramePosition + viewLength s ≤ sizeofFrames := by
  have t := (total_of_sizes_le s hle).2
  unfold viewLength
  unfold sizeofFrames kChunkCount kChunkSize at t
  unfold sizeofFrames kChunkCount kChunkSize UINT_RANGE
  omega

theorem UpdateStreamInfo_capacity (h : Host W D) (hread : ReadsAtMostChunk h)
    (s : CMiniMP3AudioStream W D) (hle : ∀ m, s.m_nChunkSize m ≤ kChunkSize)
    (hfp : s.m_uFramePosition = 0) (hlog : ∀ e ∈ s.log, e.viewInWindow) :
    CapacityInv (UpdateStreamInfo h s) := by
  have hle1 := streamChunks_sizes_le h hread [0, 1, 2, 3] s hle
  have hfp1 : (streamChunks h [0, 1, 2, 3] s).m_uFramePosition = 0 := by
    rw [streamChunks_framePos, hfp]
  have hfp2 : (streamChunks h [0, 1, 2, 3] s).m_uFramePosition ≤
      GetTotalChunkSizes (streamChunks h [0, 1, 2, 3] s) := by
    rw [hfp1]
    exact Nat.zero_le _
  obtain ⟨rs, hrs1, hrs2⟩ := streamChunks_log h [0, 1, 2, 3] s
  refine ⟨UpdateStreamInfo_fullOrEof h s, hle1, hfp2, ?_⟩
  intro e he
  have hlogEq : ∃ n fb ch, (UpdateStreamInfo h s).log =
      Event.frame (streamChunks h [0, 1, 2, 3] s).m_uFramePosition
        (viewLength (streamChunks h [0, 1, 2, 3] s)) none n fb ch ::
        (streamChunks h [0, 1, 2, 3] s).log := ⟨_, _, _, rfl⟩
  obtain ⟨n0, fb0, ch0, hlogEq⟩ := hlogEq
  rw [hlogEq] at he
  have hcases : (∃ n fb ch, e = Event.frame (streamChunks h [0, 1, 2, 3] s).m_uFramePosition
      (viewLength (streamChunks h [0, 1, 2, 3] s)) none n fb ch) ∨
      e ∈ (streamChunks h [0, 1, 2, 3] s).log := by
    rcases List.mem_cons.mp he with he | he
    · exact Or.inl ⟨_, _, _, he⟩
    · exact Or.inr he
  rcases hcases with ⟨n, fb, ch, he⟩ | he
  · rw [he]
    exact (viewLength_of_le _ hle1 hfp2).2
  · rw [hrs1] at he
    exact viewInWindow_append_reads rs s.log hrs2 hlog e he

theorem shiftAndRefill_capacity (h : Host W D) (hread : ReadsAtMostChunk h)
    (s : CMiniMP3AudioStream W D) (hs : CapacityInv s) (hc : shiftCondition s) :
    CapacityInv (shiftAndRefill h s) := by
  obtain ⟨c1, c2, c3, c4⟩ := hs
  refine ⟨shiftAndRefill_fullOrEof h s c1 hc, shiftAndRefill_sizes_le h hread s c2,
    shiftAndRefill_cursor h hread s c1 c2 hc c3, ?_⟩
  obtain ⟨rs, hrs1, hrs2⟩ := shiftAndRefill_log h s
  rw [hrs1]
  exact viewInWindow_append_reads rs s.log hrs2 c4

theorem shiftLoop_capacity (h : Host W D) (hread : ReadsAtMostChunk h) (n : Nat)
    (s : CMiniMP3AudioStream W D) (hs : CapacityInv s) : CapacityInv (shiftLoop h n s) := by
  induction n generalizing s with
  | zero => exact hs
  | succ n ih =>
    simp only [shiftLoop]
    split
    · rename_i hc
      exact ih _ (shiftAndRefill_capacity h hread s hs hc)
    · exact hs

theorem DecodeFrame_capacity (h : Host W D) (hread : ReadsAtMostChunk h)
    (hfb : ConsumesWithinView h) (s : CMiniMP3AudioStream W D) (pBuffer : Bytes) (pcmAt : Nat)
    (hs : CapacityInv s) : CapacityInv (DecodeFrame h s pBuffer pcmAt).2.2 := by
  obtain ⟨c1, c2, c3, c4⟩ := shiftLoop_capacity h hread (s.m_uFramePosition / (2 * kChunkSize)) s hs
  have hv := viewLength_of_le _ c2 c3
  have hfbv : (DecodeFrame h s pBuffer pcmAt).2.2.m_Info.frame_bytes ≤
      viewLength (shiftLoop h (s.m_uFramePosition / (2 * kChunkSize)) s) := hfb _ _ _ _ _
  have hfpEq : (DecodeFrame h s pBuffer pcmAt).2.2.m_uFramePosition =
      ((shiftLoop h (s.m_uFramePosition / (2 * kChunkSize)) s).m_uFramePosition +
        (DecodeFrame h s pBuffer pcmAt).2.2.m_Info.frame_bytes) % UINT_RANGE := rfl
  have htot : GetTotalChunkSizes (DecodeFrame h s pBuffer pcmAt).2.2 =
      GetTotalChunkSizes (shiftLoop h (s.m_uFramePosition / (2 * kChunkSize)) s) := rfl
  have hlogEq : (DecodeFrame h s pBuffer pcmAt).2.2.log =
      Event.frame (shiftLoop h (s.m_uFramePosition / (2 * kChunkSize)) s).m_uFramePosition
        (viewLength (shiftLoop h (s.m_uFramePosition / (2 * kChunkSize)) s)) (some pcmAt)
        (DecodeFrame h s pBuffer pcmAt).1 (DecodeFrame h s pBuffer pcmAt).2.2.m_Info.frame_bytes
        (DecodeFrame h s pBuffer pcmAt).2.2.m_Info.channels ::
        (shiftLoop h (s.m_uFramePosition / (2 * kChunkSize)) s).log := rfl
  have t := (total_of_sizes_le _ c2).2
  refine ⟨c1, c2, ?_, ?_⟩
  · rw [hfpEq, htot]
    unfold sizeofFrames kChunkCount kChunkSize at t
    unfold UINT_RANGE
    omega
  · intro e he
    rw [hlogEq] at he
    rcases List.mem_cons.mp he with he | he
    · rw [he]
      exact hv.2
    · exact c4 e he

theorem Reachable_capacity (h : Host W D) (hread : ReadsAtMostChunk h)
    (hfb : ConsumesWithinView h) {s : CMiniMP3AudioStream W D} (hr : Reachable h s) :
    CapacityInv s := by
  induction hr with
  | construct w =>
    exact UpdateStreamInfo_capacity h hread (initial h w) (fun _ => Nat.zero_le _) rfl
      (by intro e he; cases he)
  | decode _ hd ih =>
    exact Decode_preserves h CapacityInv
      (fun t b a ht => DecodeFrame_capacity h hread hfb t b a ht) ih hd
  | seek x _ _ ih =>
    exact UpdateStreamInfo_capacity h hread _ ih.2.1 rfl ih.2.2.2

theorem UpdateStreamInfo_reads (h : Host W D) (s : CMiniMP3AudioStream W D) :
    ∃ (fr : Event) (rs : List Event), (UpdateStreamInfo h s).log = fr :: (rs ++ s.log) ∧
      fr.isFrame = true ∧ (∀ e ∈ rs, e.isFrame = false) ∧ rs.length ≤ 4 := by
  obtain ⟨rs, h1, h2⟩ := streamChunks_eof_cases h [0, 1, 2, 3] s
  obtain ⟨rs1, h3, h4⟩ := streamChunks_log h [0, 1, 2, 3] s
  have hEq : rs1 = rs := List.append_cancel_right (h3.symm.trans h1)
  obtain ⟨fr, hfr, hframe⟩ : ∃ fr : Event,
      (UpdateStreamInfo h s).log = fr :: (streamChunks h [0, 1, 2, 3] s).log ∧
      fr.isFrame = true := ⟨Event.frame _ _ _ _ _ _, rfl, rfl⟩
  refine ⟨fr, rs, by rw [hfr, h1], hframe, by rw [← hEq]; exact h4, ?_⟩
  rcases h2 with ⟨_, a2, _⟩ | ⟨j, o, c, rest, b1, _, _, b4, _, _⟩
  · rw [a2]; simp
  · rw [b1]
    simp only [List.length_cons]
    simp only [List.length_cons, List.length_nil] at b4
    omega

/-- C11: the capacity invariant. When every read returns at most 4096 bytes and the frame decoder
never reports more frame bytes than the view length it was given, then in every reachable state
(constructor, `Decode` and `SetPosition` calls): every frame decoder call in the log, made by the
constructor, by `SetPosition` or by `Decode`, was given a view inside the window; the frame cursor
is at most the sum of the chunk sizes, which is at most 16384; the same holds for the state on
which the next `DecodeFrame` calls the frame decoder, where the view length is the sum of the
chunk sizes minus the cursor, without underflow, and at most 16384; and the priming of a
`SetPosition` call, like that of the constructor, issues at most 4 reads of `kChunkSize` bytes
each, 16384 bytes in all. -/
theorem view_stays_within_window (h : Host W D) (hread : ReadsAtMostChunk h)
    (hfb : ConsumesWithinView h) (s : CMiniMP3AudioStream W D) (hr : Reachable h s) :
    (∀ e ∈ s.log, e.viewInWindow) ∧
    s.m_uFramePosition ≤ GetTotalChunkSizes s ∧ GetTotalChunkSizes s ≤ 16384 ∧
    ((shiftLoop h (s.m_uFramePosition / (2 * kChunkSize)) s).m_uFramePosition ≤
        GetTotalChunkSizes (shiftLoop h (s.m_uFramePosition / (2 * kChunkSize)) s) ∧
      GetTotalChunkSizes (shiftLoop h (s.m_uFramePosition / (2 * kChunkSize)) s) ≤ 16384 ∧
      viewLength (shiftLoop h (s.m_uFramePosition / (2 * kChunkSize)) s) =
        GetTotalChunkSizes (shiftLoop h (s.m_uFramePosition / (2 * kChunkSize)) s) -
          (shiftLoop h (s.m_uFramePosition / (2 * kChunkSize)) s).m_uFramePosition ∧
      viewLength (shiftLoop h (s.m_uFramePosition / (2 * kChunkSize)) s) ≤ 16384) ∧
    (∀ uPosition : Nat, ∃ (fr : Event) (rs : List Event),
      (SetPosition h s uPosition).log = fr :: (rs ++ s.log) ∧ fr.isFrame = true ∧
      (∀ e ∈ rs, e.isFrame = false) ∧ rs.length * kChunkSize ≤ 4 * 4096) ∧
    ∀ w : W, ∃ (fr : Event) (rs : List Event),
      (construct h w).log = fr :: rs ∧ fr.isFrame = true ∧
      (∀ e ∈ rs, e.isFrame = false) ∧ rs.length * kChunkSize ≤ 4 * 4096 := by
  obtain ⟨_, c2, c3, c4⟩ := Reachable_capacity h hread hfb hr
  obtain ⟨_, d2, d3, _⟩ := shiftLoop_capacity h hread (s.m_uFramePosition / (2 * kChunkSize)) s
    (Reachable_capacity h hread hfb hr)
  have hsz : sizeofFrames = 16384 := rfl
  have t1 := (total_of_sizes_le s c2).2
  have t2 := (total_of_sizes_le _ d2).2
  have hv := viewLength_of_le _ d2 d3
  have hv2 := hv.2
  rw [hsz] at t1 t2 hv2
  refine ⟨c4, c3, t1, ⟨d3, t2, hv.1, ?_⟩, ?_, ?_⟩
  · omega
  · intro uPosition
    obtain ⟨fr, rs, e1, e2, e3, e4⟩ := UpdateStreamInfo_reads h
      { s with m_uDataPosition := uPosition, m_uFramePosition := 0 }
    refine ⟨fr, rs, e1, e2, e3, ?_⟩
    unfold kChunkSize
    omega
  · intro w
    obtain ⟨fr, rs, e1, e2, e3, e4⟩ := UpdateStreamInfo_reads h (initial h w)
    refine ⟨fr, rs, ?_, e2, e3, ?_⟩
    · rw [show (construct h w).log = (UpdateStreamInfo h (initial h w)).log from rfl, e1]
      simp [initial]
    · unfold kChunkSize
      omega

/-- C11, witness: a 20000-byte stream of garbage of which the decoder skips nothing, right after
construction. -/
theorem view_stays_within_window_witness :
    ReadsAtMostChunk (fileHost 20000 0 0) ∧ ConsumesWithinView (fileHost 20000 0 0) ∧
    Reachable (fileHost 20000 0 0) (construct (fileHost 20000 0 0) ()) ∧
    (construct (fileHost 20000 0 0) ()).m_uFramePosition ≤
      GetTotalChunkSizes (construct (fileHost 20000 0 0) ()) ∧
    GetTotalChunkSizes (construct (fileHost 20000 0 0) ()) ≤ 16384 :=
  ⟨fun _ _ => Nat.min_le_left _ _, fun _ _ _ _ _ => Nat.zero_le _, Reachable.construct (),
    (view_stays_within_window (fileHost 20000 0 0) (fun _ _ => Nat.min_le_left _ _)
      (fun _ _ _ _ _ => Nat.zero_le _) (construct (fileHost 20000 0 0) ())
      (Reachable.construct ())).2.1,
    by decide⟩

/-! ## The window as a copy of the stream -/

theorem StreamChunk_size_apply (h : Host W D) (s : CMiniMP3AudioStream W D) (i m : Nat) :
    (StreamChunk h s i).2.m_nChunkSize m =
      if m = i then (h.StreamRequestData s.m_pEventHandler kChunkSize s.m_uDataPosition).1.count
      else s.m_nChunkSize m := by
  by_cases hm : m = i
  · rw [if_pos hm, hm]
    exact StreamChunk_size_same h s i
  · rw [if_neg hm]
    exact StreamChunk_size_other h s i m hm

theorem StreamChunk_byte (h : Host W D) (s : CMiniMP3AudioStream W D) (j i : Nat) :
    (StreamChunk h s j).2.m_FullFrame i =
      if j * kChunkSize ≤ i ∧ i < j * kChunkSize +
          min (h.StreamRequestData s.m_pEventHandler kChunkSize s.m_uDataPosition).1.count kChunkSize
      then (h.StreamRequestData s.m_pEventHandler kChunkSize s.m_uDataPosition).1.bytes
        (i - j * kChunkSize)
      else s.m_FullFrame i := rfl

/-- One chunk read while filling: after a whole chunk the next chunk is about to be filled. -/
theorem StreamChunk_filling_full (h : Host W D) (stream : Bytes) (L start j : Nat)
    (hstream : ReadsStream h stream L) (hL : L < UINT_RANGE) (s : CMiniMP3AudioStream W D)
    (hs : Filling stream L start j s) (hfull : (StreamChunk h s j).1 = false) :
    Filling stream L start (j + 1) (StreamChunk h s j).2 := by
  obtain ⟨f1, f2, f3, f4, f5⟩ := hs
  obtain ⟨r1, r2⟩ := hstream s.m_pEventHandler s.m_uDataPosition
  have hc : (h.StreamRequestData s.m_pEventHandler kChunkSize s.m_uDataPosition).1.count
      = kChunkSize := by
    rw [StreamChunk_short] at hfull
    simpa using hfull
  have hmin : min kChunkSize (L - s.m_uDataPosition) = kChunkSize := by rw [← r1, hc]
  have hroom : s.m_uDataPosition + kChunkSize ≤ L := by
    unfold kChunkSize at hmin ⊢
    omega
  refine ⟨?_, ?_, ?_, ?_, ?_⟩
  · intro m hm
    rw [StreamChunk_size_apply]
    split
    · exact hc
    · exact f1 m (by omega)
  · intro m hm1 hm2
    rw [StreamChunk_size_apply, if_neg (by omega)]
    exact f2 m (by omega) hm2
  · rw [StreamChunk_dataPos, hc, Nat.mod_eq_of_lt (by omega), f3, Nat.mul_succ]
    omega
  · rw [StreamChunk_dataPos, hc, Nat.mod_eq_of_lt (by omega)]
    exact hroom
  · intro i hi
    rw [StreamChunk_byte, hc, Nat.min_self]
    split
    · rename_i hin
      rw [r2 _ (by rw [hmin]; omega), f3]
      congr 1
      have := Nat.mul_comm j kChunkSize
      omega
    · rename_i hout
      apply f5
      have := Nat.mul_comm j kChunkSize
      rw [Nat.mul_succ] at hi
      omega

theorem windowInv_of_short (stream : Bytes) (L start j c : Nat) (u : CMiniMP3AudioStream W D)
    (hj : j < 4) (hc : c < kChunkSize)
    (hsz : ∀ m, m < 4 →
      u.m_nChunkSize m = if m = j then c else if m < j then kChunkSize else 0)
    (hdp : u.m_uDataPosition = start + kChunkSize * j + c) (hle : u.m_uDataPosition ≤ L)
    (hbytes : ∀ i, i < kChunkSize * j + c → u.m_FullFrame i = stream (start + i))
    (heof : u.m_nEOFPosition = u.m_uDataPosition) : WindowInv stream L start u := by
  have e0 := hsz 0 (by omega)
  have e1 := hsz 1 (by omega)
  have e2 := hsz 2 (by omega)
  have e3 := hsz 3 (by omega)
  have hsum : chunkSum u = kChunkSize * j + c := by
    unfold chunkSum
    rw [e0, e1, e2, e3]
    unfold kChunkSize
    interval_cases j <;> simp
  refine ⟨⟨?_, ?_, ?_, ?_⟩, ?_, ?_, ?_, ?_, hle, ?_, Or.inr heof⟩
  · rw [e0]; unfold kChunkSize at *; interval_cases j <;> first | (simp; omega) | simp
  · rw [e1]; unfold kChunkSize at *; interval_cases j <;> first | (simp; omega) | simp
  · rw [e2]; unfold kChunkSize at *; interval_cases j <;> first | (simp; omega) | simp
  · rw [e3]; unfold kChunkSize at *; interval_cases j <;> first | (simp; omega) | simp
  · rw [e0, e1]; unfold kChunkSize at *; interval_cases j <;> simp
  · rw [e1, e2]; unfold kChunkSize at *; interval_cases j <;> simp
  · rw [e2, e3]; unfold kChunkSize at *; interval_cases j <;> simp
  · rw [hsum, hdp]; omega
  · intro i hi
    rw [hsum] at hi
    exact hbytes i hi

theorem windowInv_of_filled (stream : Bytes) (L start : Nat) (s : CMiniMP3AudioStream W D)
    (hs : Filling stream L start 4 s) : WindowInv stream L start s := by
  obtain ⟨f1, _, f3, f4, f5⟩ := hs
  have e0 := f1 0 (by omega)
  have e1 := f1 1 (by omega)
  have e2 := f1 2 (by omega)
  have e3 := f1 3 (by omega)
  have hsum : chunkSum s = kChunkSize * 4 := by
    unfold chunkSum
    rw [e0, e1, e2, e3]
    omega
  refine ⟨⟨by omega, by omega, by omega, by omega⟩, ?_, ?_, ?_, ?_, f4, ?_,
    Or.inl ⟨e0, e1, e2, e3⟩⟩
  · intro hlt; omega
  · intro hlt; omega
  · intro hlt; omega
  · rw [hsum]; exact f3
  · intro i hi
    rw [hsum] at hi
    exact f5 i hi

/-- One round of the chunk-filling loop: when the rest of the loop fills the window from chunk
`j + 1` on, the loop from chunk `j` fills the window too. -/
theorem streamChunks_filling_step (h : Host W D) (stream : Bytes) (L start j : Nat)
    (tl : List Nat) (hstream : ReadsStream h stream L) (hL : L < UINT_RANGE) (hj : j < 4)
    (ih : ∀ t : CMiniMP3AudioStream W D, Filling stream L start (j + 1) t →
      WindowInv stream L start (streamChunks h tl t))
    (s : CMiniMP3AudioStream W D) (hs : Filling stream L start j s) :
    WindowInv stream L start (streamChunks h (j :: tl) s) := by
  simp only [streamChunks]
  by_cases hshort : (StreamChunk h s j).1 = true
  · rw [if_pos hshort]
    obtain ⟨f1, f2, f3, f4, f5⟩ := hs
    obtain ⟨r1, r2⟩ := hstream s.m_pEventHandler s.m_uDataPosition
    have hne : (h.StreamRequestData s.m_pEventHandler kChunkSize s.m_uDataPosition).1.count
        ≠ kChunkSize := by
      rw [StreamChunk_short] at hshort
      simpa using hshort
    have hlt : (h.StreamRequestData s.m_pEventHandler kChunkSize s.m_uDataPosition).1.count
        < kChunkSize := by
      have := Nat.min_le_left kChunkSize (L - s.m_uDataPosition)
      omega
    have hcl : s.m_uDataPosition +
        (h.StreamRequestData s.m_pEventHandler kChunkSize s.m_uDataPosition).1.count ≤ L := by
      have := Nat.min_le_right kChunkSize (L - s.m_uDataPosition)
      omega
    have hdp : (StreamChunk h s j).2.m_uDataPosition = s.m_uDataPosition +
        (h.StreamRequestData s.m_pEventHandler kChunkSize s.m_uDataPosition).1.count := by
      rw [StreamChunk_dataPos]
      exact Nat.mod_eq_of_lt (by omega)
    apply windowInv_of_short stream L start j
      (h.StreamRequestData s.m_pEventHandler kChunkSize s.m_uDataPosition).1.count _ hj hlt
    · intro m hm
      show (StreamChunk h s j).2.m_nChunkSize m = _
      rw [StreamChunk_size_apply]
      split
      · rfl
      · split
        · exact f1 m (by assumption)
        · exact f2 m (by omega) hm
    · show (StreamChunk h s j).2.m_uDataPosition = _
      rw [hdp, f3]
    · show (StreamChunk h s j).2.m_uDataPosition ≤ L
      rw [hdp]
      exact hcl
    · intro i hi
      show (StreamChunk h s j).2.m_FullFrame i = _
      rw [StreamChunk_byte, Nat.min_eq_left (Nat.le_of_lt hlt)]
      split
      · rename_i hin
        rw [r2 _ (by rw [← r1]; have := Nat.mul_comm j kChunkSize; omega), f3]
        congr 1
        have := Nat.mul_comm j kChunkSize
        omega
      · rename_i hout
        apply f5
        have := Nat.mul_comm j kChunkSize
        omega
    · rfl
  · rw [if_neg hshort]
    exact ih _ (StreamChunk_filling_full h stream L start j hstream hL s hs (by simpa using hshort))

/-- The chunk-filling loop over chunks 0 to 3, and over chunks 2 and 3, fills the window. -/
theorem streamChunks_filling (h : Host W D) (stream : Bytes) (L start : Nat)
    (hstream : ReadsStream h stream L) (hL : L < UINT_RANGE) :
    (∀ s : CMiniMP3AudioStream W D, Filling stream L start 0 s →
      WindowInv stream L start (streamChunks h [0, 1, 2, 3] s)) ∧
    (∀ s : CMiniMP3AudioStream W D, Filling stream L start 2 s →
      WindowInv stream L start (streamChunks h [2, 3] s)) := by
  have h4 : ∀ s : CMiniMP3AudioStream W D, Filling stream L start 4 s →
      WindowInv stream L start (streamChunks h [] s) :=
    fun s hs => windowInv_of_filled stream L start s hs
  have h3 := streamChunks_filling_step h stream L start 3 [] hstream hL (by omega) h4
  have h2 := streamChunks_filling_step h stream L start 2 [3] hstream hL (by omega) h3
  have h1 := streamChunks_filling_step h stream L start 1 [2, 3] hstream hL (by omega) h2
  have h0 := streamChunks_filling_step h stream L start 0 [1, 2, 3] hstream hL (by omega) h1
  exact ⟨h0, h2⟩

theorem WindowInv_total (stream : Bytes) (L start : Nat) (s : CMiniMP3AudioStream W D)
    (hs : WindowInv stream L start s) :
    GetTotalChunkSizes s = chunkSum s ∧ chunkSum s ≤ 16384 ∧
    s.m_uDataPosition - GetTotalChunkSizes s = start := by
  obtain ⟨⟨a0, a1, a2, a3⟩, _, _, _, hdp, _, _, _⟩ := hs
  have hsum : chunkSum s ≤ 16384 := by
    unfold chunkSum
    unfold kChunkSize at *
    omega
  have htot : GetTotalChunkSizes s = chunkSum s := by
    unfold GetTotalChunkSizes
    exact Nat.mod_eq_of_lt (by unfold UINT_RANGE; unfold chunkSum at hsum; omega)
  refine ⟨htot, hsum, ?_⟩
  rw [htot, hdp]
  omega

theorem construct_window (h : Host W D) (stream : Bytes) (L : Nat)
    (hstream : ReadsStream h stream L) (hL : L < UINT_RANGE) (w : W) :
    WindowInv stream L 0 (construct h w) := by
  have hfill : Filling stream L 0 0 (initial h w) := by
    refine ⟨?_, ?_, ?_, ?_, ?_⟩
    · intro m hm; omega
    · intro m _ _; rfl
    · rfl
    · exact Nat.zero_le _
    · intro i hi; omega
  exact (streamChunks_filling h stream L 0 hstream hL).1 _ hfill

theorem shiftAndRefill_window (h : Host W D) (stream : Bytes) (L start : Nat)
    (hstream : ReadsStream h stream L) (hL : L < UINT_RANGE) (s : CMiniMP3AudioStream W D)
    (hs : WindowInv stream L start s) (hc : shiftCondition s) :
    WindowInv stream L (start + 2 * kChunkSize) (shiftAndRefill h s) := by
  obtain ⟨_, _, _, _, hdp, hle, hbytes, hfull⟩ := hs
  obtain ⟨f0, f1, f2, f3⟩ := full_of_shiftCondition s hfull hc.2
  have hsum : chunkSum s = 4 * kChunkSize := by
    unfold chunkSum
    rw [f0, f1, f2, f3]
    omega
  unfold shiftAndRefill
  apply (streamChunks_filling h stream L (start + 2 * kChunkSize) hstream hL).2
  refine ⟨?_, ?_, ?_, ?_, ?_⟩
  · intro m hm
    have : m = 0 ∨ m = 1 := by omega
    rcases this with h0 | h0
    · rw [h0]; exact f2
    · rw [h0]; exact f3
  · intro m hm1 hm2
    have : m = 2 ∨ m = 3 := by omega
    rcases this with h0 | h0
    · rw [h0]; rfl
    · rw [h0]; rfl
  · show s.m_uDataPosition = _
    rw [hdp, hsum]
    omega
  · exact hle
  · intro i hi
    show moveChunksBack s.m_FullFrame i = _
    unfold moveChunksBack
    rw [if_pos (by omega), hbytes (i + 2 * kChunkSize) (by rw [hsum]; omega)]
    congr 1
    omega

theorem shiftLoop_window (h : Host W D) (stream : Bytes) (L : Nat)
    (hstream : ReadsStream h stream L) (hL : L < UINT_RANGE) (n : Nat) :
    ∀ (start : Nat) (s : CMiniMP3AudioStream W D), WindowInv stream L start s →
      ∃ start1, WindowInv stream L start1 (shiftLoop h n s) ∧
        start1 + (shiftLoop h n s).m_uFramePosition = start + s.m_uFramePosition := by
  induction n with
  | zero =>
    intro start s hs
    exact ⟨start, hs, rfl⟩
  | succ n ih =>
    intro start s hs
    simp only [shiftLoop]
    split
    · rename_i hc
      obtain ⟨start1, h1, h2⟩ := ih _ _ (shiftAndRefill_window h stream L start hstream hL s hs hc)
      refine ⟨start1, h1, ?_⟩
      rw [h2, shiftAndRefill_framePos]
      have hfp : 2 * kChunkSize ≤ s.m_uFramePosition := hc.1
      omega
    · exact ⟨start, hs, rfl⟩

theorem ReachableByDecode_window (h : Host W D) (stream : Bytes) (L : Nat)
    (hstream : ReadsStream h stream L) (hL : L < UINT_RANGE) {s : CMiniMP3AudioStream W D}
    (hr : ReachableByDecode h s) : ∃ start, WindowInv stream L start s := by
  induction hr with
  | construct w => exact ⟨0, construct_window h stream L hstream hL w⟩
  | decode _ hd ih =>
    refine Decode_preserves h (fun t => ∃ start, WindowInv stream L start t) ?_ ih hd
    intro t b a ht
    obtain ⟨start, hst⟩ := ht
    obtain ⟨start1, h1, _⟩ :=
      shiftLoop_window h stream L hstream hL (t.m_uFramePosition / (2 * kChunkSize)) start t hst
    exact ⟨start1, h1⟩

/-! ## Chains of `Decode` calls -/

theorem decodeCalls_reachable (h : Host W D) (fuel uBufferSize : Nat) :
    ∀ (k : Nat) (s s1 : CMiniMP3AudioStream W D), ReachableByDecode h s →
      decodeCalls h fuel uBufferSize k s = some s1 → ReachableByDecode h s1 := by
  intro k
  induction k with
  | zero =>
    intro s s1 hr hd
    have hs : s = s1 := Option.some.inj hd
    rw [← hs]
    exact hr
  | succ k ih =>
    intro s s1 hr hd
    unfold decodeCalls at hd
    cases hD : Decode h fuel s (fun _ => 0) uBufferSize with
    | none =>
      rw [hD] at hd
      exact absurd hd (by simp)
    | some r =>
      rw [hD] at hd
      obtain ⟨n, buf1, s2⟩ := r
      exact ih s2 s1 (ReachableByDecode.decode hr hD) hd

theorem afterDecodeCalls_reachable (h : Host W D) (fuel uBufferSize k : Nat)
    (s : CMiniMP3AudioStream W D) (hr : ReachableByDecode h s)
    (hsome : (decodeCalls h fuel uBufferSize k s).isSome = true) :
    ReachableByDecode h (afterDecodeCalls h fuel uBufferSize k s) := by
  unfold afterDecodeCalls
  cases hd : decodeCalls h fuel uBufferSize k s with
  | none =>
    rw [hd] at hsome
    exact absurd hsome (by simp)
  | some s1 => exact decodeCalls_reachable h fuel uBufferSize k s s1 hr hd

/-! ## Claim C15: the window is a contiguous copy of the stream -/

/-- C15 (as amended): the window is a faithful contiguous copy of the stream. For a deterministic
data source over a stream of `L` bytes with `L` below 2^32, in every state reached from the
constructor by `Decode` calls alone, and in every state that the shift loop passes through from
there: the sum of the chunk sizes is at most the data cursor, and every window byte below that sum
is the stream byte at `m_uDataPosition` minus the sum plus its index; the stream offset under the
frame cursor is the one before the shift loop ran; and when the shift and refill runs, chunk sizes
2 and 3 move to chunks 0 and 1, the frame cursor is lowered by 8192, the window afterwards is
again such a copy and the stream offset under the cursor is unchanged. -/
theorem window_is_copy_of_stream (h : Host W D) (stream : Bytes) (L : Nat)
    (hstream : ReadsStream h stream L) (hL : L < UINT_RANGE) (s : CMiniMP3AudioStream W D)
    (hr : ReachableByDecode h s) (n : Nat) :
    GetTotalChunkSizes (shiftLoop h n s) ≤ (shiftLoop h n s).m_uDataPosition ∧
    (∀ i, i < GetTotalChunkSizes (shiftLoop h n s) →
      (shiftLoop h n s).m_FullFrame i =
        stream ((shiftLoop h n s).m_uDataPosition - GetTotalChunkSizes (shiftLoop h n s) + i)) ∧
    offsetUnderCursor (shiftLoop h n s) = offsetUnderCursor s ∧
    (shiftCondition (shiftLoop h n s) →
      (shiftAndRefill h (shiftLoop h n s)).m_nChunkSize 0 = (shiftLoop h n s).m_nChunkSize 2 ∧
      (shiftAndRefill h (shiftLoop h n s)).m_nChunkSize 1 = (shiftLoop h n s).m_nChunkSize 3 ∧
      (shiftAndRefill h (shiftLoop h n s)).m_uFramePosition + 8192 =
        (shiftLoop h n s).m_uFramePosition ∧
      (∀ i, i < GetTotalChunkSizes (shiftAndRefill h (shiftLoop h n s)) →
        (shiftAndRefill h (shiftLoop h n s)).m_FullFrame i =
          stream ((shiftAndRefill h (shiftLoop h n s)).m_uDataPosition -
            GetTotalChunkSizes (shiftAndRefill h (shiftLoop h n s)) + i)) ∧
      offsetUnderCursor (shiftAndRefill h (shiftLoop h n s)) =
        offsetUnderCursor (shiftLoop h n s)) := by
  obtain ⟨start, hst⟩ := ReachableByDecode_window h stream L hstream hL hr
  obtain ⟨start1, h1, h2⟩ := shiftLoop_window h stream L hstream hL n start s hst
  obtain ⟨t1, _, t3⟩ := WindowInv_total stream L start s hst
  obtain ⟨u1, _, u3⟩ := WindowInv_total stream L start1 _ h1
  have hdp := h1.2.2.2.2.1
  have hbytes := h1.2.2.2.2.2.2.1
  refine ⟨?_, ?_, ?_, ?_⟩
  · rw [u1, hdp]
    omega
  · intro i hi
    rw [u3]
    exact hbytes i (by rw [← u1]; exact hi)
  · unfold offsetUnderCursor
    rw [u3, t3, h2]
  · intro hc
    have h3 := shiftAndRefill_window h stream L start1 hstream hL _ h1 hc
    obtain ⟨v1, _, v3⟩ := WindowInv_total stream L _ _ h3
    obtain ⟨g0, g1⟩ := shiftAndRefill_size_front h (shiftLoop h n s)
    have hfp : 2 * kChunkSize ≤ (shiftLoop h n s).m_uFramePosition := hc.1
    have hfp2 := shiftAndRefill_framePos h (shiftLoop h n s)
    refine ⟨g0, g1, ?_, ?_, ?_⟩
    · rw [hfp2]
      unfold kChunkSize at hfp ⊢
      omega
    · intro i hi
      rw [v3]
      exact h3.2.2.2.2.2.2.1 i (by rw [← v1]; exact hi)
    · unfold offsetUnderCursor
      rw [v3, u3, hfp2]
      omega

/-- C15, witness: a 20000-byte stream whose byte `j` is `j % 251` and a decoder that skips 8192
bytes on every call, after construction and one `Decode` call. The condition of the shift loop holds
there (frame cursor 8192, data cursor 16384, end unknown); the shift and refill leaves the chunk
sizes 4096, 4096, 3616 and 0 with the data cursor at 20000 and the frame cursor at 0. -/
theorem window_is_copy_of_stream_witness :
    ReadsStream (fileHost 20000 8192 0) (fun j => j % 251) 20000 ∧ 20000 < UINT_RANGE ∧
    ReachableByDecode (fileHost 20000 8192 0) skippedOnce ∧
    shiftCondition (shiftLoop (fileHost 20000 8192 0) 0 skippedOnce) ∧
    [0, 1, 2, 3].map (shiftAndRefill (fileHost 20000 8192 0)
      (shiftLoop (fileHost 20000 8192 0) 0 skippedOnce)).m_nChunkSize = [4096, 4096, 3616, 0] ∧
    (GetTotalChunkSizes (shiftLoop (fileHost 20000 8192 0) 0 skippedOnce) ≤
        (shiftLoop (fileHost 20000 8192 0) 0 skippedOnce).m_uDataPosition ∧
      (∀ i, i < GetTotalChunkSizes (shiftLoop (fileHost 20000 8192 0) 0 skippedOnce) →
        (shiftLoop (fileHost 20000 8192 0) 0 skippedOnce).m_FullFrame i =
          (fun j => j % 251) ((shiftLoop (fileHost 20000 8192 0) 0 skippedOnce).m_uDataPosition -
            GetTotalChunkSizes (shiftLoop (fileHost 20000 8192 0) 0 skippedOnce) + i)) ∧
      offsetUnderCursor (shiftLoop (fileHost 20000 8192 0) 0 skippedOnce) =
        offsetUnderCursor skippedOnce ∧
      (shiftCondition (shiftLoop (fileHost 20000 8192 0) 0 skippedOnce) →
        (shiftAndRefill (fileHost 20000 8192 0)
            (shiftLoop (fileHost 20000 8192 0) 0 skippedOnce)).m_nChunkSize 0 =
          (shiftLoop (fileHost 20000 8192 0) 0 skippedOnce).m_nChunkSize 2 ∧
        (shiftAndRefill (fileHost 20000 8192 0)
            (shiftLoop (fileHost 20000 8192 0) 0 skippedOnce)).m_nChunkSize 1 =
          (shiftLoop (fileHost 20000 8192 0) 0 skippedOnce).m_nChunkSize 3 ∧
        (shiftAndRefill (fileHost 20000 8192 0)
            (shiftLoop (fileHost 20000 8192 0) 0 skippedOnce)).m_uFramePosition + 8192 =
          (shiftLoop (fileHost 20000 8192 0) 0 skippedOnce).m_uFramePosition ∧
        (∀ i, i < GetTotalChunkSizes (shiftAndRefill (fileHost 20000 8192 0)
              (shiftLoop (fileHost 20000 8192 0) 0 skippedOnce)) →
          (shiftAndRefill (fileHost 20000 8192 0)
              (shiftLoop (fileHost 20000 8192 0) 0 skippedOnce)).m_FullFrame i =
            (fun j => j % 251) ((shiftAndRefill (fileHost 20000 8192 0)
                (shiftLoop (fileHost 20000 8192 0) 0 skippedOnce)).m_uDataPosition -
              GetTotalChunkSizes (shiftAndRefill (fileHost 20000 8192 0)
                (shiftLoop (fileHost 20000 8192 0) 0 skippedOnce)) + i)) ∧
        offsetUnderCursor (shiftAndRefill (fileHost 20000 8192 0)
            (shiftLoop (fileHost 20000 8192 0) 0 skippedOnce)) =
          offsetUnderCursor (shiftLoop (fileHost 20000 8192 0) 0 skippedOnce))) :=
  ⟨fun _ _ => ⟨rfl, fun _ _ => rfl⟩, by decide,
    afterDecodeCalls_reachable (fileHost 20000 8192 0) 1 16384 1 _
      (ReachableByDecode.construct ()) (by decide),
    ⟨by decide, by decide⟩, by decide,
    window_is_copy_of_stream (fileHost 20000 8192 0) (fun j => j % 251) 20000
      (fun _ _ => ⟨rfl, fun _ _ => rfl⟩) (by decide) skippedOnce
      (afterDecodeCalls_reachable (fileHost 20000 8192 0) 1 16384 1 _
        (ReachableByDecode.construct ()) (by decide)) 0⟩

/-! ## The linear run and the fresh seek -/

theorem frameBytesOfDecode_append (a b : List Event) :
    frameBytesOfDecode (a ++ b) = frameBytesOfDecode a + frameBytesOfDecode b := by
  induction a with
  | nil => simp [frameBytesOfDecode]
  | cons e rest ih =>
    cases e with
    | read i o c => simpa [frameBytesOfDecode] using ih
    | frame fp len pcmAt n fb ch =>
      cases pcmAt with
      | none => simpa [frameBytesOfDecode] using ih
      | some a =>
        show fb + frameBytesOfDecode (rest ++ b) = fb + frameBytesOfDecode rest + frameBytesOfDecode b
        rw [ih]
        omega

theorem frameBytesOfDecode_reads (rs : List Event) (hrs : ∀ e ∈ rs, e.isFrame = false) :
    frameBytesOfDecode rs = 0 := by
  induction rs with
  | nil => rfl
  | cons e rest ih =>
    have he := hrs e (List.mem_cons_self _ _)
    cases e with
    | read i o c =>
      simp only [frameBytesOfDecode]
      exact ih (fun e1 h1 => hrs e1 (List.mem_cons_of_mem _ h1))
    | frame fp len pcmAt n fb ch => simp [Event.isFrame] at he

theorem construct_linear (h : Host W D) (stream : Bytes) (L : Nat)
    (hstream : ReadsStream h stream L) (hL : L < UINT_RANGE) (w : W) :
    LinearInv stream L (construct h w) := by
  refine ⟨0, construct_window h stream L hstream hL w, ?_, ?_⟩
  · show (streamChunks h [0, 1, 2, 3] (initial h w)).m_uFramePosition ≤ _
    rw [streamChunks_framePos]
    exact Nat.zero_le _
  · obtain ⟨rs, h1, h2⟩ := streamChunks_log h [0, 1, 2, 3] (initial h w)
    have hlog : ∃ n fb ch fp len, (construct h w).log =
        Event.frame fp len none n fb ch :: (streamChunks h [0, 1, 2, 3] (initial h w)).log :=
      ⟨_, _, _, _, _, rfl⟩
    obtain ⟨n, fb, ch, fp, len, hlog⟩ := hlog
    have hfp : (construct h w).m_uFramePosition = 0 := by
      show (streamChunks h [0, 1, 2, 3] (initial h w)).m_uFramePosition = 0
      rw [streamChunks_framePos]
      rfl
    rw [hlog, h1, hfp]
    simp only [frameBytesOfDecode, frameBytesOfDecode_append, frameBytesOfDecode_reads rs h2]

theorem shiftLoop_linear (h : Host W D) (stream : Bytes) (L : Nat)
    (hstream : ReadsStream h stream L) (hL : L < UINT_RANGE) (n : Nat) :
    ∀ s : CMiniMP3AudioStream W D, LinearInv stream L s → LinearInv stream L (shiftLoop h n s) := by
  induction n with
  | zero => exact fun s hs => hs
  | succ n ih =>
    intro s hs
    simp only [shiftLoop]
    split
    · rename_i hc
      apply ih
      obtain ⟨start, hw, hfp, hx⟩ := hs
      have hw1 := shiftAndRefill_window h stream L start hstream hL s hw hc
      obtain ⟨f0, f1, f2, f3⟩ := full_of_shiftCondition s hw.2.2.2.2.2.2.2 hc.2
      obtain ⟨g0, g1⟩ := shiftAndRefill_size_front h s
      obtain ⟨rs, hrs1, hrs2⟩ := shiftAndRefill_log h s
      have hfp1 := shiftAndRefill_framePos h s
      have hc1 : 2 * kChunkSize ≤ s.m_uFramePosition := hc.1
      have hsum : chunkSum s = 4 * kChunkSize := by
        unfold chunkSum
        rw [f0, f1, f2, f3]
        omega
      refine ⟨_, hw1, ?_, ?_⟩
      · rw [hfp1]
        have : 2 * kChunkSize ≤ chunkSum (shiftAndRefill h s) := by
          unfold chunkSum
          rw [g0, g1, f2, f3]
          omega
        omega
      · rw [hfp1, hrs1, frameBytesOfDecode_append, frameBytesOfDecode_reads rs hrs2, ← hx]
        omega
    · exact hs

theorem DecodeFrame_linear (h : Host W D) (stream : Bytes) (L : Nat)
    (hstream : ReadsStream h stream L) (hL : L < UINT_RANGE) (hfb : ConsumesWithinView h)
    (s : CMiniMP3AudioStream W D) (pBuffer : Bytes) (pcmAt : Nat) (hs : LinearInv stream L s) :
    LinearInv stream L (DecodeFrame h s pBuffer pcmAt).2.2 := by
  obtain ⟨start, hw, hfp, hx⟩ :=
    shiftLoop_linear h stream L hstream hL (s.m_uFramePosition / (2 * kChunkSize)) s hs
  obtain ⟨t1, t2, _⟩ := WindowInv_total stream L start _ hw
  have hfbv : (DecodeFrame h s pBuffer pcmAt).2.2.m_Info.frame_bytes ≤
      viewLength (shiftLoop h (s.m_uFramePosition / (2 * kChunkSize)) s) := hfb _ _ _ _ _
  have hview : viewLength (shiftLoop h (s.m_uFramePosition / (2 * kChunkSize)) s) =
      chunkSum (shiftLoop h (s.m_uFramePosition / (2 * kChunkSize)) s) -
        (shiftLoop h (s.m_uFramePosition / (2 * kChunkSize)) s).m_uFramePosition := by
    unfold viewLength
    rw [t1]
    unfold UINT_RANGE
    omega
  have hfpEq : (DecodeFrame h s pBuffer pcmAt).2.2.m_uFramePosition =
      (shiftLoop h (s.m_uFramePosition / (2 * kChunkSize)) s).m_uFramePosition +
        (DecodeFrame h s pBuffer pcmAt).2.2.m_Info.frame_bytes := by
    show ((shiftLoop h (s.m_uFramePosition / (2 * kChunkSize)) s).m_uFramePosition +
      (DecodeFrame h s pBuffer pcmAt).2.2.m_Info.frame_bytes) % UINT_RANGE = _
    apply Nat.mod_eq_of_lt
    unfold UINT_RANGE
    omega
  have hlogEq : (DecodeFrame h s pBuffer pcmAt).2.2.log =
      Event.frame (shiftLoop h (s.m_uFramePosition / (2 * kChunkSize)) s).m_uFramePosition
        (viewLength (shiftLoop h (s.m_uFramePosition / (2 * kChunkSize)) s)) (some pcmAt)
        (DecodeFrame h s pBuffer pcmAt).1 (DecodeFrame h s pBuffer pcmAt).2.2.m_Info.frame_bytes
        (DecodeFrame h s pBuffer pcmAt).2.2.m_Info.channels ::
        (shiftLoop h (s.m_uFramePosition / (2 * kChunkSize)) s).log := rfl
  have hsumEq : chunkSum (DecodeFrame h s pBuffer pcmAt).2.2 =
      chunkSum (shiftLoop h (s.m_uFramePosition / (2 * kChunkSize)) s) := rfl
  refine ⟨start, hw, ?_, ?_⟩
  · rw [hfpEq, hsumEq]
    omega
  · rw [hfpEq, hlogEq]
    simp only [frameBytesOfDecode]
    omega

theorem ReachableByDecode_linear (h : Host W D) (stream : Bytes) (L : Nat)
    (hstream : ReadsStream h stream L) (hL : L < UINT_RANGE) (hfb : ConsumesWithinView h)
    {s : CMiniMP3AudioStream W D} (hr : ReachableByDecode h s) : LinearInv stream L s := by
  induction hr with
  | construct w => exact construct_linear h stream L hstream hL w
  | decode _ hd ih =>
    exact Decode_preserves h (LinearInv stream L)
      (fun t b a ht => DecodeFrame_linear h stream L hstream hL hfb t b a ht) ih hd

theorem freshPrefix_of_short (stream : Bytes) (L X j c : Nat) (u : CMiniMP3AudioStream W D)
    (hj : j < 4) (hc : c ≤ kChunkSize) (hcL : L - (X + kChunkSize * j) ≤ c)
    (hle : ∀ m, m < 4 → u.m_nChunkSize m ≤ kChunkSize)
    (hfull : ∀ m, m < j → u.m_nChunkSize m = kChunkSize) (hsz : u.m_nChunkSize j = c)
    (hbytes : ∀ i, i < kChunkSize * j + c → u.m_FullFrame i = stream (X + i)) :
    FreshPrefix stream L X u := by
  refine ⟨hle, kChunkSize * j + c, ?_, ?_, hbytes⟩
  · unfold chunkSum
    unfold kChunkSize at *
    interval_cases j
    · omega
    · have := hfull 0 (by omega)
      omega
    · have := hfull 0 (by omega)
      have := hfull 1 (by omega)
      omega
    · have := hfull 0 (by omega)
      have := hfull 1 (by omega)
      have := hfull 2 (by omega)
      omega
  · unfold kChunkSize at *
    omega

theorem freshPrefix_of_filled (stream : Bytes) (L X : Nat) (s : CMiniMP3AudioStream W D)
    (hs : SeekFilling stream L X 4 s) : FreshPrefix stream L X s := by
  obtain ⟨f1, f2, _, _, _, f6⟩ := hs
  refine ⟨f2, kChunkSize * 4, ?_, ?_, f6⟩
  · unfold chunkSum
    rw [f1 0 (by omega), f1 1 (by omega), f1 2 (by omega), f1 3 (by omega)]
    omega
  · have := Nat.min_le_left (4 * kChunkSize) (L - X)
    omega

/-- One round of the priming loop of `SetPosition`: when the rest of the loop leaves a fresh
prefix from chunk `j + 1` on, the loop from chunk `j` leaves one too. -/
theorem streamChunks_seek_step (h : Host W D) (stream : Bytes) (L X j : Nat) (tl : List Nat)
    (hstream : ReadsStream h stream L) (hL : L < UINT_RANGE) (hj : j < 4)
    (ih : ∀ t : CMiniMP3AudioStream W D, SeekFilling stream L X (j + 1) t →
      FreshPrefix stream L X (streamChunks h tl t))
    (s : CMiniMP3AudioStream W D) (hs : SeekFilling stream L X j s) :
    FreshPrefix stream L X (streamChunks h (j :: tl) s) := by
  obtain ⟨f1, f2, f3, f4, f5, f6⟩ := hs
  obtain ⟨r1, r2⟩ := hstream s.m_pEventHandler s.m_uDataPosition
  have hcle : (h.StreamRequestData s.m_pEventHandler kChunkSize s.m_uDataPosition).1.count
      ≤ kChunkSize := by
    rw [r1]
    exact Nat.min_le_left _ _
  have hbyte : ∀ i, i < kChunkSize * j +
      (h.StreamRequestData s.m_pEventHandler kChunkSize s.m_uDataPosition).1.count →
      (StreamChunk h s j).2.m_FullFrame i = stream (X + i) := by
    intro i hi
    rw [StreamChunk_byte, Nat.min_eq_left hcle]
    split
    · rename_i hin
      rw [r2 _ (by rw [← r1]; have := Nat.mul_comm j kChunkSize; omega), f3]
      congr 1
      have := Nat.mul_comm j kChunkSize
      omega
    · rename_i hout
      apply f6
      have := Nat.mul_comm j kChunkSize
      omega
  have hsizes : ∀ m, m < 4 → (StreamChunk h s j).2.m_nChunkSize m ≤ kChunkSize := by
    intro m hm
    rw [StreamChunk_size_apply]
    split
    · exact hcle
    · exact f2 m hm
  have hfullBefore : ∀ m, m < j → (StreamChunk h s j).2.m_nChunkSize m = kChunkSize := by
    intro m hm
    rw [StreamChunk_size_apply, if_neg (by omega)]
    exact f1 m hm
  simp only [streamChunks]
  by_cases hshort : (StreamChunk h s j).1 = true
  · rw [if_pos hshort]
    have hne : (h.StreamRequestData s.m_pEventHandler kChunkSize s.m_uDataPosition).1.count
        ≠ kChunkSize := by
      rw [StreamChunk_short] at hshort
      simpa using hshort
    apply freshPrefix_of_short stream L X j
      (h.StreamRequestData s.m_pEventHandler kChunkSize s.m_uDataPosition).1.count _ hj hcle
    · rw [← f3]
      have := Nat.min_le_left kChunkSize (L - s.m_uDataPosition)
      omega
    · exact hsizes
    · exact hfullBefore
    · exact StreamChunk_size_same h s j
    · exact hbyte
  · rw [if_neg hshort]
    have hc : (h.StreamRequestData s.m_pEventHandler kChunkSize s.m_uDataPosition).1.count
        = kChunkSize := by
      rw [StreamChunk_short] at hshort
      simpa using hshort
    have hroom : s.m_uDataPosition + kChunkSize ≤ L := by
      have hmin : min kChunkSize (L - s.m_uDataPosition) = kChunkSize := by rw [← r1, hc]
      unfold kChunkSize at hmin ⊢
      omega
    have hdp : (StreamChunk h s j).2.m_uDataPosition = s.m_uDataPosition + kChunkSize := by
      rw [StreamChunk_dataPos, hc]
      exact Nat.mod_eq_of_lt (by omega)
    apply ih
    refine ⟨?_, hsizes, ?_, ?_, ?_, ?_⟩
    · intro m hm
      by_cases hmj : m = j
      · rw [hmj, StreamChunk_size_same]
        exact hc
      · exact hfullBefore m (by omega)
    · rw [hdp, f3, Nat.mul_succ]
      omega
    · rw [hdp]
      omega
    · intro _
      rw [hdp]
      exact hroom
    · intro i hi
      apply hbyte
      rw [hc]
      rw [Nat.mul_succ] at hi
      exact hi

/-- After `SetPosition( X )` from a state whose chunk sizes are at most `kChunkSize`, the frame
cursor is 0 and the window starts with the stream bytes from `X` on. -/
theorem SetPosition_fresh (h : Host W D) (stream : Bytes) (L X : Nat)
    (hstream : ReadsStream h stream L) (hL : L < UINT_RANGE) (hX : X < UINT_RANGE)
    (s : CMiniMP3AudioStream W D) (hs : ∀ m, m < 4 → s.m_nChunkSize m ≤ kChunkSize) :
    (SetPosition h s X).m_uFramePosition = 0 ∧ FreshPrefix stream L X (SetPosition h s X) := by
  have h4 : ∀ t : CMiniMP3AudioStream W D, SeekFilling stream L X 4 t →
      FreshPrefix stream L X (streamChunks h [] t) :=
    fun t ht => freshPrefix_of_filled stream L X t ht
  have h3 := streamChunks_seek_step h stream L X 3 [] hstream hL (by omega) h4
  have h2 := streamChunks_seek_step h stream L X 2 [3] hstream hL (by omega) h3
  have h1 := streamChunks_seek_step h stream L X 1 [2, 3] hstream hL (by omega) h2
  have h0 := streamChunks_seek_step h stream L X 0 [1, 2, 3] hstream hL (by omega) h1
  constructor
  · show (streamChunks h [0, 1, 2, 3]
      { s with m_uDataPosition := X, m_uFramePosition := 0 }).m_uFramePosition = 0
    rw [streamChunks_framePos]
  · apply h0
    refine ⟨?_, hs, ?_, hX, ?_, ?_⟩
    · intro m hm; omega
    · rfl
    · intro h00; omega
    · intro i hi; omega

theorem fileFrameHost_consumesWithinView (L : Nat) : ConsumesWithinView (fileFrameHost L) := by
  intro d mp3 n b info
  show (if 417 ≤ n then 417 else 0) ≤ n
  split <;> omega

/-! ## Claim C12: the view after a seek and the view of the linear run -/

/-- C12 (as amended): round-trip seek, stated on the decoder's input. For a deterministic data
source over a stream of `L` bytes with `L` below 2^32, and a frame decoder that keeps to its
contract of never reading past the view (it never reports more frame bytes than the view length it
was given): let `X` be the frame bytes that
the frame decoder calls of `Decode` consumed in a state reached from the constructor by `Decode`
calls alone. The next `DecodeFrame` of that run calls the frame decoder on the state the shift
loop leaves, where the stream offset under the frame cursor is `X`; `SetPosition( X )` on a fresh
object leaves the frame cursor at 0 and the shift loop of the next `DecodeFrame` changes nothing;
and below the shorter of the two view lengths, byte `i` of either view is stream byte `X + i`, so
the two views start at stream byte `X` and agree byte for byte. -/
theorem seek_view_agrees_with_linear_view (h : Host W D) (stream : Bytes) (L : Nat)
    (hstream : ReadsStream h stream L) (hL : L < UINT_RANGE) (hfb : ConsumesWithinView h)
    (s : CMiniMP3AudioStream W D) (hr : ReachableByDecode h s) (w : W) :
    offsetUnderCursor (shiftLoop h (s.m_uFramePosition / (2 * kChunkSize)) s) =
      frameBytesOfDecode s.log ∧
    (SetPosition h (construct h w) (frameBytesOfDecode s.log)).m_uFramePosition = 0 ∧
    shiftLoop h
        ((SetPosition h (construct h w) (frameBytesOfDecode s.log)).m_uFramePosition /
          (2 * kChunkSize))
        (SetPosition h (construct h w) (frameBytesOfDecode s.log)) =
      SetPosition h (construct h w) (frameBytesOfDecode s.log) ∧
    ∀ i, i < viewLength (shiftLoop h (s.m_uFramePosition / (2 * kChunkSize)) s) →
      i < viewLength (SetPosition h (construct h w) (frameBytesOfDecode s.log)) →
      viewBytes (shiftLoop h (s.m_uFramePosition / (2 * kChunkSize)) s) i =
        stream (frameBytesOfDecode s.log + i) ∧
      viewBytes (SetPosition h (construct h w) (frameBytesOfDecode s.log)) i =
        stream (frameBytesOfDecode s.log + i) ∧
      viewBytes (shiftLoop h (s.m_uFramePosition / (2 * kChunkSize)) s) i =
        viewBytes (SetPosition h (construct h w) (frameBytesOfDecode s.log)) i := by
  have hlin := ReachableByDecode_linear h stream L hstream hL hfb hr
  obtain ⟨rs, hrs1, hrs2⟩ := shiftLoop_log h (s.m_uFramePosition / (2 * kChunkSize)) s
  obtain ⟨start, hw, hfp, hx⟩ :=
    shiftLoop_linear h stream L hstream hL (s.m_uFramePosition / (2 * kChunkSize)) s hlin
  rw [hrs1, frameBytesOfDecode_append, frameBytesOfDecode_reads rs hrs2, Nat.zero_add] at hx
  obtain ⟨t1, t2, t3⟩ := WindowInv_total stream L start _ hw
  have hdp := hw.2.2.2.2.1
  have hdpL := hw.2.2.2.2.2.1
  have hbytes := hw.2.2.2.2.2.2.1
  have hX : frameBytesOfDecode s.log < UINT_RANGE := by omega
  have hcw := construct_window h stream L hstream hL w
  obtain ⟨c0, c1, c2, c3⟩ := hcw.1
  have hsz : ∀ m, m < 4 → (construct h w).m_nChunkSize m ≤ kChunkSize := by
    intro m hm
    have : m = 0 ∨ m = 1 ∨ m = 2 ∨ m = 3 := by omega
    rcases this with h0 | h0 | h0 | h0 <;> rw [h0] <;> assumption
  obtain ⟨u1, u2, fresh, u3, u4, u5⟩ :=
    SetPosition_fresh h stream L (frameBytesOfDecode s.log) hstream hL hX (construct h w) hsz
  have hview : viewLength (shiftLoop h (s.m_uFramePosition / (2 * kChunkSize)) s) =
      chunkSum (shiftLoop h (s.m_uFramePosition / (2 * kChunkSize)) s) -
        (shiftLoop h (s.m_uFramePosition / (2 * kChunkSize)) s).m_uFramePosition := by
    unfold viewLength
    rw [t1]
    unfold UINT_RANGE
    omega
  refine ⟨?_, u1, ?_, ?_⟩
  · unfold offsetUnderCursor
    rw [t3]
    exact hx
  · rw [u1, Nat.zero_div]
    rfl
  · intro i hi1 _
    rw [hview] at hi1
    have hfreshi : i < fresh := by
      unfold kChunkSize at u4
      omega
    have hleft : viewBytes (shiftLoop h (s.m_uFramePosition / (2 * kChunkSize)) s) i =
        stream (frameBytesOfDecode s.log + i) := by
      show (shiftLoop h (s.m_uFramePosition / (2 * kChunkSize)) s).m_FullFrame
        ((shiftLoop h (s.m_uFramePosition / (2 * kChunkSize)) s).m_uFramePosition + i) = _
      rw [hbytes _ (by omega), ← hx]
      congr 1
      omega
    have hright : viewBytes (SetPosition h (construct h w) (frameBytesOfDecode s.log)) i =
        stream (frameBytesOfDecode s.log + i) := by
      show (SetPosition h (construct h w) (frameBytesOfDecode s.log)).m_FullFrame
        ((SetPosition h (construct h w) (frameBytesOfDecode s.log)).m_uFramePosition + i) = _
      rw [u1, Nat.zero_add]
      exact u5 i hfreshi
    exact ⟨hleft, hright, hleft.trans hright.symm⟩

/-- C12, witness: a 20000-byte stream whose byte `j` is `j % 251` and a decoder that takes a
417-byte frame from every view that holds one, after construction and four `Decode` calls. The
frames consumed 10008 bytes; the next view of the linear run is 9992 bytes long, the view after
`SetPosition( 10008 )` on a fresh object is 14088 bytes long, and both start with stream byte
10008. -/
theorem seek_view_agrees_with_linear_view_witness :
    ReadsStream (fileFrameHost 20000) (fun j => j % 251) 20000 ∧ 20000 < UINT_RANGE ∧
    ConsumesWithinView (fileFrameHost 20000) ∧
    ReachableByDecode (fileFrameHost 20000) decodedFourTimes ∧
    frameBytesOfDecode decodedFourTimes.log = 10008 ∧
    viewLength (shiftLoop (fileFrameHost 20000)
      (decodedFourTimes.m_uFramePosition / (2 * kChunkSize)) decodedFourTimes) = 9992 ∧
    viewLength (SetPosition (fileFrameHost 20000) (construct (fileFrameHost 20000) ())
      (frameBytesOfDecode decodedFourTimes.log)) = 14088 ∧
    (offsetUnderCursor (shiftLoop (fileFrameHost 20000)
          (decodedFourTimes.m_uFramePosition / (2 * kChunkSize)) decodedFourTimes) =
        frameBytesOfDecode decodedFourTimes.log ∧
      (SetPosition (fileFrameHost 20000) (construct (fileFrameHost 20000) ())
        (frameBytesOfDecode decodedFourTimes.log)).m_uFramePosition = 0 ∧
      shiftLoop (fileFrameHost 20000)
          ((SetPosition (fileFrameHost 20000) (construct (fileFrameHost 20000) ())
            (frameBytesOfDecode decodedFourTimes.log)).m_uFramePosition / (2 * kChunkSize))
          (SetPosition (fileFrameHost 20000) (construct (fileFrameHost 20000) ())
            (frameBytesOfDecode decodedFourTimes.log)) =
        SetPosition (fileFrameHost 20000) (construct (fileFrameHost 20000) ())
          (frameBytesOfDecode decodedFourTimes.log) ∧
      ∀ i, i < viewLength (shiftLoop (fileFrameHost 20000)
          (decodedFourTimes.m_uFramePosition / (2 * kChunkSize)) decodedFourTimes) →
        i < viewLength (SetPosition (fileFrameHost 20000) (construct (fileFrameHost 20000) ())
          (frameBytesOfDecode decodedFourTimes.log)) →
        viewBytes (shiftLoop (fileFrameHost 20000)
            (decodedFourTimes.m_uFramePosition / (2 * kChunkSize)) decodedFourTimes) i =
          (fun j => j % 251) (frameBytesOfDecode decodedFourTimes.log + i) ∧
        viewBytes (SetPosition (fileFrameHost 20000) (construct (fileFrameHost 20000) ())
            (frameBytesOfDecode decodedFourTimes.log)) i =
          (fun j => j % 251) (frameBytesOfDecode decodedFourTimes.log + i) ∧
        viewBytes (shiftLoop (fileFrameHost 20000)
            (decodedFourTimes.m_uFramePosition / (2 * kChunkSize)) decodedFourTimes) i =
          viewBytes (SetPosition (fileFrameHost 20000) (construct (fileFrameHost 20000) ())
            (frameBytesOfDecode decodedFourTimes.log)) i) :=
  ⟨fun _ _ => ⟨rfl, fun _ _ => rfl⟩, by decide, fileFrameHost_consumesWithinView 20000,
    afterDecodeCalls_reachable (fileFrameHost 20000) 6 16384 4 _
      (ReachableByDecode.construct ()) (by decide),
    by decide, by decide, by decide,
    seek_view_agrees_with_linear_view (fileFrameHost 20000) (fun j => j % 251) 20000
      (fun _ _ => ⟨rfl, fun _ _ => rfl⟩) (by decide) (fileFrameHost_consumesWithinView 20000)
      decodedFourTimes
      (afterDecodeCalls_reachable (fileFrameHost 20000) 6 16384 4 _
        (ReachableByDecode.construct ()) (by decide)) ()⟩

/-! ## A stream longer than the `unsigned int` range -/

/-- A `Decode` call whose first `DecodeFrame` returns no samples leaves the object in the state
after that `DecodeFrame`. -/
theorem Decode_empty_frame_state (h : Host W D) (uBufferSize fuel : Nat)
    (s : CMiniMP3AudioStream W D) (pBuffer : Bytes)
    (hlt : kSamplesPerFrameBufferSize < uBufferSize) (hcap : uBufferSize < UINT_RANGE)
    (hz : (DecodeFrame h s pBuffer 0).1 = 0) :
    ∃ (n : Nat) (buf1 : Bytes),
      Decode h (fuel + 1) s pBuffer uBufferSize = some (n, buf1, (DecodeFrame h s pBuffer 0).2.2) := by
  have hl := decodeLoop_first_frame_empty h uBufferSize fuel s pBuffer (fun _ => hz) hcap
  rw [if_pos hlt] at hl
  have hnot : ¬ uBufferSize < kSamplesPerFrameBufferSize := by omega
  unfold Decode
  rw [if_neg hnot, hl]
  by_cases he : (0 = 0 ∧ ¬ ((DecodeFrame h s pBuffer 0).2.2.m_nEOFPosition ≤
      (DecodeFrame h s pBuffer 0).2.2.m_uDataPosition))
  · exact ⟨_, _, if_pos he⟩
  · exact ⟨_, _, if_neg he⟩

theorem decodeCalls_succ_empty (h : Host W D) (uBufferSize fuel k : Nat)
    (s : CMiniMP3AudioStream W D)
    (hlt : kSamplesPerFrameBufferSize < uBufferSize) (hcap : uBufferSize < UINT_RANGE)
    (hz : (DecodeFrame h s (fun _ => 0) 0).1 = 0) :
    decodeCalls h (fuel + 1) uBufferSize (k + 1) s =
      decodeCalls h (fuel + 1) uBufferSize k (DecodeFrame h s (fun _ => 0) 0).2.2 := by
  obtain ⟨n, buf1, hd⟩ := Decode_empty_frame_state h uBufferSize fuel s (fun _ => 0) hlt hcap hz
  show (match Decode h (fuel + 1) s (fun _ => 0) uBufferSize with
    | none => none
    | some r => decodeCalls h (fuel + 1) uBufferSize k r.2.2) = _
  rw [hd]

/-- A `Decode` call with a 4609-byte buffer whose first `DecodeFrame` returns a mono frame of 1152
samples: the loop is left after that frame, with 2304 bytes of PCM. -/
theorem Decode_single_frame (h : Host W D) (s : CMiniMP3AudioStream W D) (pBuffer : Bytes)
    (hn : (DecodeFrame h s pBuffer 0).1 = 1152)
    (hch : (DecodeFrame h s pBuffer 0).2.2.m_Info.channels = 1) :
    Decode h 1 s pBuffer 4609 =
      some (2304, (DecodeFrame h s pBuffer 0).2.1, (DecodeFrame h s pBuffer 0).2.2) := by
  have hbytes : SamplesToBytes (DecodeFrame h s pBuffer 0).2.2 1152 = 2304 := by
    unfold SamplesToBytes
    rw [hch]
    decide
  have hloop : decodeLoop h 4609 1 s pBuffer 0 =
      some ((DecodeFrame h s pBuffer 0).2.2, (DecodeFrame h s pBuffer 0).2.1, 2304) := by
    have h1 : kSamplesPerFrameBufferSize < (4609 + UINT_RANGE - 0) % UINT_RANGE := by decide
    have h2 : ¬ kSamplesPerFrameBufferSize < (4609 + UINT_RANGE - 2304) % UINT_RANGE := by decide
    have h4 : (0 + 2304) % UINT_RANGE = 2304 := by decide
    have h5 : ¬ (1152 = 0) := by decide
    simp only [decodeLoop, if_pos h1, hn, if_neg h5, hbytes, h4, if_neg h2]
  unfold Decode
  rw [if_neg (by decide), hloop]
  exact if_neg (fun hc => absurd hc.1 (by decide))

theorem decodeCalls_succ_single (h : Host W D) (k : Nat) (s : CMiniMP3AudioStream W D)
    (hn : (DecodeFrame h s (fun _ => 0) 0).1 = 1152)
    (hch : (DecodeFrame h s (fun _ => 0) 0).2.2.m_Info.channels = 1) :
    decodeCalls h 1 4609 (k + 1) s =
      decodeCalls h 1 4609 k (DecodeFrame h s (fun _ => 0) 0).2.2 := by
  show (match Decode h 1 s (fun _ => 0) 4609 with
    | none => none
    | some r => decodeCalls h 1 4609 k r.2.2) = _
  rw [Decode_single_frame h s (fun _ => 0) hn hch]

/-- A read at a data cursor with a whole chunk of the stream after it. -/
theorem StreamChunk_whole (h : Host W D) (stream : Bytes) (L : Nat)
    (hstream : ReadsStream h stream L) (s : CMiniMP3AudioStream W D) (i : Nat)
    (hL : s.m_uDataPosition + 4096 ≤ L) :
    (StreamChunk h s i).1 = false ∧
    (StreamChunk h s i).2.m_uDataPosition = (s.m_uDataPosition + 4096) % UINT_RANGE ∧
    (∀ m, (StreamChunk h s i).2.m_nChunkSize m = if m = i then 4096 else s.m_nChunkSize m) ∧
    (∀ x, (StreamChunk h s i).2.m_FullFrame x =
      if i * 4096 ≤ x ∧ x < i * 4096 + 4096 then stream (s.m_uDataPosition + (x - i * 4096))
      else s.m_FullFrame x) := by
  obtain ⟨r1, r2⟩ := hstream s.m_pEventHandler s.m_uDataPosition
  have hm : min kChunkSize (L - s.m_uDataPosition) = 4096 := by
    unfold kChunkSize
    omega
  have hc : (h.StreamRequestData s.m_pEventHandler kChunkSize s.m_uDataPosition).1.count
      = 4096 := by
    rw [r1, hm]
  rw [hm] at r2
  refine ⟨?_, ?_, ?_, ?_⟩
  · rw [StreamChunk_short, hc]
    rfl
  · rw [StreamChunk_dataPos, hc]
  · intro m
    rw [StreamChunk_size_apply, hc]
  · intro x
    rw [StreamChunk_byte, hc]
    by_cases hx : i * 4096 ≤ x ∧ x < i * 4096 + 4096
    · rw [if_pos hx]
      have hx1 : i * kChunkSize ≤ x ∧ x < i * kChunkSize + min 4096 kChunkSize := hx
      rw [if_pos hx1]
      exact r2 (x - i * 4096) (by omega)
    · rw [if_neg hx]
      have hx1 : ¬ (i * kChunkSize ≤ x ∧ x < i * kChunkSize + min 4096 kChunkSize) := hx
      rw [if_neg hx1]

/-- The shift and refill while two whole chunks of the stream lie after the data cursor, also when
the cursor wraps in between. -/
theorem shiftAndRefill_whole (h : Host W D) (stream : Bytes) (L : Nat)
    (hstream : ReadsStream h stream L) (s : CMiniMP3AudioStream W D)
    (hdp : s.m_uDataPosition < UINT_RANGE) (hL : UINT_RANGE + 4096 ≤ L) :
    (shiftAndRefill h s).m_nEOFPosition = s.m_nEOFPosition ∧
    (shiftAndRefill h s).m_uDataPosition =
      ((s.m_uDataPosition + 4096) % UINT_RANGE + 4096) % UINT_RANGE ∧
    (shiftAndRefill h s).m_nChunkSize 0 = s.m_nChunkSize 2 ∧
    (shiftAndRefill h s).m_nChunkSize 1 = s.m_nChunkSize 3 ∧
    (shiftAndRefill h s).m_nChunkSize 2 = 4096 ∧
    (shiftAndRefill h s).m_nChunkSize 3 = 4096 ∧
    (∀ x, x < 8192 → (shiftAndRefill h s).m_FullFrame x = s.m_FullFrame (x + 8192)) ∧
    (∀ x, 8192 ≤ x → x < 12288 →
      (shiftAndRefill h s).m_FullFrame x = stream (s.m_uDataPosition + (x - 8192))) ∧
    (∀ x, 12288 ≤ x → x < 16384 →
      (shiftAndRefill h s).m_FullFrame x =
        stream ((s.m_uDataPosition + 4096) % UINT_RANGE + (x - 12288))) := by
  obtain ⟨s0, hs0⟩ : ∃ s0 : CMiniMP3AudioStream W D, s0 =
      { s with
        m_FullFrame := moveChunksBack s.m_FullFrame
        m_nChunkSize := fun i =>
          if i = 0 then s.m_nChunkSize 2 else if i = 1 then s.m_nChunkSize 3
          else if i = 2 then 0 else if i = 3 then 0 else s.m_nChunkSize i
        m_uFramePosition := s.m_uFramePosition - 2 * kChunkSize } := ⟨_, rfl⟩
  have e0 : shiftAndRefill h s = streamChunks h [2, 3] s0 := by
    rw [hs0]
    rfl
  have d0 : s0.m_uDataPosition = s.m_uDataPosition := by rw [hs0]
  have q0 : s0.m_nEOFPosition = s.m_nEOFPosition := by rw [hs0]
  have z0 : s0.m_nChunkSize 0 = s.m_nChunkSize 2 := by rw [hs0]; rfl
  have z1 : s0.m_nChunkSize 1 = s.m_nChunkSize 3 := by rw [hs0]; rfl
  have b0 : ∀ x, x < 8192 → s0.m_FullFrame x = s.m_FullFrame (x + 8192) := by
    intro x hx
    rw [hs0]
    show (if x < 2 * kChunkSize then s.m_FullFrame (x + 2 * kChunkSize) else s.m_FullFrame x) = _
    rw [if_pos (by unfold kChunkSize; omega)]
    rfl
  obtain ⟨a1, a2, a3, a4⟩ := StreamChunk_whole h stream L hstream s0 2
    (by rw [d0]; unfold UINT_RANGE at *; omega)
  have ha : (StreamChunk h s0 2).2.m_uDataPosition + 4096 ≤ L := by
    rw [a2]
    have := Nat.mod_lt (s0.m_uDataPosition + 4096) (show 0 < UINT_RANGE by decide)
    omega
  obtain ⟨c1, c2, c3, c4⟩ := StreamChunk_whole h stream L hstream (StreamChunk h s0 2).2 3 ha
  have e1 : streamChunks h [2, 3] s0 = (StreamChunk h (StreamChunk h s0 2).2 3).2 := by
    simp only [streamChunks, a1, c1, Bool.false_eq_true, if_false]
  rw [e0, e1]
  refine ⟨?_, ?_, ?_, ?_, ?_, ?_, ?_, ?_, ?_⟩
  · rw [StreamChunk_eof, StreamChunk_eof, q0]
  · rw [c2, a2, d0]
  · rw [c3, a3, z0]
    simp
  · rw [c3, a3, z1]
    simp
  · rw [c3, a3]
    simp
  · rw [c3]
    simp
  · intro x hx
    rw [c4, a4, if_neg (by omega), if_neg (by omega)]
    exact b0 x hx
  · intro x hx1 hx2
    rw [c4, a4, if_neg (by omega), if_pos (by omega), d0]
  · intro x hx1 hx2
    rw [c4, if_pos (by omega), a2, d0]

/-- The shift loop of `DecodeFrame` when one round is due and the data cursor is an `unsigned int`
below the unknown end: it is one shift and refill. -/
theorem shiftLoop_once (h : Host W D) (s : CMiniMP3AudioStream W D)
    (hfp1 : 8192 ≤ s.m_uFramePosition) (hfp2 : s.m_uFramePosition < 16384)
    (he : s.m_nEOFPosition = kNoEOF) (hmod : s.m_uDataPosition % 8192 = 0)
    (hlt : s.m_uDataPosition < UINT_RANGE) :
    shiftLoop h (s.m_uFramePosition / (2 * kChunkSize)) s = shiftAndRefill h s := by
  have hq : s.m_uFramePosition / (2 * kChunkSize) = 1 := by
    unfold kChunkSize
    omega
  rw [hq]
  show (if 2 * kChunkSize ≤ s.m_uFramePosition ∧ s.m_uDataPosition < s.m_nEOFPosition then
    shiftLoop h 0 (shiftAndRefill h s) else s) = _
  rw [if_pos ⟨by unfold kChunkSize; omega, by rw [he]; unfold kNoEOF; unfold UINT_RANGE at hlt; omega⟩]
  rfl

/-- One `DecodeFrame` of the run of `LongRunInv` over a stream of 2^32 + 20000 bytes: it shifts and
refills with two whole chunks and skips 8192 bytes, so the data cursor grows by 8192 in
`unsigned int` arithmetic. -/
theorem DecodeFrame_longRun (s : CMiniMP3AudioStream Unit Unit) (pBuffer : Bytes) (pcmAt : Nat)
    (hs : LongRunInv s) :
    LongRunInv (DecodeFrame (fileHost 4294987296 8192 0) s pBuffer pcmAt).2.2 ∧
    (DecodeFrame (fileHost 4294987296 8192 0) s pBuffer pcmAt).2.2.m_uDataPosition =
      (s.m_uDataPosition + 8192) % UINT_RANGE := by
  obtain ⟨z0, z1, z2, z3, he, hfp, hmod, hlt, hb0, hb2⟩ := hs
  have hloop := shiftLoop_once (fileHost 4294987296 8192 0) s (by omega) (by omega) he hmod hlt
  obtain ⟨t1, t2, t3, t4, t5, t6, t7, t8, _⟩ :=
    shiftAndRefill_whole (fileHost 4294987296 8192 0) (fun j => j % 251) 4294987296
      (fun _ _ => ⟨rfl, fun _ _ => rfl⟩) s hlt (by decide)
  have tfp := shiftAndRefill_framePos (fileHost 4294987296 8192 0) s
  have f1 : (DecodeFrame (fileHost 4294987296 8192 0) s pBuffer pcmAt).2.2.m_nChunkSize =
      (shiftAndRefill (fileHost 4294987296 8192 0) s).m_nChunkSize := by
    rw [← hloop]
    rfl
  have f2 : (DecodeFrame (fileHost 4294987296 8192 0) s pBuffer pcmAt).2.2.m_nEOFPosition =
      (shiftAndRefill (fileHost 4294987296 8192 0) s).m_nEOFPosition := by
    rw [← hloop]
    rfl
  have f3 : (DecodeFrame (fileHost 4294987296 8192 0) s pBuffer pcmAt).2.2.m_uFramePosition =
      ((shiftAndRefill (fileHost 4294987296 8192 0) s).m_uFramePosition + 8192) % UINT_RANGE := by
    rw [← hloop]
    rfl
  have f4 : (DecodeFrame (fileHost 4294987296 8192 0) s pBuffer pcmAt).2.2.m_uDataPosition =
      (shiftAndRefill (fileHost 4294987296 8192 0) s).m_uDataPosition := by
    rw [← hloop]
    rfl
  have f5 : (DecodeFrame (fileHost 4294987296 8192 0) s pBuffer pcmAt).2.2.m_FullFrame =
      (shiftAndRefill (fileHost 4294987296 8192 0) s).m_FullFrame := by
    rw [← hloop]
    rfl
  have hnew : ((s.m_uDataPosition + 4096) % UINT_RANGE + 4096) % UINT_RANGE =
      (s.m_uDataPosition + 8192) % UINT_RANGE := by
    unfold UINT_RANGE at *
    omega
  have t7 := t7 0 (by decide)
  have t8 : (shiftAndRefill (fileHost 4294987296 8192 0) s).m_FullFrame 8192 =
      s.m_uDataPosition % 251 := t8 8192 (Nat.le_refl _) (by decide)
  refine ⟨⟨?_, ?_, ?_, ?_, ?_, ?_, ?_, ?_, ?_, ?_⟩, ?_⟩
  · rw [f1, t3, z2]
  · rw [f1, t4, z3]
  · rw [f1, t5]
  · rw [f1, t6]
  · rw [f2, t1, he]
  · rw [f3, tfp, hfp]
    rfl
  · rw [f4, t2, hnew]
    unfold UINT_RANGE at *
    omega
  · rw [f4, t2]
    exact Nat.mod_lt _ (by decide)
  · have key : (s.m_uDataPosition + UINT_RANGE - 8192) % UINT_RANGE =
        ((s.m_uDataPosition + 8192) % UINT_RANGE + UINT_RANGE - 16384) % UINT_RANGE := by
      unfold UINT_RANGE at *
      omega
    rw [f5, f4, t7, t2, hnew, hb2, key]
  · have key : ((s.m_uDataPosition + 8192) % UINT_RANGE + UINT_RANGE - 8192) % UINT_RANGE =
        s.m_uDataPosition := by
      unfold UINT_RANGE at *
      omega
    rw [f5, f4, t8, t2, hnew, key]
  · rw [f4, t2, hnew]

/-- Any number of `Decode` calls of the run of `LongRunInv`: every call returns, and the data
cursor grows by 8192 for each call in `unsigned int` arithmetic. -/
theorem decodeCalls_longRun :
    ∀ (k : Nat) (s : CMiniMP3AudioStream Unit Unit), LongRunInv s →
      ∃ s1 : CMiniMP3AudioStream Unit Unit,
        decodeCalls (fileHost 4294987296 8192 0) 1 16384 k s = some s1 ∧ LongRunInv s1 ∧
        s1.m_uDataPosition = (s.m_uDataPosition + 8192 * k) % UINT_RANGE := by
  intro k
  induction k with
  | zero =>
    intro s hs
    refine ⟨s, rfl, hs, ?_⟩
    have hlt := hs.2.2.2.2.2.2.2.1
    rw [Nat.mul_zero, Nat.add_zero, Nat.mod_eq_of_lt hlt]
  | succ k ih =>
    intro s hs
    obtain ⟨h1, h2⟩ := DecodeFrame_longRun s (fun _ => 0) 0 hs
    obtain ⟨s1, e1, i1, p1⟩ := ih _ h1
    refine ⟨s1, ?_, i1, ?_⟩
    · rw [decodeCalls_succ_empty (fileHost 4294987296 8192 0) 16384 0 k s (by decide) (by decide)
        rfl]
      exact e1
    · rw [p1, h2]
      unfold UINT_RANGE
      omega


/-- C15, counterexample: a stream of 2^32 + 20000 bytes whose byte `j` is `j % 251`, with a decoder
that skips 8192 bytes on every call. After construction and 524287 `Decode` calls, each of which
reads two whole chunks, the data cursor has wrapped to 0 while the four chunk sizes sum to 16384:
the sum exceeds `m_uDataPosition`, so `m_uDataPosition` minus the sum is not an offset of the
stream. Window byte 0 is 54, the stream byte at offset 2^32 - 16384, and not the stream byte at
offset 0 that the subtraction cut off at 0 would name. -/
theorem window_not_copy_past_unsigned_range :
    ReadsStream (fileHost 4294987296 8192 0) (fun j => j % 251) 4294987296 ∧
    ∃ s : CMiniMP3AudioStream Unit Unit,
      decodeCalls (fileHost 4294987296 8192 0) 1 16384 524287
        (construct (fileHost 4294987296 8192 0) ()) = some s ∧
      ReachableByDecode (fileHost 4294987296 8192 0) s ∧
      s.m_uDataPosition = 0 ∧ GetTotalChunkSizes s = 16384 ∧
      ¬ GetTotalChunkSizes s ≤ s.m_uDataPosition ∧
      s.m_FullFrame 0 = 54 ∧
      (fun j => j % 251) (s.m_uDataPosition - GetTotalChunkSizes s + 0) = 0 ∧
      ¬ (∀ i, i < GetTotalChunkSizes s →
        s.m_FullFrame i = (fun j => j % 251) (s.m_uDataPosition - GetTotalChunkSizes s + i)) := by
  have hfirst : decodeCalls (fileHost 4294987296 8192 0) 1 16384 524287
      (construct (fileHost 4294987296 8192 0) ()) =
      decodeCalls (fileHost 4294987296 8192 0) 1 16384 524286
        (DecodeFrame (fileHost 4294987296 8192 0) (construct (fileHost 4294987296 8192 0) ())
          (fun _ => 0) 0).2.2 :=
    decodeCalls_succ_empty (fileHost 4294987296 8192 0) 16384 0 524286
      (construct (fileHost 4294987296 8192 0) ()) (by decide) (by decide) rfl
  have hinv : LongRunInv (DecodeFrame (fileHost 4294987296 8192 0)
      (construct (fileHost 4294987296 8192 0) ()) (fun _ => 0) 0).2.2 :=
    ⟨by decide, by decide, by decide, by decide, by decide, by decide, by decide, by decide,
      by decide, by decide⟩
  obtain ⟨s1, e1, i1, p1⟩ := decodeCalls_longRun 524286 _ hinv
  have hdp : s1.m_uDataPosition = 0 := by
    rw [p1]
    decide
  obtain ⟨z0, z1, z2, z3, _, _, _, _, hb0, _⟩ := i1
  have htot : GetTotalChunkSizes s1 = 16384 := by
    unfold GetTotalChunkSizes
    rw [z0, z1, z2, z3]
    decide
  have hbyte : s1.m_FullFrame 0 = 54 := by
    rw [hb0, hdp]
    decide
  refine ⟨fun _ _ => ⟨rfl, fun _ _ => rfl⟩, s1, hfirst.trans e1,
    decodeCalls_reachable _ _ _ _ _ _ (ReachableByDecode.construct ()) (hfirst.trans e1), hdp,
    htot, ?_, hbyte, ?_, ?_⟩
  · rw [htot, hdp]
    decide
  · rw [htot, hdp]
  · intro hall
    have h0 := hall 0 (by rw [htot]; decide)
    rw [hbyte, htot, hdp] at h0
    exact absurd h0 (by decide)


/-! ## A run of frames that reaches the end of the `unsigned int` range -/

theorem taggedFrameHost_consumesWithinView (L : Nat) :
    ConsumesWithinView (taggedFrameHost L) := by
  intro d mp3 n b info
  show (if (if mp3 0 = 255 then 8092 else 8192) ≤ n then (if mp3 0 = 255 then 8092 else 8192)
    else 0) ≤ n
  by_cases hn : (if mp3 0 = 255 then 8092 else 8192) ≤ n
  · rw [if_pos hn]
    exact hn
  · rw [if_neg hn]
    exact Nat.zero_le n

/-- The frame decoder of `taggedFrameHost` on a view that does not start with the marker and holds
8192 bytes: a mono frame of 1152 samples from 8192 bytes. -/
theorem taggedFrameHost_decode (L : Nat) (d : Unit) (mp3 : Bytes) (n : Nat) (b : Bool)
    (info : mp3dec_frame_info_t) (h0 : mp3 0 ≠ 255) (hn : 8192 ≤ n) :
    ((taggedFrameHost L).mp3dec_decode_frame d mp3 n b info).samples = 1152 ∧
    ((taggedFrameHost L).mp3dec_decode_frame d mp3 n b info).info.frame_bytes = 8192 ∧
    ((taggedFrameHost L).mp3dec_decode_frame d mp3 n b info).info.channels = 1 := by
  refine ⟨?_, ?_, rfl⟩
  · show (if (if mp3 0 = 255 then 8092 else 8192) ≤ n then 1152 else 0) = 1152
    rw [if_neg h0, if_pos hn]
  · show (if (if mp3 0 = 255 then 8092 else 8192) ≤ n then (if mp3 0 = 255 then 8092 else 8192)
      else 0) = 8192
    rw [if_neg h0, if_pos hn]

/-- One `DecodeFrame` of the run of `TaggedRunInv` over a stream of 2^32 + 20000 bytes: it shifts
and refills with two whole chunks and decodes a frame of 8192 bytes, so the data cursor grows by
8192 in `unsigned int` arithmetic and the frame bytes consumed grow by 8192. -/
theorem DecodeFrame_taggedRun (s : CMiniMP3AudioStream Unit Unit) (pBuffer : Bytes) (pcmAt : Nat)
    (hs : TaggedRunInv s) :
    TaggedRunInv (DecodeFrame (taggedFrameHost 4294987296) s pBuffer pcmAt).2.2 ∧
    (DecodeFrame (taggedFrameHost 4294987296) s pBuffer pcmAt).2.2.m_uDataPosition =
      (s.m_uDataPosition + 8192) % UINT_RANGE ∧
    frameBytesOfDecode (DecodeFrame (taggedFrameHost 4294987296) s pBuffer pcmAt).2.2.log =
      frameBytesOfDecode s.log + 8192 ∧
    (DecodeFrame (taggedFrameHost 4294987296) s pBuffer pcmAt).1 = 1152 ∧
    (DecodeFrame (taggedFrameHost 4294987296) s pBuffer pcmAt).2.2.m_Info.channels = 1 := by
  obtain ⟨z0, z1, z2, z3, he, hfp, hmod, hlt, hb⟩ := hs
  have hloop := shiftLoop_once (taggedFrameHost 4294987296) s (by omega) (by omega) he hmod hlt
  obtain ⟨t1, t2, t3, t4, t5, t6, t7, _, t9⟩ :=
    shiftAndRefill_whole (taggedFrameHost 4294987296) taggedStream 4294987296
      (fun _ _ => ⟨rfl, fun _ _ => rfl⟩) s hlt (by decide)
  have tfp : (shiftAndRefill (taggedFrameHost 4294987296) s).m_uFramePosition = 8092 := by
    rw [shiftAndRefill_framePos, hfp]
    rfl
  have hb' : s.m_FullFrame 16284 < 251 := by
    rw [hb]
    exact Nat.mod_lt _ (by decide)
  have hv0 : viewBytes (shiftAndRefill (taggedFrameHost 4294987296) s) 0 ≠ 255 := by
    show (shiftAndRefill (taggedFrameHost 4294987296) s).m_FullFrame
      ((shiftAndRefill (taggedFrameHost 4294987296) s).m_uFramePosition + 0) ≠ 255
    rw [tfp, t7 (8092 + 0) (by decide)]
    show s.m_FullFrame 16284 ≠ 255
    omega
  have hvl : viewLength (shiftAndRefill (taggedFrameHost 4294987296) s) = 8292 := by
    unfold viewLength GetTotalChunkSizes
    rw [t3, t4, t5, t6, z2, z3, tfp]
    decide
  obtain ⟨d1, d2, d3⟩ := taggedFrameHost_decode 4294987296
    (shiftAndRefill (taggedFrameHost 4294987296) s).m_Decoder
    (viewBytes (shiftAndRefill (taggedFrameHost 4294987296) s))
    (viewLength (shiftAndRefill (taggedFrameHost 4294987296) s)) true
    (shiftAndRefill (taggedFrameHost 4294987296) s).m_Info hv0 (by rw [hvl]; decide)
  have f1 : (DecodeFrame (taggedFrameHost 4294987296) s pBuffer pcmAt).2.2.m_nChunkSize =
      (shiftAndRefill (taggedFrameHost 4294987296) s).m_nChunkSize := by
    rw [← hloop]
    rfl
  have f2 : (DecodeFrame (taggedFrameHost 4294987296) s pBuffer pcmAt).2.2.m_nEOFPosition =
      (shiftAndRefill (taggedFrameHost 4294987296) s).m_nEOFPosition := by
    rw [← hloop]
    rfl
  have f3 : (DecodeFrame (taggedFrameHost 4294987296) s pBuffer pcmAt).2.2.m_uFramePosition =
      ((shiftAndRefill (taggedFrameHost 4294987296) s).m_uFramePosition +
        ((taggedFrameHost 4294987296).mp3dec_decode_frame
          (shiftAndRefill (taggedFrameHost 4294987296) s).m_Decoder
          (viewBytes (shiftAndRefill (taggedFrameHost 4294987296) s))
          (viewLength (shiftAndRefill (taggedFrameHost 4294987296) s)) true
          (shiftAndRefill (taggedFrameHost 4294987296) s).m_Info).info.frame_bytes) %
        UINT_RANGE := by
    rw [← hloop]
    rfl
  have f4 : (DecodeFrame (taggedFrameHost 4294987296) s pBuffer pcmAt).2.2.m_uDataPosition =
      (shiftAndRefill (taggedFrameHost 4294987296) s).m_uDataPosition := by
    rw [← hloop]
    rfl
  have f5 : (DecodeFrame (taggedFrameHost 4294987296) s pBuffer pcmAt).2.2.m_FullFrame =
      (shiftAndRefill (taggedFrameHost 4294987296) s).m_FullFrame := by
    rw [← hloop]
    rfl
  have f6 : (DecodeFrame (taggedFrameHost 4294987296) s pBuffer pcmAt).1 =
      ((taggedFrameHost 4294987296).mp3dec_decode_frame
        (shiftAndRefill (taggedFrameHost 4294987296) s).m_Decoder
        (viewBytes (shiftAndRefill (taggedFrameHost 4294987296) s))
        (viewLength (shiftAndRefill (taggedFrameHost 4294987296) s)) true
        (shiftAndRefill (taggedFrameHost 4294987296) s).m_Info).samples := by
    rw [← hloop]
    rfl
  have f7 : frameBytesOfDecode
      (DecodeFrame (taggedFrameHost 4294987296) s pBuffer pcmAt).2.2.log =
      ((taggedFrameHost 4294987296).mp3dec_decode_frame
        (shiftAndRefill (taggedFrameHost 4294987296) s).m_Decoder
        (viewBytes (shiftAndRefill (taggedFrameHost 4294987296) s))
        (viewLength (shiftAndRefill (taggedFrameHost 4294987296) s)) true
        (shiftAndRefill (taggedFrameHost 4294987296) s).m_Info).info.frame_bytes +
      frameBytesOfDecode (shiftAndRefill (taggedFrameHost 4294987296) s).log := by
    rw [← hloop]
    rfl
  have hnew : ((s.m_uDataPosition + 4096) % UINT_RANGE + 4096) % UINT_RANGE =
      (s.m_uDataPosition + 8192) % UINT_RANGE := by
    unfold UINT_RANGE at *
    omega
  obtain ⟨rs, hrs1, hrs2⟩ := shiftAndRefill_log (taggedFrameHost 4294987296) s
  refine ⟨⟨?_, ?_, ?_, ?_, ?_, ?_, ?_, ?_, ?_⟩, ?_, ?_, ?_, rfl⟩
  · rw [f1, t3, z2]
  · rw [f1, t4, z3]
  · rw [f1, t5]
  · rw [f1, t6]
  · rw [f2, t1, he]
  · rw [f3, tfp, d2]
    rfl
  · rw [f4, t2, hnew]
    unfold UINT_RANGE at *
    omega
  · rw [f4, t2]
    exact Nat.mod_lt _ (by decide)
  · have key : (s.m_uDataPosition + 4096) % UINT_RANGE + (16284 - 12288) =
        ((s.m_uDataPosition + 8192) % UINT_RANGE + UINT_RANGE - 100) % UINT_RANGE := by
      unfold UINT_RANGE at *
      omega
    have hpos : ((s.m_uDataPosition + 8192) % UINT_RANGE + UINT_RANGE - 100) % UINT_RANGE ≠ 0 := by
      unfold UINT_RANGE at *
      omega
    rw [f5, f4, t9 16284 (by decide) (by decide), t2, hnew, key]
    show (if _ = 0 then 255 else _ % 251) = _
    rw [if_neg hpos]
  · rw [f4, t2, hnew]
  · rw [f7, d2, hrs1, frameBytesOfDecode_append, frameBytesOfDecode_reads rs hrs2]
    omega
  · rw [f6, d1]

/-- Any number of `Decode` calls of the run of `TaggedRunInv` with a 4609-byte buffer: every call
returns after one frame, and the data cursor (in `unsigned int` arithmetic) and the frame bytes
consumed grow by 8192 for each call. -/
theorem decodeCalls_taggedRun :
    ∀ (k : Nat) (s : CMiniMP3AudioStream Unit Unit), TaggedRunInv s →
      ∃ s1 : CMiniMP3AudioStream Unit Unit,
        decodeCalls (taggedFrameHost 4294987296) 1 4609 k s = some s1 ∧ TaggedRunInv s1 ∧
        s1.m_uDataPosition = (s.m_uDataPosition + 8192 * k) % UINT_RANGE ∧
        frameBytesOfDecode s1.log = frameBytesOfDecode s.log + 8192 * k := by
  intro k
  induction k with
  | zero =>
    intro s hs
    refine ⟨s, rfl, hs, ?_, rfl⟩
    have hlt := hs.2.2.2.2.2.2.2.1
    rw [Nat.mul_zero, Nat.add_zero, Nat.mod_eq_of_lt hlt]
  | succ k ih =>
    intro s hs
    obtain ⟨h1, h2, h3, h4, h5⟩ := DecodeFrame_taggedRun s (fun _ => 0) 0 hs
    obtain ⟨s1, e1, i1, p1, q1⟩ := ih _ h1
    refine ⟨s1, ?_, i1, ?_, ?_⟩
    · rw [decodeCalls_succ_single (taggedFrameHost 4294987296) k s h4 h5]
      exact e1
    · rw [p1, h2]
      unfold UINT_RANGE
      omega
    · rw [q1, h3]
      omega


/-- C12, counterexample: a stream of 2^32 + 20000 bytes that starts with a frame of 8092 bytes and
goes on with frames of 8192 bytes, each decoded to 1152 mono samples by a decoder that never reads
past its view. After construction and 524288 `Decode` calls with a 4609-byte buffer, one frame
each, the frames consumed X = 2^32 - 100 bytes and the data cursor has wrapped to 0. The next
`DecodeFrame` of that run refills from stream offset 0, so byte 100 of its 8292-byte view is 255,
stream byte 0; `SetPosition( X )` on a fresh object reads 4096 bytes from stream offset X, so byte
100 of its 16384-byte view is 123, stream byte 2^32. Both views start with stream byte X, which is
23, and index 100 is below both view lengths, where they differ. -/
theorem seek_view_differs_past_unsigned_range :
    ReadsStream (taggedFrameHost 4294987296) taggedStream 4294987296 ∧
    ConsumesWithinView (taggedFrameHost 4294987296) ∧
    ∃ s : CMiniMP3AudioStream Unit Unit,
      decodeCalls (taggedFrameHost 4294987296) 1 4609 524288
        (construct (taggedFrameHost 4294987296) ()) = some s ∧
      ReachableByDecode (taggedFrameHost 4294987296) s ∧
      frameBytesOfDecode s.log = 4294967196 ∧ 4294967196 < UINT_RANGE ∧
      viewLength (shiftLoop (taggedFrameHost 4294987296)
        (s.m_uFramePosition / (2 * kChunkSize)) s) = 8292 ∧
      viewLength (SetPosition (taggedFrameHost 4294987296)
        (construct (taggedFrameHost 4294987296) ()) 4294967196) = 16384 ∧
      viewBytes (shiftLoop (taggedFrameHost 4294987296)
        (s.m_uFramePosition / (2 * kChunkSize)) s) 0 = 23 ∧
      viewBytes (SetPosition (taggedFrameHost 4294987296)
        (construct (taggedFrameHost 4294987296) ()) 4294967196) 0 = 23 ∧
      taggedStream 4294967196 = 23 ∧
      viewBytes (shiftLoop (taggedFrameHost 4294987296)
        (s.m_uFramePosition / (2 * kChunkSize)) s) 100 = 255 ∧
      viewBytes (SetPosition (taggedFrameHost 4294987296)
        (construct (taggedFrameHost 4294987296) ()) 4294967196) 100 = 123 ∧
      taggedStream (4294967196 + 100) = 123 := by
  have hfirst : decodeCalls (taggedFrameHost 4294987296) 1 4609 524288
      (construct (taggedFrameHost 4294987296) ()) =
      decodeCalls (taggedFrameHost 4294987296) 1 4609 524287
        (DecodeFrame (taggedFrameHost 4294987296) (construct (taggedFrameHost 4294987296) ())
          (fun _ => 0) 0).2.2 :=
    decodeCalls_succ_single (taggedFrameHost 4294987296) 524287
      (construct (taggedFrameHost 4294987296) ()) (by decide) (by decide)
  have hsecond : decodeCalls (taggedFrameHost 4294987296) 1 4609 524287
      (DecodeFrame (taggedFrameHost 4294987296) (construct (taggedFrameHost 4294987296) ())
        (fun _ => 0) 0).2.2 =
      decodeCalls (taggedFrameHost 4294987296) 1 4609 524286
        (DecodeFrame (taggedFrameHost 4294987296)
          (DecodeFrame (taggedFrameHost 4294987296) (construct (taggedFrameHost 4294987296) ())
            (fun _ => 0) 0).2.2 (fun _ => 0) 0).2.2 :=
    decodeCalls_succ_single (taggedFrameHost 4294987296) 524286 _ (by decide) (by decide)
  have hinv : TaggedRunInv (DecodeFrame (taggedFrameHost 4294987296)
      (DecodeFrame (taggedFrameHost 4294987296) (construct (taggedFrameHost 4294987296) ())
        (fun _ => 0) 0).2.2 (fun _ => 0) 0).2.2 :=
    ⟨by decide, by decide, by decide, by decide, by decide, by decide, by decide, by decide,
      by decide⟩
  obtain ⟨s1, e1, i1, p1, q1⟩ := decodeCalls_taggedRun 524286 _ hinv
  have hcalls := (hfirst.trans hsecond).trans e1
  have hdp : s1.m_uDataPosition = 0 := by
    rw [p1]
    decide
  have hX : frameBytesOfDecode s1.log = 4294967196 := by
    rw [q1]
    decide
  obtain ⟨z0, z1, z2, z3, he, hfp, hmod, hlt, hb⟩ := i1
  have hloop := shiftLoop_once (taggedFrameHost 4294987296) s1 (by omega) (by omega) he hmod hlt
  obtain ⟨_, _, t3, t4, t5, t6, t7, t8, _⟩ :=
    shiftAndRefill_whole (taggedFrameHost 4294987296) taggedStream 4294987296
      (fun _ _ => ⟨rfl, fun _ _ => rfl⟩) s1 hlt (by decide)
  have tfp : (shiftAndRefill (taggedFrameHost 4294987296) s1).m_uFramePosition = 8092 := by
    rw [shiftAndRefill_framePos, hfp]
    rfl
  refine ⟨fun _ _ => ⟨rfl, fun _ _ => rfl⟩, taggedFrameHost_consumesWithinView 4294987296, s1,
    hcalls, decodeCalls_reachable _ _ _ _ _ _ (ReachableByDecode.construct ()) hcalls, hX,
    by decide, ?_, by decide, ?_, by decide, by decide, ?_, by decide, by decide⟩
  · rw [hloop]
    unfold viewLength GetTotalChunkSizes
    rw [t3, t4, t5, t6, z2, z3, tfp]
    decide
  · rw [hloop]
    show (shiftAndRefill (taggedFrameHost 4294987296) s1).m_FullFrame
      ((shiftAndRefill (taggedFrameHost 4294987296) s1).m_uFramePosition + 0) = 23
    rw [tfp, t7 (8092 + 0) (by decide)]
    show s1.m_FullFrame 16284 = 23
    rw [hb, hdp]
    decide
  · rw [hloop]
    show (shiftAndRefill (taggedFrameHost 4294987296) s1).m_FullFrame
      ((shiftAndRefill (taggedFrameHost 4294987296) s1).m_uFramePosition + 100) = 255
    rw [tfp, t8 (8092 + 100) (by decide) (by decide), hdp]
    decide


end Lemmas

end VAudioMiniMP3
